import Mathlib

/-!
# Local-adjustment compositor of `rtengine/iplocallab.cc`

A shallow embedding of the zone classifier (`calcTransition`,
`calcTransitionrect`), the perceptual gate and the effect compositor
(`transit_shapedetect`) of `src/rtengine/iplocallab.cc`.

Conventions of the embedding.

* `float` values are exact rationals (`ℚ`): the theorems are about the
  arithmetic the code spells out, not about rounding.  `int` values are `ℤ`.
* The C library and the helpers of `rt_math.h`, `sleef.c` and `gauss.h` that
  the file calls but that are not part of it (`sqrt`, `cos`, `sin`, `log`,
  `pow`, `xatan2f`, `xsincosf`, `RT_PI`, `gaussianBlur`) are the fields of a
  parameter record `Libm`; every definition that calls one of them takes the
  record as its first argument.
* A `float **` buffer is a function of (row, column).
* Output parameters passed by reference (`int &zone, float &localFactor`)
  become the components of the returned pair.
-/

namespace Locallab

/-! ## Macros -/

/-- The `SQR` helper: the square of its argument. -/
def SQR (x : ℚ) : ℚ := x * x

/-- The constant `maxscope` (`#define maxscope 1.25`). -/
def maxscope : ℚ := 5 / 4

/-- The constant `minscope` (`#define minscope 0.025`). -/
def minscope : ℚ := 1 / 40

/-- The chroma clamp
`#define CLIPC(a) ((a)>-42000?((a)<42000?(a):42000):-42000)`. -/
def CLIPC (a : ℚ) : ℚ :=
  if a > -42000 then (if a < 42000 then a else 42000) else -42000

/-- Modelled from the spec: the upper bound `MAXVALF` of the luma clamp, a
constant of `rt_math.h`, which is not among the sources.  The specification
clamps luma to `[0, upper bound]` with upper bound 65535. -/
def MAXVALF : ℚ := 65535

/-- Modelled from the spec: the helper `LIM(a, b, c)` of `rt_math.h`, which is
not among the sources: `a` limited to the interval `[b, c]`. -/
def LIM (a b c : ℚ) : ℚ := max b (min c a)

/-- Modelled from the spec: the luma clamp `CLIP` of `rt_math.h`, which is not
among the sources: every output luma is clamped to `[0, upper bound]`. -/
def CLIP (a : ℚ) : ℚ := LIM a 0 MAXVALF

/-- The conversion `int (x)` of a `float` to an `int`: truncation toward
zero. -/
def truncInt (q : ℚ) : ℤ := if 0 ≤ q then ⌊q⌋ else ⌈q⌉

/-! ## External functions -/

/-- The functions and constants that `iplocallab.cc` takes from the C library
and from headers outside the file. -/
structure Libm where
  /-- The square root `sqrt`. -/
  sqrt : ℚ → ℚ
  /-- The cosine `cos` / `xcosf`. -/
  cos : ℚ → ℚ
  /-- The sine `sin`. -/
  sin : ℚ → ℚ
  /-- The natural logarithm `log`. -/
  log : ℚ → ℚ
  /-- The power function `pow (base, exponent)`. -/
  pow : ℚ → ℚ → ℚ
  /-- The two-argument arctangent `xatan2f (y, x)`. -/
  atan2 : ℚ → ℚ → ℚ
  /-- The constant `rtengine::RT_PI`. -/
  RT_PI : ℚ
  /-- The blur `gaussianBlur (src, dst, W, H, radius)`, as the function giving
  `dst` from `src`, the width, the height and the radius. -/
  gaussianBlur : (ℤ → ℤ → ℚ) → ℤ → ℤ → ℚ → (ℤ → ℤ → ℚ)

/-! ## Data model -/

/-- The fields of `struct local_params` that the embedded functions read. -/
structure local_params where
  yc : ℚ
  xc : ℚ
  lx : ℚ
  ly : ℚ
  lxL : ℚ
  lyT : ℚ
  iterat : ℚ
  cir : ℤ
  thr : ℚ
  stru : ℚ
  sens : ℤ
  sensh : ℤ
  senscb : ℤ
  senstm : ℤ
  sensex : ℤ
  senssf : ℤ
  senshs : ℤ
  sensv : ℤ
  senssha : ℤ
  senslc : ℤ
  actsp : Bool
  struco : ℚ
  strengrid : ℚ
  struexp : ℚ
  blurexp : ℚ
  blurcol : ℚ
  blurSH : ℚ
  trans : ℤ
  showmaskcolmet : ℤ
  showmaskexpmet : ℤ
  showmaskSHmet : ℤ
  shapmet : ℤ
  enaColorMask : Bool
  enaExpMask : Bool
  enaSHMask : Bool

/-- A `LabImage`: width, height and the three channel planes, each addressed
by (row, column). -/
structure LabImage where
  W : ℤ
  H : ℤ
  L : ℤ → ℤ → ℚ
  a : ℤ → ℤ → ℚ
  b : ℤ → ℤ → ℚ

/-! ## Zone classifier -/

/-- The function `calcLocalFactor`: the half-cosine weight of the ellipse
transition. -/
def calcLocalFactor (m : Libm) (lox loy lcx dx lcy dy ach : ℚ) : ℚ :=
  let kelip := dx / dy
  let belip := m.sqrt (SQR ((lox - lcx) / kelip) + SQR (loy - lcy))
  let aelip := belip * kelip
  let degrad := aelip / dx
  let ap := m.RT_PI / (1 - ach)
  let bp := m.RT_PI - ap
  (1 / 2) * (1 + m.cos (degrad * ap + bp))

/-- The function `calcLocalFactorrect`: the weight of the rectangle
transition. -/
def calcLocalFactorrect (m : Libm) (lox loy lcx dx lcy dy ach : ℚ) : ℚ :=
  let eps : ℚ := 1 / 10000
  let krap := |dx / dy|
  let kx := lox - lcx
  let ky := loy - lcy
  let ref :=
    if |kx / (ky + eps)| < krap then
      m.sqrt (SQR dy * (1 + SQR (kx / (ky + eps))))
    else
      m.sqrt (SQR dx * (1 + SQR (ky / (kx + eps))))
  let rad := m.sqrt (SQR kx + SQR ky)
  let coef := rad / ref
  let ac := 1 / (ach - 1)
  let fact := ac * (coef - 1)
  fact

/-- The function `calcTransitionrect`.  The result is the pair
(`zone`, `localFactor`); `localFactor0` is the value the caller's variable
holds on entry, which is kept unless the zone is 1. -/
def calcTransitionrect (m : Libm) (lox loy ach : ℚ) (lp : local_params)
    (localFactor0 : ℚ) : ℤ × ℚ :=
  if lox ≥ lp.xc ∧ lox < lp.xc + lp.lx ∧ loy ≥ lp.yc ∧ loy < lp.yc + lp.ly then
    if lox < lp.xc + lp.lx * ach ∧ loy < lp.yc + lp.ly * ach then
      (2, localFactor0)
    else
      (1, calcLocalFactorrect m lox loy lp.xc lp.lx lp.yc lp.ly ach)
  else if lox ≥ lp.xc ∧ lox < lp.xc + lp.lx ∧ loy < lp.yc ∧ loy > lp.yc - lp.lyT then
    if lox < lp.xc + lp.lx * ach ∧ loy > lp.yc - lp.lyT * ach then
      (2, localFactor0)
    else
      (1, calcLocalFactorrect m lox loy lp.xc lp.lx lp.yc lp.lyT ach)
  else if lox < lp.xc ∧ lox > lp.xc - lp.lxL ∧ loy ≤ lp.yc ∧ loy > lp.yc - lp.lyT then
    if lox > lp.xc - lp.lxL * ach ∧ loy > lp.yc - lp.lyT * ach then
      (2, localFactor0)
    else
      (1, calcLocalFactorrect m lox loy lp.xc lp.lxL lp.yc lp.lyT ach)
  else if lox < lp.xc ∧ lox > lp.xc - lp.lxL ∧ loy > lp.yc ∧ loy < lp.yc + lp.ly then
    if lox > lp.xc - lp.lxL * ach ∧ loy < lp.yc + lp.ly * ach then
      (2, localFactor0)
    else
      (1, calcLocalFactorrect m lox loy lp.xc lp.lxL lp.yc lp.ly ach)
  else
    (0, localFactor0)

/-- The body shared by the four quadrant branches of `calcTransition`, for
the half-extents `ex`, `ey` of the quadrant: `zone = zoneVal < 1 ? 2 : 0`,
then, when the zone is still 0, `zone = (zoneVal > 1 && outer < 1) ? 1 : 0`
and the weight is computed when the zone is 1. -/
def calcTransitionQuadrant (m : Libm) (lox loy ach : ℚ) (xc yc ex ey : ℚ)
    (localFactor0 : ℚ) : ℤ × ℚ :=
  let zoneVal := SQR ((lox - xc) / (ach * ex)) + SQR ((loy - yc) / (ach * ey))
  let zone : ℤ := if zoneVal < 1 then 2 else 0
  if zone = 0 then
    let zone1 : ℤ :=
      if zoneVal > 1 ∧ SQR ((lox - xc) / ex) + SQR ((loy - yc) / ey) < 1 then 1 else 0
    if zone1 ≠ 0 then
      (zone1, calcLocalFactor m lox loy xc ex yc ey ach)
    else
      (zone1, localFactor0)
  else
    (zone, localFactor0)

/-- The function `calcTransition`.  The result is the pair
(`zone`, `localFactor`): zone 0 is outside the selection, 1 the transition
zone, 2 inside the selection. -/
def calcTransition (m : Libm) (lox loy ach : ℚ) (lp : local_params)
    (localFactor0 : ℚ) : ℤ × ℚ :=
  if lox ≥ lp.xc ∧ lox < lp.xc + lp.lx ∧ loy ≥ lp.yc ∧ loy < lp.yc + lp.ly then
    calcTransitionQuadrant m lox loy ach lp.xc lp.yc lp.lx lp.ly localFactor0
  else if lox ≥ lp.xc ∧ lox < lp.xc + lp.lx ∧ loy < lp.yc ∧ loy > lp.yc - lp.lyT then
    calcTransitionQuadrant m lox loy ach lp.xc lp.yc lp.lx lp.lyT localFactor0
  else if lox < lp.xc ∧ lox > lp.xc - lp.lxL ∧ loy ≤ lp.yc ∧ loy > lp.yc - lp.lyT then
    calcTransitionQuadrant m lox loy ach lp.xc lp.yc lp.lxL lp.lyT localFactor0
  else if lox < lp.xc ∧ lox > lp.xc - lp.lxL ∧ loy > lp.yc ∧ loy < lp.yc + lp.ly then
    calcTransitionQuadrant m lox loy ach lp.xc lp.yc lp.lxL lp.ly localFactor0
  else
    (0, localFactor0)

/-! ## Perceptual gate -/

/-- The lower threshold `mindE = 2.f + minscope * varsens * lp.thr`. -/
def mindE (varsens thr : ℚ) : ℚ := 2 + minscope * varsens * thr

/-- The upper threshold
`maxdE = 5.f + maxscope * varsens * (1 + 0.1f * lp.thr)`. -/
def maxdE (varsens thr : ℚ) : ℚ := 5 + maxscope * varsens * (1 + (1 / 10) * thr)

/-- The value of the variable `reducdE` of `transit_shapedetect` after the
three tests on `dE`, before the power is applied.  The tests are made one
after the other, as in the source, each overwriting the result of the
previous ones. -/
def gateBase (varsens thr dE : ℚ) : ℚ :=
  let ar := 1 / (mindE varsens thr - maxdE varsens thr)
  let br := - ar * maxdE varsens thr
  let r0 : ℚ := 0
  let r1 := if dE > maxdE varsens thr then 0 else r0
  let r2 := if dE > mindE varsens thr ∧ dE ≤ maxdE varsens thr then ar * dE + br else r1
  let r3 := if dE ≤ mindE varsens thr then 1 else r2
  r3

/-- The gate `reducdE` of `transit_shapedetect`, as a function of the
sensitivity `varsens`, the threshold `lp.thr`, the exponent `lp.iterat` and
the distance `dE`: `reducdE = pow (reducdE, lp.iterat)`, then
`if (varsens > 99) reducdE = 1.f`. -/
def reducdE (m : Libm) (varsens thr iterat dE : ℚ) : ℚ :=
  let r4 := m.pow (gateBase varsens thr dE) iterat
  if varsens > 99 then 1 else r4

/-! ## Effect compositor -/

/-- The three channel planes of the output image. -/
inductive Chan where
  | L
  | a
  | b
  deriving DecidableEq, Repr

/-- One assignment `transformed->chan[y][x] = val`. -/
structure Store where
  chan : Chan
  val : ℚ

/-- The value of channel `c` of a pixel after the stores `ws`, made in list
order, when it held `prev` before. -/
def lastStore (c : Chan) (ws : List Store) (prev : ℚ) : ℚ :=
  ws.foldl (fun v w => if w.chan = c then w.val else v) prev

/-- The sensitivity `varsens` that `transit_shapedetect` selects for the tool
code `senstype`. -/
def varsens (senstype : ℤ) (lp : local_params) : ℚ :=
  let v0 : ℚ := lp.sensex
  let v1 : ℚ := if senstype = 0 then lp.sens else v0
  let v2 : ℚ := if senstype = 1 then lp.sensex else v1
  let v3 : ℚ := if senstype = 2 then lp.sensv else v2
  let v4 : ℚ := if senstype = 3 then lp.senssf else v3
  let v5 : ℚ := if senstype = 4 ∨ senstype = 5 then lp.sensh else v4
  let v6 : ℚ := if senstype = 6 ∨ senstype = 7 then lp.senscb else v5
  let v7 : ℚ := if senstype = 8 then lp.senstm else v6
  let v8 : ℚ := if senstype = 9 then lp.senshs else v7
  v8

/-- The mask-preview test `expshow || colshow || SHshow` of
`transit_shapedetect`. -/
def previewShow (senstype : ℤ) (lp : local_params) : Bool :=
  let expshow := (lp.showmaskexpmet = 1 ∨ lp.showmaskexpmet = 2) ∧ senstype = 1
  let colshow := (lp.showmaskcolmet = 1 ∨ lp.showmaskcolmet = 2) ∧ senstype = 0
  let SHshow := (lp.showmaskSHmet = 1 ∨ lp.showmaskSHmet = 2) ∧ senstype = 9
  decide (expshow ∨ colshow ∨ SHshow)

/-- The test `usemask || usemaskcol || usemaskSH` of `transit_shapedetect`. -/
def useAnyMask (senstype : ℤ) (lp : local_params) : Bool :=
  let usemask := (lp.showmaskexpmet = 2 ∨ lp.enaExpMask = true) ∧ senstype = 1
  let usemaskcol := (lp.showmaskcolmet = 2 ∨ lp.enaColorMask = true) ∧ senstype = 0
  let usemaskSH := (lp.showmaskSHmet = 2 ∨ lp.enaSHMask = true) ∧ senstype = 9
  decide (usemask ∨ usemaskcol ∨ usemaskSH)

/-- The blur radius of `transit_shapedetect`. -/
def blurRadius (senstype : ℤ) (lp : local_params) (sk : ℤ) : ℚ :=
  let r0 : ℚ := 3 / sk
  let r1 : ℚ := if senstype = 1 then (2 + (1 / 5) * lp.blurexp) / sk else r0
  let r2 : ℚ := if senstype = 0 then (2 + (1 / 5) * lp.blurcol) / sk else r1
  let r3 : ℚ := if senstype = 9 then (2 + (1 / 5) * lp.blurSH) / sk else r2
  r3

/-- The hue `newhr` of the `if (HHutili && hhro != 0.f)` block: the rotated
hue, wrapped once into `[-RT_PI, RT_PI]`; 0 when the block is not entered. -/
def newhrOf (m : Libm) (HHutili : Bool) (hhro rhue addh : ℚ) : ℚ :=
  if HHutili = true ∧ hhro ≠ 0 then
    let newhr := rhue + addh
    if newhr > m.RT_PI then newhr - 2 * m.RT_PI
    else if newhr < - m.RT_PI then newhr + 2 * m.RT_PI
    else newhr
  else 0

/-- The values that `transit_shapedetect` has computed for one pixel when it
reaches `switch (zone)`. -/
structure PixelVals where
  /-- The hue `rhue` of the blurred original. -/
  rhue : ℚ
  /-- The hue delta `hhro` (0 unless `HHutili`). -/
  hhro : ℚ
  /-- The gated lightness delta `realstrdE = reducdE * cli`. -/
  realstrdE : ℚ
  /-- The gated a-axis delta `realstradE = reducdE * cla`. -/
  realstradE : ℚ
  /-- The gated b-axis delta `realstrbdE = reducdE * clb`. -/
  realstrbdE : ℚ
  /-- The gated chroma delta `realstrchdE = reducdE * clc`. -/
  realstrchdE : ℚ
  /-- The gated hue delta `realhhdE = reducdE * hhro`. -/
  realhhdE : ℚ
  /-- The value `bufexporig->L[loy - begy][lox - begx]`. -/
  bufL : ℚ
  /-- The value `bufexporig->a[loy - begy][lox - begx]`. -/
  bufa : ℚ
  /-- The value `bufexporig->b[loy - begy][lox - begx]`. -/
  bufb : ℚ
  /-- The value `original->L[y][x]`. -/
  oL : ℚ
  /-- The value `original->a[y][x]`. -/
  oa : ℚ
  /-- The value `original->b[y][x]`. -/
  ob : ℚ

/-- The factors `flia`, `flib` of the chroma branch, the same in `case 1` and
`case 2`. -/
def fliab (senstype : ℤ) (lp : local_params) (v : PixelVals) : ℚ × ℚ :=
  if senstype = 4 ∨ senstype = 6 ∨ senstype = 2 ∨ senstype = 3 ∨ senstype = 8
      ∨ senstype = 9 then
    ((100 + v.realstrchdE) / 100, (100 + v.realstrchdE) / 100)
  else if senstype = 1 then
    ((100 + v.realstradE + 100 * v.realstrchdE) / 100,
     (100 + v.realstrbdE + 100 * v.realstrchdE) / 100)
  else if senstype = 0 then
    ((100 + (3 / 10) * lp.strengrid * v.realstradE + v.realstrchdE) / 100,
     (100 + (3 / 10) * lp.strengrid * v.realstrbdE + v.realstrchdE) / 100)
  else
    (1, 1)

/-- The stores of `case 1` (inside the transition zone) of the `switch (zone)`
of `transit_shapedetect`, in program order; `localFactor` is the zone
weight. -/
def zone1Stores (m : Libm) (senstype : ℤ) (lp : local_params) (HHutili : Bool)
    (localFactor : ℚ) (v : PixelVals) : List Store :=
  let factorx := localFactor
  -- lightness
  let storesL : List Store :=
    if senstype = 4 ∨ senstype = 6 ∨ senstype = 2 ∨ senstype = 3 ∨ senstype = 8 then
      let lightc := v.bufL
      let fli := (100 + v.realstrdE) / 100
      let diflc := lightc * fli - v.oL
      let diflc := diflc * factorx
      [⟨Chan.L, CLIP (v.oL + diflc)⟩]
    else if senstype = 1 ∨ senstype = 0 ∨ senstype = 9 then
      [⟨Chan.L, CLIP (v.oL + 328 * factorx * v.realstrdE)⟩]
    else []
  let diflc : ℚ :=
    if senstype = 4 ∨ senstype = 6 ∨ senstype = 2 ∨ senstype = 3 ∨ senstype = 8 then 0
    else if senstype = 1 ∨ senstype = 0 ∨ senstype = 9 then 328 * factorx * v.realstrdE
    else 0
  -- hue
  let addh := (1 / 100) * v.realhhdE * factorx
  let newhr := newhrOf m HHutili v.hhro v.rhue addh
  -- chroma
  let storesAB : List Store :=
    if senstype = 7 then
      let difab := v.bufL - m.sqrt (SQR v.oa + SQR v.ob)
      let difa := difab * m.cos v.rhue
      let difb := difab * m.sin v.rhue
      let difa := difa * (factorx * (100 + v.realstrchdE) / 100)
      let difb := difb * (factorx * (100 + v.realstrchdE) / 100)
      [⟨Chan.a, CLIPC (v.oa + difa)⟩, ⟨Chan.b, CLIPC (v.ob + difb)⟩]
    else
      let flia := (fliab senstype lp v).1
      let flib := (fliab senstype lp v).2
      let chra := v.bufa
      let chrb := v.bufb
      let difa := chra * flia - v.oa
      let difb := chrb * flib - v.ob
      let difa := difa * factorx
      let difb := difb * factorx
      let tempa := CLIPC (v.oa + difa)
      let tempb := CLIPC (v.ob + difb)
      let hh : Bool := decide (senstype = 0 ∧ HHutili = true ∧ v.hhro ≠ 0)
      let chromhr := m.sqrt (SQR (v.oa + difa) + SQR v.ob + difb)
      let epsia : ℚ := if v.oa = 0 then 1 / 1000 else 0
      let epsib : ℚ := if v.ob = 0 then 1 / 1000 else 0
      let faca := (v.oa + difa) / (v.oa + epsia)
      let facb := (v.ob + difb) / (v.ob + epsib)
      let hha := CLIPC (chromhr * m.cos newhr * faca)
      let hhb := CLIPC (chromhr * m.sin newhr * facb)
      let storesHH : List Store := if hh then [⟨Chan.a, hha⟩, ⟨Chan.b, hhb⟩] else []
      let difa := if hh then hha - tempa else difa
      let difb := if hh then hhb - tempb else difb
      let storesShow : List Store :=
        if previewShow senstype lp then
          [⟨Chan.L, CLIP (12000 + diflc)⟩, ⟨Chan.a, CLIPC difa⟩, ⟨Chan.b, CLIPC difb⟩]
        else []
      [⟨Chan.a, tempa⟩, ⟨Chan.b, tempb⟩] ++ storesHH ++ storesShow
  storesL ++ storesAB

/-- The stores of `case 2` (inside the selection, full effect) of the
`switch (zone)` of `transit_shapedetect`, in program order. -/
def zone2Stores (m : Libm) (senstype : ℤ) (lp : local_params) (HHutili : Bool)
    (v : PixelVals) : List Store :=
  -- lightness
  let storesL : List Store :=
    if senstype = 4 ∨ senstype = 6 ∨ senstype = 2 ∨ senstype = 3 ∨ senstype = 8 then
      let lightc := v.bufL
      let fli := (100 + v.realstrdE) / 100
      let diflc := lightc * fli - v.oL
      [⟨Chan.L, CLIP (v.oL + diflc)⟩]
    else if senstype = 1 ∨ senstype = 0 ∨ senstype = 9 then
      [⟨Chan.L, CLIP (v.oL + 328 * v.realstrdE)⟩]
    else []
  let diflc : ℚ :=
    if senstype = 4 ∨ senstype = 6 ∨ senstype = 2 ∨ senstype = 3 ∨ senstype = 8 then 0
    else if senstype = 1 ∨ senstype = 0 ∨ senstype = 9 then 328 * v.realstrdE
    else 0
  -- hue
  let addh := (1 / 100) * v.realhhdE
  let newhr := newhrOf m HHutili v.hhro v.rhue addh
  -- chroma
  let storesAB : List Store :=
    if senstype = 7 then
      let difab := v.bufL - m.sqrt (SQR v.oa + SQR v.ob)
      let difa := difab * m.cos v.rhue
      let difb := difab * m.sin v.rhue
      let difa := difa * ((100 + v.realstrchdE) / 100)
      let difb := difb * ((100 + v.realstrchdE) / 100)
      [⟨Chan.a, CLIPC (v.oa + difa)⟩, ⟨Chan.b, CLIPC (v.ob + difb)⟩]
    else
      let flia := (fliab senstype lp v).1
      let flib := (fliab senstype lp v).2
      let chra := v.bufa
      let chrb := v.bufb
      let difa := chra * flia - v.oa
      let difb := chrb * flib - v.ob
      let tempa := CLIPC (v.oa + difa)
      let tempb := CLIPC (v.ob + difb)
      let hh : Bool := decide (senstype = 0 ∧ HHutili = true ∧ v.hhro ≠ 0)
      let chromhr := m.sqrt (SQR (v.oa + difa) + SQR v.ob + difb)
      let epsia : ℚ := if v.oa = 0 then 1 / 1000 else 0
      let epsib : ℚ := if v.ob = 0 then 1 / 1000 else 0
      let faca := (v.oa + difa) / (v.oa + epsia)
      let facb := (v.ob + difb) / (v.ob + epsib)
      let hha := CLIPC (chromhr * m.cos newhr * faca)
      let hhb := CLIPC (chromhr * m.sin newhr * facb)
      let storesHH : List Store := if hh then [⟨Chan.a, hha⟩, ⟨Chan.b, hhb⟩] else []
      let difa := if hh then hha - tempa else difa
      let difb := if hh then hhb - tempb else difb
      let storesShow : List Store :=
        if previewShow senstype lp then
          [⟨Chan.L, CLIP (12000 + diflc)⟩, ⟨Chan.a, CLIPC difa⟩, ⟨Chan.b, CLIPC difb⟩]
        else []
      [⟨Chan.a, tempa⟩, ⟨Chan.b, tempb⟩] ++ storesHH ++ storesShow
  storesL ++ storesAB

/-- The `switch (zone)` of `transit_shapedetect`, under its guard
`if (rL > 0.1f)`: the stores made for a pixel of zone `zone`. -/
def switchStores (m : Libm) (senstype : ℤ) (lp : local_params) (HHutili : Bool)
    (rL : ℚ) (zone : ℤ) (localFactor : ℚ) (v : PixelVals) : List Store :=
  if rL > 1 / 10 then
    if zone = 0 then
      [⟨Chan.L, v.oL⟩, ⟨Chan.a, v.oa⟩, ⟨Chan.b, v.ob⟩]
    else if zone = 1 then
      zone1Stores m senstype lp HHutili localFactor v
    else if zone = 2 then
      zone2Stores m senstype lp HHutili v
    else []
  else []

/-- The scalars that `transit_shapedetect` derives from its arguments before
the pixel loops. -/
structure Prelude where
  /-- The transition fraction `ach = (float)lp.trans / 100.f`. -/
  ach : ℚ
  /-- The sign `k` of the structure term. -/
  k : ℚ
  /-- The reference edge strength after `sobelref = log (1.f + sobelref)`. -/
  sobelref : ℚ
  /-- The reference `refa = chromaref * cos (hueref)`. -/
  refa : ℚ
  /-- The reference `refb = chromaref * sin (hueref)`. -/
  refb : ℚ

/-- The statements of `transit_shapedetect` that precede the pixel loops. -/
def prelude (m : Libm) (lp : local_params) (hueref chromaref sobelref meansobel : ℚ) :
    Prelude :=
  let sobelref := sobelref / 100
  let meansobel := meansobel / 100
  let sobelref := if sobelref > 60 then 60 else sobelref
  let k : ℚ := if sobelref < meansobel ∧ sobelref < lp.stru then -1 else 1
  let sobelref := m.log (1 + sobelref)
  { ach := (lp.trans : ℚ) / 100
    k := k
    sobelref := sobelref
    refa := chromaref * m.cos hueref
    refb := chromaref * m.sin hueref }

/-- The zone and weight that `transit_shapedetect` computes for the pixel of
image coordinates (`lox`, `loy`): `zone = 0`, `localFactor = 1.f`, then the
classifier selected by `lp.shapmet`. -/
def pixelZone (m : Libm) (lp : local_params) (ach : ℚ) (lox loy : ℤ) : ℤ × ℚ :=
  if lp.shapmet = 0 then calcTransition m lox loy ach lp 1
  else if lp.shapmet = 1 then calcTransitionrect m lox loy ach lp 1
  else (0, 1)

/-- The row test `isZone0` of `transit_shapedetect`: the whole row `loy` is
outside the selection. -/
def isZone0 (lp : local_params) (loy : ℤ) : Bool :=
  decide ((loy : ℚ) > lp.yc + lp.ly ∨ (loy : ℚ) < lp.yc - lp.lyT)

/-- The blurred copy `origblur` of the original image. -/
def origblur (m : Libm) (senstype : ℤ) (lp : local_params) (original transformed : LabImage)
    (sk : ℤ) : LabImage :=
  let GW := transformed.W
  let GH := transformed.H
  let radius := blurRadius senstype lp sk
  { W := GW
    H := GH
    L := m.gaussianBlur original.L GW GH radius
    a := m.gaussianBlur original.a GW GH radius
    b := m.gaussianBlur original.b GW GH radius }

/-- The distance `dE` of `transit_shapedetect` at the pixel (`y`, `x`). -/
def pixel_dE (m : Libm) (senstype : ℤ) (originalmask : LabImage) (lumaref : ℚ)
    (blend2 : ℤ → ℤ → ℚ) (lp : local_params) (pre : Prelude) (oblur : LabImage)
    (transformed : LabImage) (cx cy sk : ℤ) (y x : ℤ) : ℚ :=
  let loy := cy + y
  let lox := cx + x
  let begx := truncInt (lp.xc - lp.lxL)
  let begy := truncInt (lp.yc - lp.lyT)
  let rL := oblur.L y x / (8192 / 25)
  let rs : ℚ :=
    if senstype = 1 ∨ senstype = 0 then
      let csob := blend2 (loy - begy) (lox - begx) / 100
      let csob := if csob > 60 then 60 else csob
      let csob := m.log (1 + csob + 1 / 1000)
      if pre.k = 1 then pre.sobelref / csob else csob / pre.sobelref
    else 0
  let rsob0 : ℚ := 0
  let rsob1 : ℚ :=
    if lp.struexp > 0 ∧ rs > 0 ∧ senstype = 1 then (11 / 10) * lp.struexp * rs else rsob0
  let rsob : ℚ :=
    if lp.struco > 0 ∧ rs > 0 ∧ senstype = 0 then (11 / 10) * lp.struco * rs else rsob1
  if useAnyMask senstype lp then
    let GW := transformed.W
    let GH := transformed.H
    let radius := blurRadius senstype lp sk
    let mL := m.gaussianBlur originalmask.L GW GH radius
    let ma := m.gaussianBlur originalmask.a GW GH radius
    let mb := m.gaussianBlur originalmask.b GW GH radius
    rsob + m.sqrt (SQR (pre.refa - ma y x / (8192 / 25)) + SQR (pre.refb - mb y x / (8192 / 25))
      + SQR (lumaref - mL y x / (8192 / 25)))
  else
    rsob + m.sqrt (SQR (pre.refa - oblur.a y x / (8192 / 25))
      + SQR (pre.refb - oblur.b y x / (8192 / 25)) + SQR (lumaref - rL))

/-- The gate `reducdE` of `transit_shapedetect` at the pixel (`y`, `x`). -/
def pixelGate (m : Libm) (senstype : ℤ) (originalmask : LabImage) (lumaref : ℚ)
    (blend2 : ℤ → ℤ → ℚ) (lp : local_params) (pre : Prelude) (oblur : LabImage)
    (transformed : LabImage) (cx cy sk : ℤ) (y x : ℤ) : ℚ :=
  reducdE m (varsens senstype lp) lp.thr lp.iterat
    (pixel_dE m senstype originalmask lumaref blend2 lp pre oblur transformed cx cy sk y x)

/-- The per-pixel values that `transit_shapedetect` has computed for the
pixel (`y`, `x`) when it reaches `switch (zone)`: the hue of the blurred
original, the deltas read from the buffers and multiplied by the gate, and the
values of `bufexporig` and `original` at the pixel. -/
def pixelValsAt (m : Libm) (senstype : ℤ) (bufexporig originalmask : LabImage)
    (buflight bufchro buf_a_cat buf_b_cat bufhh : ℤ → ℤ → ℚ) (HHutili : Bool)
    (hueref chromaref lumaref sobelref meansobel : ℚ) (blend2 : ℤ → ℤ → ℚ)
    (lp : local_params) (original transformed : LabImage) (cx cy sk : ℤ) (y x : ℤ) :
    PixelVals :=
  let pre := prelude m lp hueref chromaref sobelref meansobel
  let oblur := origblur m senstype lp original transformed sk
  let loy := cy + y
  let lox := cx + x
  let begx := truncInt (lp.xc - lp.lxL)
  let begy := truncInt (lp.yc - lp.lyT)
  let rhue := m.atan2 (oblur.b y x) (oblur.a y x)
  let hhro : ℚ := if HHutili then bufhh (loy - begy) (lox - begx) else 0
  let cli := buflight (loy - begy) (lox - begx)
  let clc := bufchro (loy - begy) (lox - begx)
  let cla : ℚ := if senstype = 1 ∨ senstype = 0 then buf_a_cat (loy - begy) (lox - begx) else 0
  let clb : ℚ := if senstype = 1 ∨ senstype = 0 then buf_b_cat (loy - begy) (lox - begx) else 0
  let g := pixelGate m senstype originalmask lumaref blend2 lp pre oblur transformed
    cx cy sk y x
  { rhue := rhue
    hhro := hhro
    realstrdE := g * cli
    realstradE := g * cla
    realstrbdE := g * clb
    realstrchdE := g * clc
    realhhdE := g * hhro
    bufL := bufexporig.L (loy - begy) (lox - begx)
    bufa := bufexporig.a (loy - begy) (lox - begx)
    bufb := bufexporig.b (loy - begy) (lox - begx)
    oL := original.L y x
    oa := original.a y x
    ob := original.b y x }

/-- The body of the two pixel loops of `transit_shapedetect` for the pixel
(`y`, `x`): the stores it makes to `transformed`, in program order.  A row
that passes the test `isZone0` and a pixel of zone 0 are left with
`continue`. -/
def pixelStores (m : Libm) (senstype : ℤ) (bufexporig originalmask : LabImage)
    (buflight bufchro buf_a_cat buf_b_cat bufhh : ℤ → ℤ → ℚ) (HHutili : Bool)
    (hueref chromaref lumaref sobelref meansobel : ℚ) (blend2 : ℤ → ℤ → ℚ)
    (lp : local_params) (original transformed : LabImage) (cx cy sk : ℤ) (y x : ℤ) :
    List Store :=
  let pre := prelude m lp hueref chromaref sobelref meansobel
  let oblur := origblur m senstype lp original transformed sk
  let loy := cy + y
  if isZone0 lp loy then []
  else
    let lox := cx + x
    let zl := pixelZone m lp pre.ach lox loy
    let zone := zl.1
    let localFactor := zl.2
    if zone = 0 then []
    else
      let rL := oblur.L y x / (8192 / 25)
      switchStores m senstype lp HHutili rL zone localFactor
        (pixelValsAt m senstype bufexporig originalmask buflight bufchro buf_a_cat
          buf_b_cat bufhh HHutili hueref chromaref lumaref sobelref meansobel blend2 lp
          original transformed cx cy sk y x)

/-- The function `ImProcFunctions::transit_shapedetect`: the image
`transformed` after the call.  The loops visit every pixel with
`0 <= y < transformed->H` and `0 <= x < transformed->W`; a pixel's stores read
no value of `transformed`, so the image after the call is given pixel by
pixel. -/
def transit_shapedetect (m : Libm) (senstype : ℤ) (bufexporig originalmask : LabImage)
    (buflight bufchro buf_a_cat buf_b_cat bufhh : ℤ → ℤ → ℚ) (HHutili : Bool)
    (hueref chromaref lumaref sobelref meansobel : ℚ) (blend2 : ℤ → ℤ → ℚ)
    (lp : local_params) (original transformed : LabImage) (cx cy sk : ℤ) : LabImage :=
  let stores := fun (y x : ℤ) =>
    if 0 ≤ y ∧ y < transformed.H ∧ 0 ≤ x ∧ x < transformed.W then
      pixelStores m senstype bufexporig originalmask buflight bufchro buf_a_cat buf_b_cat
        bufhh HHutili hueref chromaref lumaref sobelref meansobel blend2 lp original
        transformed cx cy sk y x
    else []
  { W := transformed.W
    H := transformed.H
    L := fun y x => lastStore Chan.L (stores y x) (transformed.L y x)
    a := fun y x => lastStore Chan.a (stores y x) (transformed.a y x)
    b := fun y x => lastStore Chan.b (stores y x) (transformed.b y x) }

/-! ## Concrete inputs for the examples -/

/-- A rational stand-in for the library functions, used to evaluate the
embedding on concrete inputs.  It is exact where the examples use it: the
square root of a rational square, a power with a natural exponent, the cosine,
sine and arctangent at angle 0, the logarithm of 1, and the blur of a constant
plane. -/
def libmQ : Libm where
  sqrt := Rat.sqrt
  cos := fun x => 1 - x * x / 2
  sin := fun x => x
  log := fun x => x - 1
  pow := fun x y => x ^ (Int.toNat ⌊y⌋)
  atan2 := fun y _ => y
  RT_PI := 355 / 113
  gaussianBlur := fun src _ _ _ => src

/-- A constant plane. -/
def constPlane (c : ℚ) : ℤ → ℤ → ℚ := fun _ _ => c

/-- An image of width `w` and height `h` whose three planes are constant. -/
def constImage (w h : ℤ) (l a b : ℚ) : LabImage :=
  { W := w, H := h, L := constPlane l, a := constPlane a, b := constPlane b }

/-- A spot centred at the origin with the four half-extents equal to 10,
transition fraction `trans / 100`, shape `shapmet`, threshold 2, exponent 2,
circle radius 2 and every sensitivity equal to `s`; no mask, no preview,
`actsp` false. -/
def spotParams (shapmet trans s : ℤ) : local_params :=
  { yc := 0, xc := 0, lx := 10, ly := 10, lxL := 10, lyT := 10
    iterat := 2, cir := 2, thr := 2, stru := 0
    sens := s, sensh := s, senscb := s, senstm := s, sensex := s, senssf := s
    senshs := s, sensv := s, senssha := s, senslc := s, actsp := false
    struco := 0, strengrid := 0, struexp := 0, blurexp := 0, blurcol := 0, blurSH := 0
    trans := trans
    showmaskcolmet := 0, showmaskexpmet := 0, showmaskSHmet := 0
    shapmet := shapmet
    enaColorMask := false, enaExpMask := false, enaSHMask := false }

/-- The valid range of a stored value: `[0, MAXVALF]` for the luma plane,
`[-42000, 42000]` for the two chroma planes. -/
def storeInRange (s : Store) : Prop :=
  match s.chan with
  | Chan.L => 0 ≤ s.val ∧ s.val ≤ MAXVALF
  | Chan.a => -42000 ≤ s.val ∧ s.val ≤ 42000
  | Chan.b => -42000 ≤ s.val ∧ s.val ≤ 42000

/-- The facts about the library function `pow` at the exponent `y` that the
gate theorems rely on; the C function has them for every exponent `y > 0`:
`pow (0, y) = 0`, `pow (1, y) = 1`, and `pow (., y)` is non-decreasing on
`[0, 1]`. -/
def PowSpec (m : Libm) (y : ℚ) : Prop :=
  m.pow 0 y = 0 ∧ m.pow 1 y = 1
    ∧ ∀ a b : ℚ, 0 ≤ a → a ≤ b → b ≤ 1 → m.pow a y ≤ m.pow b y

/-- The horizontal half-extent of the quadrant of the pixel, as
`calcTransition` and `calcTransitionrect` select it: `lp.lx` at or right of
the centre, `lp.lxL` left of it. -/
def quadEx (lp : local_params) (lox : ℚ) : ℚ :=
  if lox ≥ lp.xc then lp.lx else lp.lxL

/-- The vertical half-extent of the quadrant of the pixel, as `calcTransition`
and `calcTransitionrect` select it: right of the centre `lp.ly` when
`loy >= lp.yc` and `lp.lyT` otherwise; left of the centre `lp.lyT` when
`loy <= lp.yc` and `lp.ly` otherwise. -/
def quadEy (lp : local_params) (lox loy : ℚ) : ℚ :=
  if lox ≥ lp.xc then (if loy ≥ lp.yc then lp.ly else lp.lyT)
  else (if loy ≤ lp.yc then lp.lyT else lp.ly)

/-! ## Row test and evaluated divisions -/

/-- The body of the two pixel loops of `transit_shapedetect` with the row test
`isZone0` left out: every pixel of every row is classified.  It is the
reference against which the row short-circuit is compared. -/
def pixelStoresNoRowTest (m : Libm) (senstype : ℤ) (bufexporig originalmask : LabImage)
    (buflight bufchro buf_a_cat buf_b_cat bufhh : ℤ → ℤ → ℚ) (HHutili : Bool)
    (hueref chromaref lumaref sobelref meansobel : ℚ) (blend2 : ℤ → ℤ → ℚ)
    (lp : local_params) (original transformed : LabImage) (cx cy sk : ℤ) (y x : ℤ) :
    List Store :=
  let pre := prelude m lp hueref chromaref sobelref meansobel
  let oblur := origblur m senstype lp original transformed sk
  let loy := cy + y
  let lox := cx + x
  let zl := pixelZone m lp pre.ach lox loy
  let zone := zl.1
  let localFactor := zl.2
  if zone = 0 then []
  else
    let rL := oblur.L y x / (8192 / 25)
    switchStores m senstype lp HHutili rL zone localFactor
      (pixelValsAt m senstype bufexporig originalmask buflight bufchro buf_a_cat
        buf_b_cat bufhh HHutili hueref chromaref lumaref sobelref meansobel blend2 lp
        original transformed cx cy sk y x)

/-- The divisors of the divisions that `calcLocalFactor` evaluates, in program
order: `dx / dy`, `(lox - lcx) / kelip`, `aelip / dx`, `RT_PI / (1.f - ach)`. -/
def calcLocalFactorDivs (dx dy ach : ℚ) : List ℚ :=
  [dy, dx / dy, dx, 1 - ach]

/-- The divisors of the divisions that `calcLocalFactorrect` evaluates, in
program order: `dx / dy`, `kx / (ky + eps)` in the test, then the slope of the
branch taken, `rad / ref` and `1.f / (ach - 1.f)`. -/
def calcLocalFactorrectDivs (m : Libm) (lox loy lcx dx lcy dy ach : ℚ) : List ℚ :=
  let eps : ℚ := 1 / 10000
  let krap := |dx / dy|
  let kx := lox - lcx
  let ky := loy - lcy
  if |kx / (ky + eps)| < krap then
    [dy, ky + eps, ky + eps, m.sqrt (SQR dy * (1 + SQR (kx / (ky + eps)))), ach - 1]
  else
    [dy, ky + eps, kx + eps, m.sqrt (SQR dx * (1 + SQR (ky / (kx + eps)))), ach - 1]

/-- The divisors of the divisions evaluated by one quadrant branch of
`calcTransition`: the two of `zoneVal`, then, when `zoneVal > 1.f`, the two of
the outer test, then those of `calcLocalFactor` when the zone is 1. -/
def calcTransitionQuadrantDivs (lox loy ach : ℚ) (xc yc ex ey : ℚ) : List ℚ :=
  let zoneVal := SQR ((lox - xc) / (ach * ex)) + SQR ((loy - yc) / (ach * ey))
  if zoneVal < 1 then [ach * ex, ach * ey]
  else if zoneVal > 1 then
    if SQR ((lox - xc) / ex) + SQR ((loy - yc) / ey) < 1 then
      [ach * ex, ach * ey, ex, ey] ++ calcLocalFactorDivs ex ey ach
    else [ach * ex, ach * ey, ex, ey]
  else [ach * ex, ach * ey]

/-- The divisors of the divisions that `calcTransition` evaluates. -/
def calcTransitionDivs (lox loy ach : ℚ) (lp : local_params) : List ℚ :=
  if lox ≥ lp.xc ∧ lox < lp.xc + lp.lx ∧ loy ≥ lp.yc ∧ loy < lp.yc + lp.ly then
    calcTransitionQuadrantDivs lox loy ach lp.xc lp.yc lp.lx lp.ly
  else if lox ≥ lp.xc ∧ lox < lp.xc + lp.lx ∧ loy < lp.yc ∧ loy > lp.yc - lp.lyT then
    calcTransitionQuadrantDivs lox loy ach lp.xc lp.yc lp.lx lp.lyT
  else if lox < lp.xc ∧ lox > lp.xc - lp.lxL ∧ loy ≤ lp.yc ∧ loy > lp.yc - lp.lyT then
    calcTransitionQuadrantDivs lox loy ach lp.xc lp.yc lp.lxL lp.lyT
  else if lox < lp.xc ∧ lox > lp.xc - lp.lxL ∧ loy > lp.yc ∧ loy < lp.yc + lp.ly then
    calcTransitionQuadrantDivs lox loy ach lp.xc lp.yc lp.lxL lp.ly
  else
    []

/-- The divisors of the divisions that `calcTransitionrect` evaluates: those
of `calcLocalFactorrect` when the pixel is in the transition zone. -/
def calcTransitionrectDivs (m : Libm) (lox loy ach : ℚ) (lp : local_params) : List ℚ :=
  if lox ≥ lp.xc ∧ lox < lp.xc + lp.lx ∧ loy ≥ lp.yc ∧ loy < lp.yc + lp.ly then
    if lox < lp.xc + lp.lx * ach ∧ loy < lp.yc + lp.ly * ach then []
    else calcLocalFactorrectDivs m lox loy lp.xc lp.lx lp.yc lp.ly ach
  else if lox ≥ lp.xc ∧ lox < lp.xc + lp.lx ∧ loy < lp.yc ∧ loy > lp.yc - lp.lyT then
    if lox < lp.xc + lp.lx * ach ∧ loy > lp.yc - lp.lyT * ach then []
    else calcLocalFactorrectDivs m lox loy lp.xc lp.lx lp.yc lp.lyT ach
  else if lox < lp.xc ∧ lox > lp.xc - lp.lxL ∧ loy ≤ lp.yc ∧ loy > lp.yc - lp.lyT then
    if lox > lp.xc - lp.lxL * ach ∧ loy > lp.yc - lp.lyT * ach then []
    else calcLocalFactorrectDivs m lox loy lp.xc lp.lxL lp.yc lp.lyT ach
  else if lox < lp.xc ∧ lox > lp.xc - lp.lxL ∧ loy > lp.yc ∧ loy < lp.yc + lp.ly then
    if lox > lp.xc - lp.lxL * ach ∧ loy < lp.yc + lp.ly * ach then []
    else calcLocalFactorrectDivs m lox loy lp.xc lp.lxL lp.yc lp.ly ach
  else
    []

/-- A rectangle or ellipse spot centred at the origin with the half-extents
left 100, right 50, top `top` and bottom 80, of shape `shapmet` and transition
fraction `trans / 100`. -/
def asymParams (shapmet trans : ℤ) (top : ℚ) : local_params :=
  { spotParams shapmet trans 50 with lx := 50, lxL := 100, ly := 80, lyT := top }

/-- A spot centred at the origin whose four half-extents are equal to `e`. -/
def tinyParams (shapmet trans : ℤ) (e : ℚ) : local_params :=
  { spotParams shapmet trans 50 with lx := e, lxL := e, ly := e, lyT := e }

/-! ## Parameter resolution -/

/-- The fields of a stored spot configuration `locallab.spots.at(sp)` that the
embedded part of `calcLocalParams` reads (the type `LocallabParams` is declared
in `procparams.h`). -/
structure LocallabSpot where
  /-- The stored threshold tunable `thresh`. -/
  thresh : ℚ
  /-- The stored edge-falloff exponent `iter`. -/
  iter : ℚ

/-- The part of `calcLocalParams` that resolves the threshold and the
exponent: `thre` and `iterati` are read from the stored spot, replaced by
`2.f` when out of range, and stored in `lp.thr` and `lp.iterat`.  The other
fields of `lp`, which the function fills from further stored values, are left
as in the incoming block. -/
def calcLocalParams (spot : LocallabSpot) (lp : local_params) : local_params :=
  let thre := spot.thresh
  let thre := if thre > 8 ∨ thre < 0 then 2 else thre
  let iterati := spot.iter
  let iterati := if iterati > 4 ∨ iterati < 1 / 5 then 2 else iterati
  { lp with iterat := iterati, thr := thre }

/-! ## Mask evaluators and mask previews -/

/-- The luma clamp `#define CLIPLOC(x) LIM(x,0.f,32767.f)`. -/
def CLIPLOC (x : ℚ) : ℚ := LIM x 0 32767

/-- Modelled from the spec: the helper `LIM01` of `rt_math.h`, which is not
among the sources: its argument limited to `[0, 1]`. -/
def LIM01 (x : ℚ) : ℚ := LIM x 0 1

/-- A mask curve object (`LocLLmaskCurve`, `LocCCmaskCurve`, `LocHHmaskCurve`,
declared outside the file): `valid` is its conversion to `bool`, `val` its
indexing operator. -/
structure MaskCurve where
  valid : Bool
  val : ℚ → ℚ

/-- The values that a mask evaluator of `Lab_Local` stores for one pixel of
the spot box: the three planes of the raw mask `bufmaskblur`, and the
normalised mask `ble` and guide `guid` handed to the guided filter. -/
structure MaskPixel where
  L : ℚ
  a : ℚ
  b : ℚ
  ble : ℚ
  guid : ℚ

/-- The colour-and-light mask evaluator of `Lab_Local` for one pixel of the
spot box, when the mask is in use (`lp.showmaskcolmet == 2 || lp.enaColorMask
|| lp.showmaskcolmet == 3`).  `bL`, `ba`, `bb` are the values of `bufcolorig`
at the pixel and `huelab_to_huehsv2` is `Color::huelab_to_huehsv2`. -/
def colorMaskPixel (m : Libm) (huelab_to_huehsv2 : ℚ → ℚ)
    (locllmasCurve locccmasCurve lochhmasCurve : MaskCurve)
    (llmasutili lcmasutili lhmasutili : Bool) (fab bL ba bb : ℚ) : MaskPixel :=
  let kmaskL : ℚ :=
    if locllmasCurve.valid = true ∧ llmasutili = true then
      let ligh := bL / 32768
      let valLL := locllmasCurve.val (500 * ligh)
      let valLL := LIM01 (1 - valLL)
      32768 * valLL
    else 0
  let valCC : ℚ :=
    if locccmasCurve.valid = true ∧ lcmasutili = true then
      let chromask := 1 / 10000 + m.sqrt (SQR (ba / fab) + SQR (bb / fab))
      let chromaskr := chromask
      let valCC := locccmasCurve.val (500 * chromaskr)
      LIM01 (1 - valCC)
    else 0
  let kmaskCa := valCC
  let kmaskCb := valCC
  let valHH : ℚ :=
    if lochhmasCurve.valid = true ∧ lhmasutili = true then
      let huema := m.atan2 bb ba
      let h := huelab_to_huehsv2 huema
      let h := h + 1 / 6
      let h := if h > 1 then h - 1 else h
      let valHH := lochhmasCurve.val (500 * h)
      LIM01 (1 - valHH)
    else 0
  let kmaskHa := valHH
  let kmaskHb := valHH
  let kmaskHL : ℚ :=
    if lochhmasCurve.valid = true ∧ lhmasutili = true then 32768 * valHH else 0
  let mL := CLIPLOC (kmaskL + kmaskHL)
  { L := mL
    a := CLIPC (kmaskCa + kmaskHa)
    b := CLIPC (kmaskCb + kmaskHb)
    ble := mL / 32768
    guid := bL / 32768 }

/-- The exposure mask evaluator of `Lab_Local` for one pixel of the spot box,
when the mask is in use.  It differs from the colour evaluator in that the two
chroma planes are stored without `CLIPC`. -/
def expMaskPixel (m : Libm) (huelab_to_huehsv2 : ℚ → ℚ)
    (locllmasexpCurve locccmasexpCurve lochhmasexpCurve : MaskCurve)
    (llmasexputili lcmasexputili lhmasexputili : Bool) (fab bL ba bb : ℚ) : MaskPixel :=
  let kmaskLexp : ℚ :=
    if locllmasexpCurve.valid = true ∧ llmasexputili = true then
      let ligh := bL / 32768
      let valLLexp := locllmasexpCurve.val (500 * ligh)
      let valLLexp := LIM01 (1 - valLLexp)
      32768 * valLLexp
    else 0
  let valCC : ℚ :=
    if locccmasexpCurve.valid = true ∧ lcmasexputili = true then
      let chromask := 1 / 10000 + m.sqrt (SQR (ba / fab) + SQR (bb / fab))
      let chromaskr := chromask
      let valCC := locccmasexpCurve.val (500 * chromaskr)
      LIM01 (1 - valCC)
    else 0
  let kmaskCa := valCC
  let kmaskCb := valCC
  let valHH : ℚ :=
    if lochhmasexpCurve.valid = true ∧ lhmasexputili = true then
      let huema := m.atan2 bb ba
      let h := huelab_to_huehsv2 huema
      let h := h + 1 / 6
      let h := if h > 1 then h - 1 else h
      let valHH := lochhmasexpCurve.val (500 * h)
      LIM01 (1 - valHH)
    else 0
  let kmaskHa := valHH
  let kmaskHb := valHH
  let kmaskHL : ℚ :=
    if lochhmasexpCurve.valid = true ∧ lhmasexputili = true then 32768 * valHH else 0
  let mL := CLIPLOC (kmaskLexp + kmaskHL)
  { L := mL
    a := kmaskCa + kmaskHa
    b := kmaskCb + kmaskHb
    ble := mL / 32768
    guid := bL / 32768 }

/-- The body of the pixel loops of `showmask` for the pixel (`y`, `x`): the
stores it makes to `transformed`. -/
def showmaskStores (m : Libm) (lp : local_params) (begx begy cx cy xEn yEn : ℤ)
    (bufexporig bufmaskorigSH : LabImage) (y x : ℤ) : List Store :=
  let lox := cx + x
  let loy := cy + y
  let achm := (lp.trans : ℚ) / 100
  let zone := (pixelZone m lp achm lox loy).1
  if lox ≥ begx ∧ lox < xEn ∧ loy ≥ begy ∧ loy < yEn then
    if zone > 0 then
      [⟨Chan.L, 6000 + CLIPLOC (bufmaskorigSH.L (loy - begy) (lox - begx))⟩,
       ⟨Chan.a, bufexporig.a (loy - begy) (lox - begx)
          * bufmaskorigSH.a (loy - begy) (lox - begx)⟩,
       ⟨Chan.b, bufexporig.b (loy - begy) (lox - begx)
          * bufmaskorigSH.b (loy - begy) (lox - begx)⟩]
    else []
  else []

/-- The function `showmask`: the image `transformed` after the call. -/
def showmask (m : Libm) (lp : local_params) (begx begy cx cy xEn yEn : ℤ)
    (bufexporig transformed bufmaskorigSH : LabImage) : LabImage :=
  let stores := fun (y x : ℤ) =>
    if 0 ≤ y ∧ y < transformed.H ∧ 0 ≤ x ∧ x < transformed.W then
      showmaskStores m lp begx begy cx cy xEn yEn bufexporig bufmaskorigSH y x
    else []
  { W := transformed.W
    H := transformed.H
    L := fun y x => lastStore Chan.L (stores y x) (transformed.L y x)
    a := fun y x => lastStore Chan.a (stores y x) (transformed.a y x)
    b := fun y x => lastStore Chan.b (stores y x) (transformed.b y x) }

/-- The body of the pixel loops of the structure-mask preview of `Lab_Local`
(`lp.showmaskcolmet == 4`) for the pixel (`y`, `x`): the stores it makes to
`transformed`. -/
def structurePreviewStores (m : Libm) (lp : local_params) (begx begy cx cy xEn yEn : ℤ)
    (blend2 : ℤ → ℤ → ℚ) (y x : ℤ) : List Store :=
  let lox := cx + x
  let loy := cy + y
  let achm := (lp.trans : ℚ) / 100
  let zone := (pixelZone m lp achm lox loy).1
  if lox ≥ begx ∧ lox < xEn ∧ loy ≥ begy ∧ loy < yEn then
    if zone > 0 then
      [⟨Chan.L, blend2 (loy - begy) (lox - begx)⟩, ⟨Chan.a, 0⟩, ⟨Chan.b, 0⟩]
    else []
  else []

/-- The structure-mask preview of `Lab_Local`: the image `transformed` after
the pixel loops of the branch `lp.showmaskcolmet == 4`, which is followed by
`return`. -/
def structurePreview (m : Libm) (lp : local_params) (begx begy cx cy xEn yEn : ℤ)
    (blend2 : ℤ → ℤ → ℚ) (transformed : LabImage) : LabImage :=
  let stores := fun (y x : ℤ) =>
    if 0 ≤ y ∧ y < transformed.H ∧ 0 ≤ x ∧ x < transformed.W then
      structurePreviewStores m lp begx begy cx cy xEn yEn blend2 y x
    else []
  { W := transformed.W
    H := transformed.H
    L := fun y x => lastStore Chan.L (stores y x) (transformed.L y x)
    a := fun y x => lastStore Chan.a (stores y x) (transformed.a y x)
    b := fun y x => lastStore Chan.b (stores y x) (transformed.b y x) }

/-- A mask curve that is allocated and has the value `c` at every index. -/
def constCurve (c : ℚ) : MaskCurve := { valid := true, val := fun _ => c }

/-! ## Reference sampler -/

/-- The values taken by the variable of `for (int i = lo; i < hi; i++)`:
`lo`, `lo + 1`, ..., `hi - 1`. -/
def intRange (lo hi : ℤ) : List ℤ :=
  (List.range (hi - lo).toNat).map (fun i => lo + (i : ℤ))

/-- The half-size `spotSize = 0.88623f * max (1, lp.cir / sk)` of the sampling
window of `calc_ref`; `lp.cir / sk` is the integer division of C and the
product is converted to `int`. -/
def calcRefSpotSize (lp : local_params) (sk : ℤ) : ℤ :=
  truncInt ((88623 / 100000 : ℚ) * ((max 1 (Int.tdiv lp.cir sk) : ℤ) : ℚ))

/-- The sampling window of `calc_ref`: the image coordinates (`y`, `x`) that
the two loops "ref for luma, chroma, hue" visit, in order.  The pixel read at
(`y`, `x`) is `original[y - cy][x - cx]`. -/
def calcRefWindow (lp : local_params) (transformed : LabImage) (cx cy sk : ℤ) :
    List (ℤ × ℤ) :=
  let spotSize := calcRefSpotSize lp sk
  let ys := intRange (max cy (truncInt (lp.yc - (spotSize : ℚ))))
    (min (transformed.H + cy) (truncInt (lp.yc + (spotSize : ℚ) + 1)))
  let xs := intRange (max cx (truncInt (lp.xc - (spotSize : ℚ))))
    (min (transformed.W + cx) (truncInt (lp.xc + (spotSize : ℚ) + 1)))
  ys.flatMap (fun y => xs.map (fun x => (y, x)))

/-- The reference colour that `calc_ref` returns through its parameters
`hueref`, `chromaref` and `lumaref`. -/
structure RefColor where
  hueref : ℚ
  chromaref : ℚ
  lumaref : ℚ

/-- The function `ImProcFunctions::calc_ref`, for its outputs `hueref`,
`chromaref` and `lumaref`.  `enabled` is `params->locallab.enabled`; when it
is false the function does nothing and the result is `none`.  `lp` is the
parameter block that the function obtains from `calcLocalParams`. -/
def calc_ref (m : Libm) (enabled : Bool) (lp : local_params)
    (original transformed : LabImage) (cx cy sk : ℤ) : Option RefColor :=
  if enabled then
    let win := calcRefWindow lp transformed cx cy sk
    let aveL := (win.map (fun p => original.L (p.1 - cy) (p.2 - cx))).sum
    let aveA := (win.map (fun p => original.a (p.1 - cy) (p.2 - cx))).sum
    let aveB := (win.map (fun p => original.b (p.1 - cy) (p.2 - cx))).sum
    let aveChro := (win.map (fun p =>
      m.sqrt (SQR (original.b (p.1 - cy) (p.2 - cx))
        + SQR (original.a (p.1 - cy) (p.2 - cx))))).sum
    let nab : ℚ := (win.length : ℚ)
    let aveL := aveL / nab
    let aveA := aveA / nab
    let aveB := aveB / nab
    let aveChro := aveChro / nab
    let aveChro := aveChro / (8192 / 25)
    let avA := aveA / (8192 / 25)
    let avB := aveB / (8192 / 25)
    let avL := aveL / (8192 / 25)
    let hueref := m.atan2 avB avA
    let chromaref := aveChro
    let lumaref := avL
    let lumaref := if lumaref > 95 then 95 else lumaref
    some { hueref := hueref, chromaref := chromaref, lumaref := lumaref }
  else none

/-- The mean of a list of values: their sum divided by their number. -/
def mean (l : List ℚ) : ℚ := l.sum / (l.length : ℚ)

/-- The exact square root of a rational square, and 0 for a rational that is
not a square. -/
def sqrtExact (t : ℚ) : ℚ :=
  if Rat.sqrt t * Rat.sqrt t = t then Rat.sqrt t else 0

/-- A second rational stand-in for the library functions.  It satisfies, for
all arguments, the algebraic laws that the theorems assume of the library:
`sqrt (c * c * t) = c * sqrt t` for `c > 0`, `cos (RT_PI - t) = - cos t`,
`cos 0 = 1`, `atan2 (y / k, x / k) = atan2 (y, x)` for `k > 0` and
`atan2 (0, 0) = 0`.  The square root is exact on rational squares, the cosine
is the chord of the cosine through its values at 0, `RT_PI / 2` and `RT_PI`,
and the arctangent takes the values 0, `RT_PI / 2`, `RT_PI` and `- RT_PI / 2`
on the half-axes. -/
def libmLaw : Libm where
  sqrt := sqrtExact
  cos := fun t => 1 - 2 * t / (355 / 113)
  sin := fun t => t
  log := fun t => t - 1
  pow := fun x y => x ^ (Int.toNat ⌊y⌋)
  atan2 := fun y x =>
    if y > 0 then (355 / 113) / 2 else if y < 0 then - (355 / 113) / 2
    else if x < 0 then 355 / 113 else 0
  RT_PI := 355 / 113
  gaussianBlur := fun src _ _ _ => src

/-! ## Rectangle transition weight -/

/-- The library square root is exact at the argument `t`: its value is the
non-negative number whose square is `t`. -/
def SqrtExactAt (m : Libm) (t : ℚ) : Prop :=
  0 ≤ m.sqrt t ∧ m.sqrt t * m.sqrt t = t

/-- A rectangle spot centred at (`xc`, `yc`) with transition fraction 1/2,
left extent `lxL`, and right, top and bottom extents 10. -/
def offsetParams (xc yc lxL : ℚ) : local_params :=
  { spotParams 1 50 50 with xc := xc, yc := yc, lxL := lxL }

/-! ## Inverse blur and noise -/

/-- The zone and weight that `InverseBlurNoise_Local` computes for the pixel of
image coordinates (`lox`, `loy`).  The locals `zone` and `localFactor` are not
initialised there; `zoneU` and `localFactorU` are the indeterminate values they
hold when `lp.shapmet` is neither 0 nor 1. -/
def inverseZone (m : Libm) (lp : local_params) (ach : ℚ) (lox loy : ℤ)
    (zoneU : ℤ) (localFactorU : ℚ) : ℤ × ℚ :=
  if lp.shapmet = 0 then calcTransition m lox loy ach lp localFactorU
  else if lp.shapmet = 1 then calcTransitionrect m lox loy ach lp localFactorU
  else (zoneU, localFactorU)

/-- The `switch (zone)` of `InverseBlurNoise_Local` for the pixel (`y`, `x`): the
stores it makes to `transformed`, in program order. -/
def inverseBlurNoiseStores (lp : local_params) (original tmp1 : LabImage)
    (zone : ℤ) (localFactor : ℚ) (y x : ℤ) : List Store :=
  if zone = 0 then
    [⟨Chan.L, CLIP (tmp1.L y x)⟩]
      ++ (if lp.actsp = false then
            [⟨Chan.a, CLIPC (tmp1.a y x)⟩, ⟨Chan.b, CLIPC (tmp1.b y x)⟩]
          else [])
  else if zone = 1 then
    let difL := tmp1.L y x - original.L y x
    let difa := tmp1.a y x - original.a y x
    let difb := tmp1.b y x - original.b y x
    let factorx := 1 - localFactor
    let difL := difL * factorx
    let difa := difa * factorx
    let difb := difb * factorx
    [⟨Chan.L, CLIP (original.L y x + difL)⟩]
      ++ (if lp.actsp = false then
            [⟨Chan.a, CLIPC (original.a y x + difa)⟩, ⟨Chan.b, CLIPC (original.b y x + difb)⟩]
          else [])
  else if zone = 2 then
    [⟨Chan.L, original.L y x⟩]
      ++ (if lp.actsp = false then
            [⟨Chan.a, original.a y x⟩, ⟨Chan.b, original.b y x⟩]
          else [])
  else []

/-- The function `ImProcFunctions::InverseBlurNoise_Local`: the image
`transformed` after the call.  `zoneU` and `localFactorU` give, per pixel, the
indeterminate values of the uninitialised locals `zone` and `localFactor`. -/
def InverseBlurNoise_Local (m : Libm) (lp : local_params)
    (original transformed tmp1 : LabImage) (cx cy : ℤ)
    (zoneU : ℤ → ℤ → ℤ) (localFactorU : ℤ → ℤ → ℚ) : LabImage :=
  let ach := (lp.trans : ℚ) / 100
  let stores := fun (y x : ℤ) =>
    if 0 ≤ y ∧ y < transformed.H ∧ 0 ≤ x ∧ x < transformed.W then
      let loy := cy + y
      let lox := cx + x
      let zl := inverseZone m lp ach lox loy (zoneU y x) (localFactorU y x)
      inverseBlurNoiseStores lp original tmp1 zl.1 zl.2 y x
    else []
  { W := transformed.W
    H := transformed.H
    L := fun y x => lastStore Chan.L (stores y x) (transformed.L y x)
    a := fun y x => lastStore Chan.a (stores y x) (transformed.a y x)
    b := fun y x => lastStore Chan.b (stores y x) (transformed.b y x) }

/-! ## Gamut control -/

/-- The table `GX` of `SobelCannyLuma`. -/
def GX (r c : ℤ) : ℚ :=
  if r = 0 then (if c = 0 then 1 else if c = 1 then 0 else -1)
  else if r = 1 then (if c = 0 then 2 else if c = 1 then 0 else -2)
  else (if c = 0 then 1 else if c = 1 then 0 else -1)

/-- The table `GY` of `SobelCannyLuma`. -/
def GY (r c : ℤ) : ℚ :=
  if r = 0 then (if c = 0 then 1 else if c = 1 then 2 else 1)
  else if r = 1 then 0
  else (if c = 0 then -1 else if c = 1 then -2 else -1)

/-- The sum accumulated by the two loops
`for i in -1..1, for j in -1..1: sum += G[j + 1][i + 1] * tmL[y + i][x + j]`. -/
def sobelSum (G : ℤ → ℤ → ℚ) (tmL : ℤ → ℤ → ℚ) (y x : ℤ) : ℚ :=
  (intRange (-1) 2).foldl
    (fun s i => (intRange (-1) 2).foldl
      (fun s j => s + G (j + 1) (i + 1) * tmL (y + i) (x + j)) s) 0

/-- The function `SobelCannyLuma`: the buffer `sobelL` after the call. -/
def SobelCannyLuma (m : Libm) (sobelL luma : ℤ → ℤ → ℚ) (bfw bfh : ℤ) (radius : ℚ) :
    ℤ → ℤ → ℚ :=
  let tmL : ℤ → ℤ → ℚ :=
    if radius > 0 then
      let radius := radius / 2
      let radius := if radius < 1 / 2 then 1 / 2 else radius
      m.gaussianBlur luma bfw bfh radius
    else luma
  fun y x =>
    if 0 ≤ y ∧ y < bfh ∧ 0 ≤ x ∧ x < bfw then
      let sumXL := sobelSum GX tmL y x
      let sumYL := sobelSum GY tmL y x
      let SUML : ℚ :=
        if y = 0 ∨ y = bfh - 1 then 0
        else if x = 0 ∨ x = bfw - 1 then 0
        else m.sqrt (SQR sumXL + SQR sumYL)
      CLIPLOC SUML
    else sobelL y x

/-- The response of the standard 3x3 horizontal Sobel kernel
`[[1, 0, -1], [2, 0, -2], [1, 0, -1]]` at the pixel (`y`, `x`) of `t`, as the
claim on the edge strength names it. -/
def specSobelGx (t : ℤ → ℤ → ℚ) (y x : ℤ) : ℚ :=
  (t (y - 1) (x - 1) - t (y - 1) (x + 1))
    + 2 * (t y (x - 1) - t y (x + 1))
    + (t (y + 1) (x - 1) - t (y + 1) (x + 1))

/-- The response of the standard 3x3 vertical Sobel kernel
`[[1, 2, 1], [0, 0, 0], [-1, -2, -1]]` at the pixel (`y`, `x`) of `t`, as the
claim on the edge strength names it. -/
def specSobelGy (t : ℤ → ℤ → ℚ) (y x : ℤ) : ℚ :=
  (t (y - 1) (x - 1) + 2 * t (y - 1) x + t (y - 1) (x + 1))
    - (t (y + 1) (x - 1) + 2 * t (y + 1) x + t (y + 1) (x + 1))

/-! ## Sharpening and local contrast -/

/-- The sensitivity `varsens` that `Sharp_Local` selects for the tool code
`senstype`: `float varsens = lp.senssha; if (senstype == 0) varsens = lp.senssha;
else if (senstype == 0) varsens = lp.senslc;`. -/
def Sharp_Local_varsens (senstype : ℤ) (lp : local_params) : ℚ :=
  let v0 : ℚ := lp.senssha
  if senstype = 0 then (lp.senssha : ℚ)
  else if senstype = 0 then (lp.senslc : ℚ)
  else v0

/-- The gate thresholds (`mindE`, `maxdE`) of `Sharp_Local`. -/
def Sharp_Local_thresholds (senstype : ℤ) (lp : local_params) : ℚ × ℚ :=
  let varsens := Sharp_Local_varsens senstype lp
  (2 + minscope * varsens * lp.thr, 5 + maxscope * varsens * (1 + (1 / 10) * lp.thr))

/-- A spot with sharpening sensitivity `senssha` and local-contrast sensitivity
`senslc`, otherwise as `spotParams 0 50 50`. -/
def sharpParams (senssha senslc : ℤ) : local_params :=
  { spotParams 0 50 50 with senssha := senssha, senslc := senslc }

/-! ## Blurred reference of the sampler -/

/-- The size `spotSi` of the square patch of `calc_ref`:
`1 + 2 * max (1, lp.cir / sk)`, at least 5. -/
def calcRefSpotSi (lp : local_params) (sk : ℤ) : ℤ :=
  let spotSi := 1 + 2 * max 1 (Int.tdiv lp.cir sk)
  if spotSi < 5 then 5 else spotSi

/-- The (row, column) indices at which `calc_ref` reads `blurorig->L`,
`blurorig->a` and `blurorig->b` for `aveLblur`, `aveAblur` and `aveBblur`, in
loop order; none when `isdenoise` is false. -/
def calcRefBlurReads (isdenoise : Bool) (lp : local_params) (sk : ℤ) : List (ℤ × ℤ) :=
  if isdenoise then
    let spotSi := calcRefSpotSi lp sk
    (intRange 0 spotSi).flatMap (fun y => (intRange 0 spotSi).map (fun x => (y, x)))
  else []

/-- The (row, column) indices at which `calc_ref` reads `blurorig->b` and
`blurorig->a` in the statement that accumulates `aveChroblur`, in loop order;
none when `isdenoise` is false. -/
def calcRefBlurChromaReads (isdenoise : Bool) (lp : local_params) (cx cy sk : ℤ) :
    List (ℤ × ℤ) :=
  if isdenoise then
    let spotSi := calcRefSpotSi lp sk
    (intRange 0 spotSi).flatMap (fun y => (intRange 0 spotSi).map (fun x => (y - cy, x - cx)))
  else []

/-- The index pair `p` lies inside a patch of `n` rows and `n` columns. -/
def inPatch (n : ℤ) (p : ℤ × ℤ) : Prop :=
  0 ≤ p.1 ∧ p.1 < n ∧ 0 ≤ p.2 ∧ p.2 < n

/-- A rectangle spot of sub-pixel width whose pixel (0, 0) is a transition
pixel of weight 0: centre (-9/70000, -12/70000), right extent 12/70000, the
other extents 10, every sensitivity 50. -/
def edgeParams : local_params :=
  { spotParams 1 50 50 with xc := -(9 / 70000), yc := -(12 / 70000), lx := 12 / 70000 }

/-! ## Rectangle weight and reference chroma over an ordered field

The functions below are `calcLocalFactorrect`, `calcTransitionrect` and the
`chromaref` computation of `calc_ref` with the float values taken in an
arbitrary ordered field `K` and the square root as a parameter, so that they
can be read with the real numbers and the real square root as well as with the
rationals and `Libm.sqrt`.  At `K = ℚ` they are the definitions above. -/

/-- The macro `SQR` over the field `K`. -/
def SQRK {K : Type} [LinearOrderedField K] (x : K) : K := x * x

/-- The function `calcLocalFactorrect` over the field `K`, with the square
root `sqrt`. -/
def calcLocalFactorrectK {K : Type} [LinearOrderedField K] (sqrt : K → K)
    (lox loy lcx dx lcy dy ach : K) : K :=
  let eps : K := 1 / 10000
  let krap := |dx / dy|
  let kx := lox - lcx
  let ky := loy - lcy
  let ref :=
    if |kx / (ky + eps)| < krap then
      sqrt (SQRK dy * (1 + SQRK (kx / (ky + eps))))
    else
      sqrt (SQRK dx * (1 + SQRK (ky / (kx + eps))))
  let rad := sqrt (SQRK kx + SQRK ky)
  let coef := rad / ref
  let ac := 1 / (ach - 1)
  let fact := ac * (coef - 1)
  fact

/-- The function `calcTransitionrect` over the field `K`, with the square root
`sqrt`; `xc`, `yc`, `lx`, `ly`, `lxL`, `lyT` are the fields of `lp` that it
reads.  The result is the pair (`zone`, `localFactor`); `localFactor0` is the
value the caller's variable holds on entry. -/
def calcTransitionrectK {K : Type} [LinearOrderedField K] (sqrt : K → K)
    (lox loy ach : K) (xc yc lx ly lxL lyT : K) (localFactor0 : K) : ℤ × K :=
  if lox ≥ xc ∧ lox < xc + lx ∧ loy ≥ yc ∧ loy < yc + ly then
    if lox < xc + lx * ach ∧ loy < yc + ly * ach then
      (2, localFactor0)
    else
      (1, calcLocalFactorrectK sqrt lox loy xc lx yc ly ach)
  else if lox ≥ xc ∧ lox < xc + lx ∧ loy < yc ∧ loy > yc - lyT then
    if lox < xc + lx * ach ∧ loy > yc - lyT * ach then
      (2, localFactor0)
    else
      (1, calcLocalFactorrectK sqrt lox loy xc lx yc lyT ach)
  else if lox < xc ∧ lox > xc - lxL ∧ loy ≤ yc ∧ loy > yc - lyT then
    if lox > xc - lxL * ach ∧ loy > yc - lyT * ach then
      (2, localFactor0)
    else
      (1, calcLocalFactorrectK sqrt lox loy xc lxL yc lyT ach)
  else if lox < xc ∧ lox > xc - lxL ∧ loy > yc ∧ loy < yc + ly then
    if lox > xc - lxL * ach ∧ loy < yc + ly * ach then
      (2, localFactor0)
    else
      (1, calcLocalFactorrectK sqrt lox loy xc lxL yc ly ach)
  else
    (0, localFactor0)

/-- The horizontal half-extent of the quadrant of the pixel, as
`calcTransitionrect` selects it: `lx` at or right of the centre, `lxL` left of
it. -/
def quadExK {K : Type} [LinearOrderedField K] (xc lx lxL lox : K) : K :=
  if lox ≥ xc then lx else lxL

/-- The vertical half-extent of the quadrant of the pixel, as
`calcTransitionrect` selects it: right of the centre `ly` when `loy >= yc` and
`lyT` otherwise; left of the centre `lyT` when `loy <= yc` and `ly`
otherwise. -/
def quadEyK {K : Type} [LinearOrderedField K] (xc yc ly lyT lox loy : K) : K :=
  if lox ≥ xc then (if loy ≥ yc then ly else lyT)
  else (if loy ≤ yc then lyT else ly)

/-- The argument `SQR (kx) + SQR (ky)` of the square root that gives `rad` in
`calcLocalFactorrect`. -/
def rectRadArgK {K : Type} [LinearOrderedField K] (lox loy lcx lcy : K) : K :=
  SQRK (lox - lcx) + SQRK (loy - lcy)

/-- The argument of the square root that gives `ref` in `calcLocalFactorrect`,
in the branch that the function takes. -/
def rectRefArgK {K : Type} [LinearOrderedField K] (lox loy lcx dx lcy dy : K) : K :=
  let eps : K := 1 / 10000
  let krap := |dx / dy|
  let kx := lox - lcx
  let ky := loy - lcy
  if |kx / (ky + eps)| < krap then SQRK dy * (1 + SQRK (kx / (ky + eps)))
  else SQRK dx * (1 + SQRK (ky / (kx + eps)))

/-- The function `sqrt` is exact at the argument `t`: its value is the
non-negative number whose square is `t`.  The real square root is exact at
every non-negative real number. -/
def ExactSqrtAt {K : Type} [LinearOrderedField K] (sqrt : K → K) (t : K) : Prop :=
  0 ≤ sqrt t ∧ sqrt t * sqrt t = t

/-- The mean of a list of values of `K`: their sum divided by their number. -/
def meanK {K : Type} [LinearOrderedField K] (l : List K) : K := l.sum / (l.length : K)

/-- The value that `calc_ref` returns in `chromaref`, over the field `K` with
the square root `sqrt`: `aveChro` accumulates
`sqrt (SQR (original->b[y - cy][x - cx]) + SQR (original->a[y - cy][x - cx]))`
over the sampling window, is divided by the counter `nab` and by 327.68.  `a`
and `b` are the planes `original->a` and `original->b`. -/
def calc_ref_chromarefK {K : Type} [LinearOrderedField K] (sqrt : K → K)
    (lp : local_params) (a b : ℤ → ℤ → K) (transformed : LabImage) (cx cy sk : ℤ) : K :=
  let win := calcRefWindow lp transformed cx cy sk
  let aveChro := (win.map (fun p =>
    sqrt (SQRK (b (p.1 - cy) (p.2 - cx)) + SQRK (a (p.1 - cy) (p.2 - cx))))).sum
  let nab : K := (win.length : K)
  let aveChro := aveChro / nab
  let aveChro := aveChro / (8192 / 25)
  let chromaref := aveChro
  chromaref

/-! ## Lemmas on the clamps and on the store list -/

theorem CLIPC_range (x : ℚ) : -42000 ≤ CLIPC x ∧ CLIPC x ≤ 42000 := by
  unfold CLIPC
  split_ifs <;> constructor <;> linarith

theorem CLIP_range (x : ℚ) : 0 ≤ CLIP x ∧ CLIP x ≤ MAXVALF := by
  unfold CLIP LIM MAXVALF
  constructor
  · exact le_max_left _ _
  · exact max_le (by norm_num) (min_le_left _ _)

theorem lastStore_nil (c : Chan) (prev : ℚ) : lastStore c [] prev = prev := rfl

theorem pixelStores_outside (m : Libm) (senstype : ℤ) (bufexporig originalmask : LabImage)
    (buflight bufchro buf_a_cat buf_b_cat bufhh : ℤ → ℤ → ℚ) (HHutili : Bool)
    (hueref chromaref lumaref sobelref meansobel : ℚ) (blend2 : ℤ → ℤ → ℚ)
    (lp : local_params) (original transformed : LabImage) (cx cy sk : ℤ) (y x : ℤ)
    (hz : isZone0 lp (cy + y) = true
      ∨ (pixelZone m lp ((lp.trans : ℚ) / 100) (cx + x) (cy + y)).1 = 0) :
    pixelStores m senstype bufexporig originalmask buflight bufchro buf_a_cat buf_b_cat
      bufhh HHutili hueref chromaref lumaref sobelref meansobel blend2 lp original
      transformed cx cy sk y x = [] := by
  unfold pixelStores
  rcases hz with hz | hz
  · simp [hz]
  · by_cases hr : isZone0 lp (cy + y) = true
    · simp [hr]
    · simp [hr, prelude, hz]

/-! ## Theorems -/

/-- C1 (amended): a pixel that the zone classifier puts Outside (zone 0), or
that lies on a row skipped by the row test, is not written by
`transit_shapedetect`: on the three channels the output buffer keeps the value
it held before the call, for every tool code; hence it equals the original
there whenever the output buffer held the original value before the call. -/
theorem transit_shapedetect_outside_keeps_output (m : Libm) (senstype : ℤ)
    (bufexporig originalmask : LabImage)
    (buflight bufchro buf_a_cat buf_b_cat bufhh : ℤ → ℤ → ℚ) (HHutili : Bool)
    (hueref chromaref lumaref sobelref meansobel : ℚ) (blend2 : ℤ → ℤ → ℚ)
    (lp : local_params) (original transformed : LabImage) (cx cy sk : ℤ) (y x : ℤ)
    (hz : isZone0 lp (cy + y) = true
      ∨ (pixelZone m lp ((lp.trans : ℚ) / 100) (cx + x) (cy + y)).1 = 0) :
    let out := transit_shapedetect m senstype bufexporig originalmask buflight bufchro
      buf_a_cat buf_b_cat bufhh HHutili hueref chromaref lumaref sobelref meansobel blend2
      lp original transformed cx cy sk
    (out.L y x = transformed.L y x ∧ out.a y x = transformed.a y x
      ∧ out.b y x = transformed.b y x)
    ∧ (transformed.L y x = original.L y x → out.L y x = original.L y x)
    ∧ (transformed.a y x = original.a y x → out.a y x = original.a y x)
    ∧ (transformed.b y x = original.b y x → out.b y x = original.b y x) := by
  have hs := pixelStores_outside m senstype bufexporig originalmask buflight bufchro
    buf_a_cat buf_b_cat bufhh HHutili hueref chromaref lumaref sobelref meansobel blend2
    lp original transformed cx cy sk y x hz
  have hL : (transit_shapedetect m senstype bufexporig originalmask buflight bufchro
      buf_a_cat buf_b_cat bufhh HHutili hueref chromaref lumaref sobelref meansobel blend2
      lp original transformed cx cy sk).L y x = transformed.L y x := by
    simp only [transit_shapedetect, hs]
    split_ifs <;> rfl
  have ha : (transit_shapedetect m senstype bufexporig originalmask buflight bufchro
      buf_a_cat buf_b_cat bufhh HHutili hueref chromaref lumaref sobelref meansobel blend2
      lp original transformed cx cy sk).a y x = transformed.a y x := by
    simp only [transit_shapedetect, hs]
    split_ifs <;> rfl
  have hb : (transit_shapedetect m senstype bufexporig originalmask buflight bufchro
      buf_a_cat buf_b_cat bufhh HHutili hueref chromaref lumaref sobelref meansobel blend2
      lp original transformed cx cy sk).b y x = transformed.b y x := by
    simp only [transit_shapedetect, hs]
    split_ifs <;> rfl
  exact ⟨⟨hL, ha, hb⟩, fun h => hL.trans h, fun h => ha.trans h, fun h => hb.trans h⟩

/-- C1, witness: the pixel of image coordinates (20, 0) is outside the ellipse
of half-extents 10 centred at the origin. -/
theorem transit_shapedetect_outside_keeps_output_witness :
    (transit_shapedetect libmQ 0 (constImage 1 1 0 0 0) (constImage 1 1 0 0 0)
      (constPlane 0) (constPlane 0) (constPlane 0) (constPlane 0) (constPlane 0) false
      0 0 0 0 0 (constPlane 0) (spotParams 0 50 50) (constImage 1 1 5 1 1)
      (constImage 1 1 7 2 3) 20 0 1).L 0 0 = 7 :=
  (transit_shapedetect_outside_keeps_output libmQ 0 (constImage 1 1 0 0 0)
    (constImage 1 1 0 0 0) (constPlane 0) (constPlane 0) (constPlane 0) (constPlane 0)
    (constPlane 0) false 0 0 0 0 0 (constPlane 0) (spotParams 0 50 50)
    (constImage 1 1 5 1 1) (constImage 1 1 7 2 3) 20 0 1 0 0
    (Or.inr (by norm_num [pixelZone, spotParams, calcTransition]))).1.1

/-- C1, counterexample: a pixel of zone 0 whose output value before the call
(7, 2, 3) differs from the original (5, 1, 1) holds (7, 2, 3) after the call,
not the original. -/
theorem transit_shapedetect_outside_not_original :
    (pixelZone libmQ (spotParams 0 50 50) (1 / 2) 20 0).1 = 0
    ∧ (constImage 1 1 5 1 1).L 0 0 = 5
    ∧ (transit_shapedetect libmQ 0 (constImage 1 1 0 0 0) (constImage 1 1 0 0 0)
      (constPlane 0) (constPlane 0) (constPlane 0) (constPlane 0) (constPlane 0) false
      0 0 0 0 0 (constPlane 0) (spotParams 0 50 50) (constImage 1 1 5 1 1)
      (constImage 1 1 7 2 3) 20 0 1).L 0 0 = 7
    ∧ (transit_shapedetect libmQ 0 (constImage 1 1 0 0 0) (constImage 1 1 0 0 0)
      (constPlane 0) (constPlane 0) (constPlane 0) (constPlane 0) (constPlane 0) false
      0 0 0 0 0 (constPlane 0) (spotParams 0 50 50) (constImage 1 1 5 1 1)
      (constImage 1 1 7 2 3) 20 0 1).L 0 0 ≠ (constImage 1 1 5 1 1).L 0 0 := by
  refine ⟨by norm_num [pixelZone, spotParams, calcTransition], rfl, ?_, ?_⟩ <;>
    norm_num [transit_shapedetect, pixelStores, constImage, constPlane, spotParams, isZone0,
      prelude, pixelZone, calcTransition, lastStore]

theorem lastStore_L_zone2 (m : Libm) (senstype : ℤ) (lp : local_params) (HHutili : Bool)
    (v : PixelVals) (prev : ℚ) (hs : senstype = 0 ∨ senstype = 1 ∨ senstype = 9)
    (hp : previewShow senstype lp = false) :
    lastStore Chan.L (zone2Stores m senstype lp HHutili v) prev
      = CLIP (v.oL + 328 * v.realstrdE) := by
  rcases hs with rfl | rfl | rfl <;>
    (simp [zone2Stores, lastStore, hp]; try (split_ifs <;> simp))

theorem lastStore_L_zone1 (m : Libm) (senstype : ℤ) (lp : local_params) (HHutili : Bool)
    (w : ℚ) (v : PixelVals) (prev : ℚ) (hs : senstype = 0 ∨ senstype = 1 ∨ senstype = 9)
    (hp : previewShow senstype lp = false) :
    lastStore Chan.L (zone1Stores m senstype lp HHutili w v) prev
      = CLIP (v.oL + 328 * w * v.realstrdE) := by
  rcases hs with rfl | rfl | rfl <;>
    (simp [zone1Stores, lastStore, hp]; try (split_ifs <;> simp))

theorem pixelStores_inside (m : Libm) (senstype : ℤ) (bufexporig originalmask : LabImage)
    (buflight bufchro buf_a_cat buf_b_cat bufhh : ℤ → ℤ → ℚ) (HHutili : Bool)
    (hueref chromaref lumaref sobelref meansobel : ℚ) (blend2 : ℤ → ℤ → ℚ)
    (lp : local_params) (original transformed : LabImage) (cx cy sk : ℤ) (y x : ℤ)
    (hrow : isZone0 lp (cy + y) = false)
    (hz : (pixelZone m lp ((lp.trans : ℚ) / 100) (cx + x) (cy + y)).1 ≠ 0) :
    pixelStores m senstype bufexporig originalmask buflight bufchro buf_a_cat buf_b_cat
      bufhh HHutili hueref chromaref lumaref sobelref meansobel blend2 lp original
      transformed cx cy sk y x
    = switchStores m senstype lp HHutili
        ((origblur m senstype lp original transformed sk).L y x / (8192 / 25))
        (pixelZone m lp ((lp.trans : ℚ) / 100) (cx + x) (cy + y)).1
        (pixelZone m lp ((lp.trans : ℚ) / 100) (cx + x) (cy + y)).2
        (pixelValsAt m senstype bufexporig originalmask buflight bufchro buf_a_cat
          buf_b_cat bufhh HHutili hueref chromaref lumaref sobelref meansobel blend2 lp
          original transformed cx cy sk y x) := by
  unfold pixelStores
  simp [hrow, prelude, hz]

theorem transit_shapedetect_inside (m : Libm) (senstype : ℤ)
    (bufexporig originalmask : LabImage)
    (buflight bufchro buf_a_cat buf_b_cat bufhh : ℤ → ℤ → ℚ) (HHutili : Bool)
    (hueref chromaref lumaref sobelref meansobel : ℚ) (blend2 : ℤ → ℤ → ℚ)
    (lp : local_params) (original transformed : LabImage) (cx cy sk : ℤ) (y x : ℤ)
    (hy : 0 ≤ y ∧ y < transformed.H) (hx : 0 ≤ x ∧ x < transformed.W)
    (hrow : isZone0 lp (cy + y) = false)
    (hz : (pixelZone m lp ((lp.trans : ℚ) / 100) (cx + x) (cy + y)).1 ≠ 0) (c : Chan) :
    lastStore c
      (if 0 ≤ y ∧ y < transformed.H ∧ 0 ≤ x ∧ x < transformed.W then
        pixelStores m senstype bufexporig originalmask buflight bufchro buf_a_cat buf_b_cat
          bufhh HHutili hueref chromaref lumaref sobelref meansobel blend2 lp original
          transformed cx cy sk y x
      else [])
    = fun prev => lastStore c (switchStores m senstype lp HHutili
        ((origblur m senstype lp original transformed sk).L y x / (8192 / 25))
        (pixelZone m lp ((lp.trans : ℚ) / 100) (cx + x) (cy + y)).1
        (pixelZone m lp ((lp.trans : ℚ) / 100) (cx + x) (cy + y)).2
        (pixelValsAt m senstype bufexporig originalmask buflight bufchro buf_a_cat
          buf_b_cat bufhh HHutili hueref chromaref lumaref sobelref meansobel blend2 lp
          original transformed cx cy sk y x)) prev := by
  rw [if_pos ⟨hy.1, hy.2, hx.1, hx.2⟩, pixelStores_inside _ _ _ _ _ _ _ _ _ _ _ _ _ _ _ _ _ _ _ _ _ _ _ _ hrow hz]

/-- C2: lightness formula of `transit_shapedetect` for the tool codes 0, 1 and
9 with no mask-preview flag set, at a pixel the loops visit whose blurred luma
divided by 327.68 exceeds 0.1: an Inside pixel (zone 2) is written
`CLIP (L_orig + 328 * g * d)` and a Transition pixel (zone 1)
`CLIP (L_orig + 328 * w * g * d)`, with `d` the value of the lightness-delta
buffer at the pixel, `g` the gate and `w` the zone weight.  Hence with
`d = 500 / 328` and `g = 1` the written luma is `CLIP (L_orig + 500)` inside
and `CLIP (L_orig + 500 * w)` in the transition zone. -/
theorem transit_shapedetect_lightness (m : Libm) (senstype : ℤ)
    (bufexporig originalmask : LabImage)
    (buflight bufchro buf_a_cat buf_b_cat bufhh : ℤ → ℤ → ℚ) (HHutili : Bool)
    (hueref chromaref lumaref sobelref meansobel : ℚ) (blend2 : ℤ → ℤ → ℚ)
    (lp : local_params) (original transformed : LabImage) (cx cy sk : ℤ) (y x : ℤ)
    (hs : senstype = 0 ∨ senstype = 1 ∨ senstype = 9)
    (hp : previewShow senstype lp = false)
    (hy : 0 ≤ y ∧ y < transformed.H) (hx : 0 ≤ x ∧ x < transformed.W)
    (hrow : isZone0 lp (cy + y) = false)
    (hrL : (origblur m senstype lp original transformed sk).L y x / (8192 / 25) > 1 / 10) :
    let out := transit_shapedetect m senstype bufexporig originalmask buflight bufchro
      buf_a_cat buf_b_cat bufhh HHutili hueref chromaref lumaref sobelref meansobel blend2
      lp original transformed cx cy sk
    let zw := pixelZone m lp ((lp.trans : ℚ) / 100) (cx + x) (cy + y)
    let g := pixelGate m senstype originalmask lumaref blend2 lp
      (prelude m lp hueref chromaref sobelref meansobel)
      (origblur m senstype lp original transformed sk) transformed cx cy sk y x
    let d := buflight (cy + y - truncInt (lp.yc - lp.lyT)) (cx + x - truncInt (lp.xc - lp.lxL))
    (zw.1 = 2 → out.L y x = CLIP (original.L y x + 328 * g * d))
    ∧ (zw.1 = 1 → out.L y x = CLIP (original.L y x + 328 * zw.2 * g * d))
    ∧ (zw.1 = 2 → d = 500 / 328 → g = 1 → out.L y x = CLIP (original.L y x + 500))
    ∧ (zw.1 = 1 → d = 500 / 328 → g = 1 → out.L y x = CLIP (original.L y x + 500 * zw.2)) := by
  intro out zw g d
  have h2 : zw.1 = 2 → out.L y x = CLIP (original.L y x + 328 * g * d) := by
    intro hz
    have hz0 : (pixelZone m lp ((lp.trans : ℚ) / 100) (cx + x) (cy + y)).1 ≠ 0 := by
      show zw.1 ≠ 0
      rw [hz]; decide
    show lastStore Chan.L _ _ = _
    rw [transit_shapedetect_inside m senstype bufexporig originalmask buflight bufchro
      buf_a_cat buf_b_cat bufhh HHutili hueref chromaref lumaref sobelref meansobel blend2
      lp original transformed cx cy sk y x hy hx hrow hz0 Chan.L]
    show lastStore Chan.L (switchStores m senstype lp HHutili _ zw.1 zw.2 _) _ = _
    rw [hz]
    unfold switchStores
    rw [if_pos hrL]
    simp only [show (2 : ℤ) ≠ 0 by decide, show (2 : ℤ) ≠ 1 by decide, if_false, if_true]
    rw [lastStore_L_zone2 m senstype lp HHutili _ _ hs hp]
    simp only [pixelValsAt]
    congr 1
    ring
  have h1 : zw.1 = 1 → out.L y x = CLIP (original.L y x + 328 * zw.2 * g * d) := by
    intro hz
    have hz0 : (pixelZone m lp ((lp.trans : ℚ) / 100) (cx + x) (cy + y)).1 ≠ 0 := by
      show zw.1 ≠ 0
      rw [hz]; decide
    show lastStore Chan.L _ _ = _
    rw [transit_shapedetect_inside m senstype bufexporig originalmask buflight bufchro
      buf_a_cat buf_b_cat bufhh HHutili hueref chromaref lumaref sobelref meansobel blend2
      lp original transformed cx cy sk y x hy hx hrow hz0 Chan.L]
    show lastStore Chan.L (switchStores m senstype lp HHutili _ zw.1 zw.2 _) _ = _
    rw [hz]
    unfold switchStores
    rw [if_pos hrL]
    simp only [show (1 : ℤ) ≠ 0 by decide, if_false, if_true]
    rw [lastStore_L_zone1 m senstype lp HHutili _ _ _ hs hp]
    simp only [pixelValsAt]
    congr 1
    ring
  refine ⟨h2, h1, ?_, ?_⟩
  · intro hz hd hg
    rw [h2 hz, hd, hg]; norm_num
  · intro hz hd hg
    rw [h1 hz, hd, hg]
    congr 1
    ring

theorem rat_sqrt_zero : Rat.sqrt 0 = 0 := by
  simp

/-- C2, witness: shadow-highlight tool on a one-pixel image at image
coordinates (2, 0), inside the ellipse of half-extents 10 and transition
fraction 1/2; the pixel has the reference colour, so the gate is 1, and the
lightness delta is 500 / 328. -/
theorem transit_shapedetect_lightness_witness :
    (transit_shapedetect libmQ 9 (constImage 1 1 8192 0 0) (constImage 1 1 0 0 0)
      (constPlane (500 / 328)) (constPlane 0) (constPlane 0) (constPlane 0) (constPlane 0)
      false 0 0 25 0 0 (constPlane 0) (spotParams 0 50 50) (constImage 1 1 8192 0 0)
      (constImage 1 1 8192 0 0) 2 0 1).L 0 0 = CLIP (8192 + 500) :=
  (transit_shapedetect_lightness libmQ 9 (constImage 1 1 8192 0 0) (constImage 1 1 0 0 0)
    (constPlane (500 / 328)) (constPlane 0) (constPlane 0) (constPlane 0) (constPlane 0)
    false 0 0 25 0 0 (constPlane 0) (spotParams 0 50 50) (constImage 1 1 8192 0 0)
    (constImage 1 1 8192 0 0) 2 0 1 0 0 (Or.inr (Or.inr rfl))
    (by simp [previewShow, spotParams])
    (by simp [constImage]) (by simp [constImage])
    (by simp [isZone0, spotParams])
    (by norm_num [origblur, libmQ, constImage, constPlane])).2.2.1
    (by norm_num [pixelZone, spotParams, calcTransition, calcTransitionQuadrant, SQR])
    rfl
    (by
      norm_num [pixelGate, pixel_dE, reducdE, gateBase, varsens, spotParams, useAnyMask, prelude,
        origblur, constImage, constPlane, SQR, mindE, maxdE, minscope, maxscope, libmQ,
        rat_sqrt_zero])

theorem storeInRange_L (x : ℚ) : storeInRange ⟨Chan.L, CLIP x⟩ := CLIP_range x

theorem storeInRange_a (x : ℚ) : storeInRange ⟨Chan.a, CLIPC x⟩ := CLIPC_range x

theorem storeInRange_b (x : ℚ) : storeInRange ⟨Chan.b, CLIPC x⟩ := CLIPC_range x

theorem zone2Stores_range (m : Libm) (senstype : ℤ) (lp : local_params) (HHutili : Bool)
    (v : PixelVals) : ∀ s ∈ zone2Stores m senstype lp HHutili v, storeInRange s := by
  unfold zone2Stores
  simp only []
  split_ifs <;>
    simp [storeInRange_L, storeInRange_a, storeInRange_b]

theorem zone1Stores_range (m : Libm) (senstype : ℤ) (lp : local_params) (HHutili : Bool)
    (w : ℚ) (v : PixelVals) : ∀ s ∈ zone1Stores m senstype lp HHutili w v, storeInRange s := by
  unfold zone1Stores
  simp only []
  split_ifs <;>
    simp [storeInRange_L, storeInRange_a, storeInRange_b]

theorem storeInRange_iff (s : Store) :
    storeInRange s ↔ (s.chan = Chan.L → 0 ≤ s.val ∧ s.val ≤ 65535)
      ∧ (s.chan ≠ Chan.L → -42000 ≤ s.val ∧ s.val ≤ 42000) := by
  obtain ⟨c, v⟩ := s
  cases c <;> simp [storeInRange, MAXVALF]

theorem pixelStores_range (m : Libm) (senstype : ℤ) (bufexporig originalmask : LabImage)
    (buflight bufchro buf_a_cat buf_b_cat bufhh : ℤ → ℤ → ℚ) (HHutili : Bool)
    (hueref chromaref lumaref sobelref meansobel : ℚ) (blend2 : ℤ → ℤ → ℚ)
    (lp : local_params) (original transformed : LabImage) (cx cy sk : ℤ) (y x : ℤ) :
    ∀ s ∈ pixelStores m senstype bufexporig originalmask buflight bufchro buf_a_cat
      buf_b_cat bufhh HHutili hueref chromaref lumaref sobelref meansobel blend2 lp original
      transformed cx cy sk y x, storeInRange s := by
  unfold pixelStores
  simp only []
  split_ifs with h1 h2
  · simp
  · simp
  · unfold switchStores
    split_ifs with h3 h4 h5
    · exact zone1Stores_range _ _ _ _ _ _
    · exact zone2Stores_range _ _ _ _ _
    · simp
    · simp

theorem lastStore_range (c : Chan) (ws : List Store) (hws : ∀ s ∈ ws, storeInRange s) :
    ∀ prev : ℚ, lastStore c ws prev = prev ∨ storeInRange ⟨c, lastStore c ws prev⟩ := by
  induction ws with
  | nil => intro prev; exact Or.inl rfl
  | cons w ws ih =>
    intro prev
    have hw : storeInRange w := hws w (List.mem_cons_self _ _)
    have ih2 := ih (fun s hs => hws s (List.mem_cons_of_mem _ hs))
    show lastStore c ws (if w.chan = c then w.val else prev) = prev
      ∨ storeInRange ⟨c, lastStore c ws (if w.chan = c then w.val else prev)⟩
    by_cases hc : w.chan = c
    · rw [if_pos hc]
      rcases ih2 w.val with h | h
      · right
        rw [h]
        obtain ⟨wc, wv⟩ := w
        simp only at hc
        subst hc
        exact hw
      · exact Or.inr h
    · rw [if_neg hc]
      exact ih2 prev

/-- C4: clamp invariant of `transit_shapedetect`.  Every store that the
function makes for a pixel is in the valid range, `0 <= L <= 65535` on the luma
plane and `-42000 <= a, b <= 42000` on the chroma planes, for every tool code,
every zone, with or without preview and for arbitrary values in the original,
processed and delta buffers; hence each channel of each pixel after the call
either still holds the value it held before the call or is in that range. -/
theorem transit_shapedetect_clamped (m : Libm) (senstype : ℤ)
    (bufexporig originalmask : LabImage)
    (buflight bufchro buf_a_cat buf_b_cat bufhh : ℤ → ℤ → ℚ) (HHutili : Bool)
    (hueref chromaref lumaref sobelref meansobel : ℚ) (blend2 : ℤ → ℤ → ℚ)
    (lp : local_params) (original transformed : LabImage) (cx cy sk : ℤ) (y x : ℤ) :
    (∀ s ∈ pixelStores m senstype bufexporig originalmask buflight bufchro buf_a_cat
        buf_b_cat bufhh HHutili hueref chromaref lumaref sobelref meansobel blend2 lp
        original transformed cx cy sk y x,
      (s.chan = Chan.L → 0 ≤ s.val ∧ s.val ≤ 65535)
        ∧ (s.chan ≠ Chan.L → -42000 ≤ s.val ∧ s.val ≤ 42000))
    ∧ ((transit_shapedetect m senstype bufexporig originalmask buflight bufchro
          buf_a_cat buf_b_cat bufhh HHutili hueref chromaref lumaref sobelref meansobel
          blend2 lp original transformed cx cy sk).L y x = transformed.L y x
        ∨ (0 ≤ (transit_shapedetect m senstype bufexporig originalmask buflight bufchro
          buf_a_cat buf_b_cat bufhh HHutili hueref chromaref lumaref sobelref meansobel
          blend2 lp original transformed cx cy sk).L y x
          ∧ (transit_shapedetect m senstype bufexporig originalmask buflight bufchro
          buf_a_cat buf_b_cat bufhh HHutili hueref chromaref lumaref sobelref meansobel
          blend2 lp original transformed cx cy sk).L y x ≤ 65535))
    ∧ ((transit_shapedetect m senstype bufexporig originalmask buflight bufchro
          buf_a_cat buf_b_cat bufhh HHutili hueref chromaref lumaref sobelref meansobel
          blend2 lp original transformed cx cy sk).a y x = transformed.a y x
        ∨ (-42000 ≤ (transit_shapedetect m senstype bufexporig originalmask buflight bufchro
          buf_a_cat buf_b_cat bufhh HHutili hueref chromaref lumaref sobelref meansobel
          blend2 lp original transformed cx cy sk).a y x
          ∧ (transit_shapedetect m senstype bufexporig originalmask buflight bufchro
          buf_a_cat buf_b_cat bufhh HHutili hueref chromaref lumaref sobelref meansobel
          blend2 lp original transformed cx cy sk).a y x ≤ 42000))
    ∧ ((transit_shapedetect m senstype bufexporig originalmask buflight bufchro
          buf_a_cat buf_b_cat bufhh HHutili hueref chromaref lumaref sobelref meansobel
          blend2 lp original transformed cx cy sk).b y x = transformed.b y x
        ∨ (-42000 ≤ (transit_shapedetect m senstype bufexporig originalmask buflight bufchro
          buf_a_cat buf_b_cat bufhh HHutili hueref chromaref lumaref sobelref meansobel
          blend2 lp original transformed cx cy sk).b y x
          ∧ (transit_shapedetect m senstype bufexporig originalmask buflight bufchro
          buf_a_cat buf_b_cat bufhh HHutili hueref chromaref lumaref sobelref meansobel
          blend2 lp original transformed cx cy sk).b y x ≤ 42000)) := by
  have hps := pixelStores_range m senstype bufexporig originalmask buflight bufchro
    buf_a_cat buf_b_cat bufhh HHutili hueref chromaref lumaref sobelref meansobel blend2
    lp original transformed cx cy sk y x
  have hall : ∀ s ∈ (if 0 ≤ y ∧ y < transformed.H ∧ 0 ≤ x ∧ x < transformed.W then
        pixelStores m senstype bufexporig originalmask buflight bufchro buf_a_cat buf_b_cat
          bufhh HHutili hueref chromaref lumaref sobelref meansobel blend2 lp original
          transformed cx cy sk y x
      else []), storeInRange s := by
    split_ifs
    · exact hps
    · simp
  refine ⟨fun s hs => (storeInRange_iff s).1 (hps s hs), ?_, ?_, ?_⟩
  · rcases lastStore_range Chan.L _ hall (transformed.L y x) with h | h
    · exact Or.inl h
    · exact Or.inr (by simpa [storeInRange, MAXVALF] using h)
  · rcases lastStore_range Chan.a _ hall (transformed.a y x) with h | h
    · exact Or.inl h
    · exact Or.inr (by simpa [storeInRange] using h)
  · rcases lastStore_range Chan.b _ hall (transformed.b y x) with h | h
    · exact Or.inl h
    · exact Or.inr (by simpa [storeInRange] using h)

theorem zone2Stores_gate_zero_L (m : Libm) (senstype : ℤ) (lp : local_params)
    (HHutili : Bool) (v : PixelVals) (pL : ℚ)
    (hp : previewShow senstype lp = false) (h1 : v.realstrdE = 0) :
    ((senstype = 0 ∨ senstype = 1 ∨ senstype = 9) →
      lastStore Chan.L (zone2Stores m senstype lp HHutili v) pL = CLIP v.oL)
    ∧ ((senstype = 2 ∨ senstype = 3 ∨ senstype = 4 ∨ senstype = 6 ∨ senstype = 8) →
      lastStore Chan.L (zone2Stores m senstype lp HHutili v) pL = CLIP v.bufL) := by
  constructor
  · intro hs
    rcases hs with rfl | rfl | rfl <;>
      (simp [zone2Stores, lastStore, hp, h1]; try (split_ifs <;> simp))
  · intro hs
    rcases hs with rfl | rfl | rfl | rfl | rfl <;>
      simp [zone2Stores, lastStore, hp, h1]

theorem zone1Stores_gate_zero_L (m : Libm) (senstype : ℤ) (lp : local_params)
    (HHutili : Bool) (w : ℚ) (v : PixelVals) (pL : ℚ)
    (hp : previewShow senstype lp = false) (h1 : v.realstrdE = 0) :
    ((senstype = 0 ∨ senstype = 1 ∨ senstype = 9) →
      lastStore Chan.L (zone1Stores m senstype lp HHutili w v) pL = CLIP v.oL)
    ∧ ((senstype = 2 ∨ senstype = 3 ∨ senstype = 4 ∨ senstype = 6 ∨ senstype = 8) →
      lastStore Chan.L (zone1Stores m senstype lp HHutili w v) pL
        = CLIP (v.oL + (v.bufL - v.oL) * w)) := by
  constructor
  · intro hs
    rcases hs with rfl | rfl | rfl <;>
      (simp [zone1Stores, lastStore, hp, h1]; try (split_ifs <;> simp))
  · intro hs
    rcases hs with rfl | rfl | rfl | rfl | rfl <;>
      simp [zone1Stores, lastStore, hp, h1]

theorem fliab_gate_zero (senstype : ℤ) (lp : local_params) (v : PixelVals)
    (h2 : v.realstradE = 0) (h3 : v.realstrbdE = 0) (h4 : v.realstrchdE = 0) :
    fliab senstype lp v = (1, 1) := by
  unfold fliab
  split_ifs <;> simp [h2, h3, h4]

theorem zone2Stores_gate_zero_ab (m : Libm) (senstype : ℤ) (lp : local_params)
    (HHutili : Bool) (v : PixelVals) (pa pb : ℚ)
    (h7 : senstype ≠ 7)
    (hp : previewShow senstype lp = false)
    (hh : senstype ≠ 0 ∨ HHutili = false ∨ v.hhro = 0)
    (h2 : v.realstradE = 0) (h3 : v.realstrbdE = 0) (h4 : v.realstrchdE = 0) :
    lastStore Chan.a (zone2Stores m senstype lp HHutili v) pa = CLIPC v.bufa
    ∧ lastStore Chan.b (zone2Stores m senstype lp HHutili v) pb = CLIPC v.bufb := by
  have hhf : ¬ (senstype = 0 ∧ HHutili = true ∧ ¬ v.hhro = 0) := by
    rcases hh with h | h | h
    · simp [h]
    · simp [h]
    · simp [h]
  have hf := fliab_gate_zero senstype lp v h2 h3 h4
  constructor <;>
    simp [zone2Stores, hf, h7, hp, hhf, lastStore]

theorem zone1Stores_gate_zero_ab (m : Libm) (senstype : ℤ) (lp : local_params)
    (HHutili : Bool) (w : ℚ) (v : PixelVals) (pa pb : ℚ)
    (h7 : senstype ≠ 7)
    (hp : previewShow senstype lp = false)
    (hh : senstype ≠ 0 ∨ HHutili = false ∨ v.hhro = 0)
    (h2 : v.realstradE = 0) (h3 : v.realstrbdE = 0) (h4 : v.realstrchdE = 0) :
    lastStore Chan.a (zone1Stores m senstype lp HHutili w v) pa
      = CLIPC (v.oa + (v.bufa - v.oa) * w)
    ∧ lastStore Chan.b (zone1Stores m senstype lp HHutili w v) pb
      = CLIPC (v.ob + (v.bufb - v.ob) * w) := by
  have hhf : ¬ (senstype = 0 ∧ HHutili = true ∧ ¬ v.hhro = 0) := by
    rcases hh with h | h | h
    · simp [h]
    · simp [h]
    · simp [h]
  have hf := fliab_gate_zero senstype lp v h2 h3 h4
  constructor <;>
    simp [zone1Stores, hf, h7, hp, hhf, lastStore]

/-- C3 (amended): in `transit_shapedetect`, at a pixel the loops visit whose
blurred luma divided by 327.68 exceeds 0.1, with no mask-preview flag set, the
hue curve inactive at the pixel and a tool code other than 7, an Inside or
Transition pixel whose gate evaluates to 0 is written independently of the
delta buffers, from the original and the `bufexporig` argument alone.  Inside:
`L = CLIP (L_orig)` for the tools 0, 1, 9, `L = CLIP (L_buf)` for the tools
2, 3, 4, 6, 8, `a = CLIPC (a_buf)`, `b = CLIPC (b_buf)`.  Transition, with
weight `w`: `L = CLIP (L_orig)` for the tools 0, 1, 9,
`L = CLIP (L_orig + (L_buf - L_orig) * w)` for the tools 2, 3, 4, 6, 8,
`a = CLIPC (a_orig + (a_buf - a_orig) * w)` and the same for `b`.  Hence the
pixel is written with its clamped original values when `bufexporig` holds the
original values at the pixel. -/
theorem transit_shapedetect_gate_zero (m : Libm) (senstype : ℤ)
    (bufexporig originalmask : LabImage)
    (buflight bufchro buf_a_cat buf_b_cat bufhh : ℤ → ℤ → ℚ) (HHutili : Bool)
    (hueref chromaref lumaref sobelref meansobel : ℚ) (blend2 : ℤ → ℤ → ℚ)
    (lp : local_params) (original transformed : LabImage) (cx cy sk : ℤ) (y x : ℤ)
    (hy : 0 ≤ y ∧ y < transformed.H) (hx : 0 ≤ x ∧ x < transformed.W)
    (hrow : isZone0 lp (cy + y) = false)
    (hrL : (origblur m senstype lp original transformed sk).L y x / (8192 / 25) > 1 / 10)
    (h7 : senstype ≠ 7)
    (hp : previewShow senstype lp = false)
    (hh : senstype ≠ 0 ∨ HHutili = false
      ∨ bufhh (cy + y - truncInt (lp.yc - lp.lyT)) (cx + x - truncInt (lp.xc - lp.lxL)) = 0)
    (hg : pixelGate m senstype originalmask lumaref blend2 lp
      (prelude m lp hueref chromaref sobelref meansobel)
      (origblur m senstype lp original transformed sk) transformed cx cy sk y x = 0) :
    let out := transit_shapedetect m senstype bufexporig originalmask buflight bufchro
      buf_a_cat buf_b_cat bufhh HHutili hueref chromaref lumaref sobelref meansobel blend2
      lp original transformed cx cy sk
    let zw := pixelZone m lp ((lp.trans : ℚ) / 100) (cx + x) (cy + y)
    let bL := bufexporig.L (cy + y - truncInt (lp.yc - lp.lyT)) (cx + x - truncInt (lp.xc - lp.lxL))
    let ba := bufexporig.a (cy + y - truncInt (lp.yc - lp.lyT)) (cx + x - truncInt (lp.xc - lp.lxL))
    let bb := bufexporig.b (cy + y - truncInt (lp.yc - lp.lyT)) (cx + x - truncInt (lp.xc - lp.lxL))
    (zw.1 = 2 →
      ((senstype = 0 ∨ senstype = 1 ∨ senstype = 9) → out.L y x = CLIP (original.L y x))
      ∧ ((senstype = 2 ∨ senstype = 3 ∨ senstype = 4 ∨ senstype = 6 ∨ senstype = 8) →
          out.L y x = CLIP bL)
      ∧ out.a y x = CLIPC ba ∧ out.b y x = CLIPC bb)
    ∧ (zw.1 = 1 →
      ((senstype = 0 ∨ senstype = 1 ∨ senstype = 9) → out.L y x = CLIP (original.L y x))
      ∧ ((senstype = 2 ∨ senstype = 3 ∨ senstype = 4 ∨ senstype = 6 ∨ senstype = 8) →
          out.L y x = CLIP (original.L y x + (bL - original.L y x) * zw.2))
      ∧ out.a y x = CLIPC (original.a y x + (ba - original.a y x) * zw.2)
      ∧ out.b y x = CLIPC (original.b y x + (bb - original.b y x) * zw.2))
    ∧ ((zw.1 = 1 ∨ zw.1 = 2) → bL = original.L y x → ba = original.a y x →
        bb = original.b y x →
      ((senstype = 0 ∨ senstype = 1 ∨ senstype = 2 ∨ senstype = 3 ∨ senstype = 4
          ∨ senstype = 6 ∨ senstype = 8 ∨ senstype = 9) → out.L y x = CLIP (original.L y x))
      ∧ out.a y x = CLIPC (original.a y x) ∧ out.b y x = CLIPC (original.b y x)) := by
  intro out zw bL ba bb
  -- the per-pixel values and the facts that follow from a gate equal to 0
  have hv1 : (pixelValsAt m senstype bufexporig originalmask buflight bufchro buf_a_cat
      buf_b_cat bufhh HHutili hueref chromaref lumaref sobelref meansobel blend2 lp
      original transformed cx cy sk y x).realstrdE = 0 := by
    simp only [pixelValsAt, hg, zero_mul]
  have hv2 : (pixelValsAt m senstype bufexporig originalmask buflight bufchro buf_a_cat
      buf_b_cat bufhh HHutili hueref chromaref lumaref sobelref meansobel blend2 lp
      original transformed cx cy sk y x).realstradE = 0 := by
    simp only [pixelValsAt, hg, zero_mul]
  have hv3 : (pixelValsAt m senstype bufexporig originalmask buflight bufchro buf_a_cat
      buf_b_cat bufhh HHutili hueref chromaref lumaref sobelref meansobel blend2 lp
      original transformed cx cy sk y x).realstrbdE = 0 := by
    simp only [pixelValsAt, hg, zero_mul]
  have hv4 : (pixelValsAt m senstype bufexporig originalmask buflight bufchro buf_a_cat
      buf_b_cat bufhh HHutili hueref chromaref lumaref sobelref meansobel blend2 lp
      original transformed cx cy sk y x).realstrchdE = 0 := by
    simp only [pixelValsAt, hg, zero_mul]
  have hvh : senstype ≠ 0 ∨ HHutili = false ∨ (pixelValsAt m senstype bufexporig
      originalmask buflight bufchro buf_a_cat buf_b_cat bufhh HHutili hueref chromaref
      lumaref sobelref meansobel blend2 lp original transformed cx cy sk y x).hhro = 0 := by
    rcases hh with h | h | h
    · exact Or.inl h
    · exact Or.inr (Or.inl h)
    · right; right
      simp only [pixelValsAt, h]
      split_ifs <;> rfl
  have key : ∀ c : Chan, (zw.1 = 1 ∨ zw.1 = 2) →
      lastStore c
        (if 0 ≤ y ∧ y < transformed.H ∧ 0 ≤ x ∧ x < transformed.W then
          pixelStores m senstype bufexporig originalmask buflight bufchro buf_a_cat buf_b_cat
            bufhh HHutili hueref chromaref lumaref sobelref meansobel blend2 lp original
            transformed cx cy sk y x
        else [])
      = fun prev => lastStore c (switchStores m senstype lp HHutili
          ((origblur m senstype lp original transformed sk).L y x / (8192 / 25)) zw.1 zw.2
          (pixelValsAt m senstype bufexporig originalmask buflight bufchro buf_a_cat
            buf_b_cat bufhh HHutili hueref chromaref lumaref sobelref meansobel blend2 lp
            original transformed cx cy sk y x)) prev := by
    intro c hz
    have hz0 : (pixelZone m lp ((lp.trans : ℚ) / 100) (cx + x) (cy + y)).1 ≠ 0 := by
      show zw.1 ≠ 0
      rcases hz with h | h <;> (rw [h]; decide)
    exact transit_shapedetect_inside m senstype bufexporig originalmask buflight bufchro
      buf_a_cat buf_b_cat bufhh HHutili hueref chromaref lumaref sobelref meansobel blend2
      lp original transformed cx cy sk y x hy hx hrow hz0 c
  have sw2 : zw.1 = 2 → switchStores m senstype lp HHutili
      ((origblur m senstype lp original transformed sk).L y x / (8192 / 25)) zw.1 zw.2
      (pixelValsAt m senstype bufexporig originalmask buflight bufchro buf_a_cat
        buf_b_cat bufhh HHutili hueref chromaref lumaref sobelref meansobel blend2 lp
        original transformed cx cy sk y x)
      = zone2Stores m senstype lp HHutili
      (pixelValsAt m senstype bufexporig originalmask buflight bufchro buf_a_cat
        buf_b_cat bufhh HHutili hueref chromaref lumaref sobelref meansobel blend2 lp
        original transformed cx cy sk y x) := by
    intro hz
    unfold switchStores
    rw [if_pos hrL, hz]
    simp
  have sw1 : zw.1 = 1 → switchStores m senstype lp HHutili
      ((origblur m senstype lp original transformed sk).L y x / (8192 / 25)) zw.1 zw.2
      (pixelValsAt m senstype bufexporig originalmask buflight bufchro buf_a_cat
        buf_b_cat bufhh HHutili hueref chromaref lumaref sobelref meansobel blend2 lp
        original transformed cx cy sk y x)
      = zone1Stores m senstype lp HHutili zw.2
      (pixelValsAt m senstype bufexporig originalmask buflight bufchro buf_a_cat
        buf_b_cat bufhh HHutili hueref chromaref lumaref sobelref meansobel blend2 lp
        original transformed cx cy sk y x) := by
    intro hz
    unfold switchStores
    rw [if_pos hrL, hz]
    simp
  have part2 : zw.1 = 2 →
      ((senstype = 0 ∨ senstype = 1 ∨ senstype = 9) → out.L y x = CLIP (original.L y x))
      ∧ ((senstype = 2 ∨ senstype = 3 ∨ senstype = 4 ∨ senstype = 6 ∨ senstype = 8) →
          out.L y x = CLIP bL)
      ∧ out.a y x = CLIPC ba ∧ out.b y x = CLIPC bb := by
    intro hz
    have hL := zone2Stores_gate_zero_L m senstype lp HHutili _ (transformed.L y x) hp hv1
    have hab := zone2Stores_gate_zero_ab m senstype lp HHutili _ (transformed.a y x)
      (transformed.b y x) h7 hp hvh hv2 hv3 hv4
    refine ⟨fun hs => ?_, fun hs => ?_, ?_, ?_⟩
    · show lastStore Chan.L _ _ = _
      rw [key Chan.L (Or.inr hz)]
      simp only [sw2 hz]
      exact hL.1 hs
    · show lastStore Chan.L _ _ = _
      rw [key Chan.L (Or.inr hz)]
      simp only [sw2 hz]
      exact hL.2 hs
    · show lastStore Chan.a _ _ = _
      rw [key Chan.a (Or.inr hz)]
      simp only [sw2 hz]
      exact hab.1
    · show lastStore Chan.b _ _ = _
      rw [key Chan.b (Or.inr hz)]
      simp only [sw2 hz]
      exact hab.2
  have part1 : zw.1 = 1 →
      ((senstype = 0 ∨ senstype = 1 ∨ senstype = 9) → out.L y x = CLIP (original.L y x))
      ∧ ((senstype = 2 ∨ senstype = 3 ∨ senstype = 4 ∨ senstype = 6 ∨ senstype = 8) →
          out.L y x = CLIP (original.L y x + (bL - original.L y x) * zw.2))
      ∧ out.a y x = CLIPC (original.a y x + (ba - original.a y x) * zw.2)
      ∧ out.b y x = CLIPC (original.b y x + (bb - original.b y x) * zw.2) := by
    intro hz
    have hL := zone1Stores_gate_zero_L m senstype lp HHutili zw.2 _ (transformed.L y x) hp hv1
    have hab := zone1Stores_gate_zero_ab m senstype lp HHutili zw.2 _ (transformed.a y x)
      (transformed.b y x) h7 hp hvh hv2 hv3 hv4
    refine ⟨fun hs => ?_, fun hs => ?_, ?_, ?_⟩
    · show lastStore Chan.L _ _ = _
      rw [key Chan.L (Or.inl hz)]
      simp only [sw1 hz]
      exact hL.1 hs
    · show lastStore Chan.L _ _ = _
      rw [key Chan.L (Or.inl hz)]
      simp only [sw1 hz]
      exact hL.2 hs
    · show lastStore Chan.a _ _ = _
      rw [key Chan.a (Or.inl hz)]
      simp only [sw1 hz]
      exact hab.1
    · show lastStore Chan.b _ _ = _
      rw [key Chan.b (Or.inl hz)]
      simp only [sw1 hz]
      exact hab.2
  refine ⟨part2, part1, ?_⟩
  intro hz hbL hba hbb
  rcases hz with hz | hz
  · obtain ⟨p1, p2, p3, p4⟩ := part1 hz
    refine ⟨fun hs => ?_, ?_, ?_⟩
    · rcases hs with h | h | h | h | h | h | h | h
      · exact p1 (Or.inl h)
      · exact p1 (Or.inr (Or.inl h))
      · rw [p2 (Or.inl h), hbL]; simp
      · rw [p2 (Or.inr (Or.inl h)), hbL]; simp
      · rw [p2 (Or.inr (Or.inr (Or.inl h))), hbL]; simp
      · rw [p2 (Or.inr (Or.inr (Or.inr (Or.inl h)))), hbL]; simp
      · rw [p2 (Or.inr (Or.inr (Or.inr (Or.inr h)))), hbL]; simp
      · exact p1 (Or.inr (Or.inr h))
    · rw [p3, hba]; simp
    · rw [p4, hbb]; simp
  · obtain ⟨p1, p2, p3, p4⟩ := part2 hz
    refine ⟨fun hs => ?_, ?_, ?_⟩
    · rcases hs with h | h | h | h | h | h | h | h
      · exact p1 (Or.inl h)
      · exact p1 (Or.inr (Or.inl h))
      · rw [p2 (Or.inl h), hbL]
      · rw [p2 (Or.inr (Or.inl h)), hbL]
      · rw [p2 (Or.inr (Or.inr (Or.inl h))), hbL]
      · rw [p2 (Or.inr (Or.inr (Or.inr (Or.inl h)))), hbL]
      · rw [p2 (Or.inr (Or.inr (Or.inr (Or.inr h)))), hbL]
      · exact p1 (Or.inr (Or.inr h))
    · rw [p3, hba]
    · rw [p4, hbb]

theorem rat_sqrt_10000 : Rat.sqrt 10000 = 100 := by
  norm_num

theorem example_gate_zero (bufexporig : LabImage) :
    pixelGate libmQ 8 (constImage 1 1 0 0 0) 25 (constPlane 0) (spotParams 0 50 50)
      (prelude libmQ (spotParams 0 50 50) 0 100 0 0)
      (origblur libmQ 8 (spotParams 0 50 50) (constImage 1 1 8192 0 0) bufexporig 1)
      bufexporig 2 0 1 0 0 = 0 := by
  norm_num [pixelGate, pixel_dE, reducdE, gateBase, varsens, spotParams, useAnyMask, prelude,
    origblur, constImage, constPlane, SQR, mindE, maxdE, minscope, maxscope, libmQ,
    rat_sqrt_10000]

/-- C3, witness: tone-mapping tool (code 8) on the one-pixel image at image
coordinates (2, 0), inside the ellipse; the reference chroma is 100 away from
the pixel's, beyond `maxdE = 80`, so the gate is 0; `bufexporig` holds the
original values and the written luma is the clamped original. -/
theorem transit_shapedetect_gate_zero_witness :
    (transit_shapedetect libmQ 8 (constImage 1 1 8192 0 0) (constImage 1 1 0 0 0)
      (constPlane 7) (constPlane 7) (constPlane 0) (constPlane 0) (constPlane 0)
      false 0 100 25 0 0 (constPlane 0) (spotParams 0 50 50) (constImage 1 1 8192 0 0)
      (constImage 1 1 8192 0 0) 2 0 1).L 0 0 = CLIP 8192 :=
  ((transit_shapedetect_gate_zero libmQ 8 (constImage 1 1 8192 0 0) (constImage 1 1 0 0 0)
    (constPlane 7) (constPlane 7) (constPlane 0) (constPlane 0) (constPlane 0)
    false 0 100 25 0 0 (constPlane 0) (spotParams 0 50 50) (constImage 1 1 8192 0 0)
    (constImage 1 1 8192 0 0) 2 0 1 0 0
    (by simp [constImage]) (by simp [constImage])
    (by simp [isZone0, spotParams])
    (by norm_num [origblur, libmQ, constImage, constPlane])
    (by decide)
    (by simp [previewShow, spotParams])
    (Or.inl (by decide))
    (example_gate_zero (constImage 1 1 8192 0 0))).2.2
    (Or.inr (by norm_num [pixelZone, spotParams, calcTransition, calcTransitionQuadrant, SQR]))
    rfl rfl rfl).1 (by decide)

/-- C3, counterexample: tone-mapping tool (code 8), Inside pixel (zone 2) with
gate 0 and blurred luma 8192 / 327.68 = 25; the original luma is 8192, the
`bufexporig` buffer passed as processed image holds 1000, and the lightness
delta buffer holds 7.  The written luma is 1000, the value of the processed
buffer, not the clamped original 8192. -/
theorem transit_shapedetect_gate_zero_not_original :
    pixelGate libmQ 8 (constImage 1 1 0 0 0) 25 (constPlane 0) (spotParams 0 50 50)
      (prelude libmQ (spotParams 0 50 50) 0 100 0 0)
      (origblur libmQ 8 (spotParams 0 50 50) (constImage 1 1 8192 0 0)
        (constImage 1 1 8192 0 0) 1)
      (constImage 1 1 8192 0 0) 2 0 1 0 0 = 0
    ∧ (pixelZone libmQ (spotParams 0 50 50) (1 / 2) 2 0).1 = 2
    ∧ CLIP ((constImage 1 1 8192 0 0).L 0 0) = 8192
    ∧ (transit_shapedetect libmQ 8 (constImage 1 1 1000 0 0) (constImage 1 1 0 0 0)
      (constPlane 7) (constPlane 7) (constPlane 0) (constPlane 0) (constPlane 0)
      false 0 100 25 0 0 (constPlane 0) (spotParams 0 50 50) (constImage 1 1 8192 0 0)
      (constImage 1 1 8192 0 0) 2 0 1).L 0 0 = 1000 := by
  refine ⟨example_gate_zero _, ?_, ?_, ?_⟩
  · norm_num [pixelZone, spotParams, calcTransition, calcTransitionQuadrant, SQR]
  · norm_num [CLIP, LIM, MAXVALF, constImage, constPlane]
  · norm_num [transit_shapedetect, pixelStores, switchStores, zone2Stores, pixelValsAt,
      pixelGate, pixel_dE, reducdE, gateBase, varsens, useAnyMask, prelude, origblur, isZone0,
      pixelZone, calcTransition, calcTransitionQuadrant, SQR, mindE, maxdE, minscope,
      maxscope, libmQ, constImage, constPlane, previewShow, spotParams, fliab, truncInt,
      lastStore, CLIP, LIM, MAXVALF, CLIPC, rat_sqrt_10000]
    simp

/-- C4, witness: the tone-mapping tool on a pixel whose processed luma is
`10 ^ 9` and processed chroma `- 10 ^ 9`. -/
theorem transit_shapedetect_clamped_witness :
    (transit_shapedetect libmQ 8 (constImage 1 1 1000000000 (-1000000000) 0)
        (constImage 1 1 0 0 0) (constPlane 1000000000) (constPlane 7) (constPlane 0)
        (constPlane 0) (constPlane 0) false 0 100 25 0 0 (constPlane 0) (spotParams 0 50 50)
        (constImage 1 1 8192 0 0) (constImage 1 1 8192 0 0) 2 0 1).L 0 0
      = (constImage 1 1 8192 0 0).L 0 0
    ∨ (0 ≤ (transit_shapedetect libmQ 8 (constImage 1 1 1000000000 (-1000000000) 0)
        (constImage 1 1 0 0 0) (constPlane 1000000000) (constPlane 7) (constPlane 0)
        (constPlane 0) (constPlane 0) false 0 100 25 0 0 (constPlane 0) (spotParams 0 50 50)
        (constImage 1 1 8192 0 0) (constImage 1 1 8192 0 0) 2 0 1).L 0 0
      ∧ (transit_shapedetect libmQ 8 (constImage 1 1 1000000000 (-1000000000) 0)
        (constImage 1 1 0 0 0) (constPlane 1000000000) (constPlane 7) (constPlane 0)
        (constPlane 0) (constPlane 0) false 0 100 25 0 0 (constPlane 0) (spotParams 0 50 50)
        (constImage 1 1 8192 0 0) (constImage 1 1 8192 0 0) 2 0 1).L 0 0 ≤ 65535) :=
  (transit_shapedetect_clamped libmQ 8 (constImage 1 1 1000000000 (-1000000000) 0)
    (constImage 1 1 0 0 0) (constPlane 1000000000) (constPlane 7) (constPlane 0)
    (constPlane 0) (constPlane 0) false 0 100 25 0 0 (constPlane 0) (spotParams 0 50 50)
    (constImage 1 1 8192 0 0) (constImage 1 1 8192 0 0) 2 0 1 0 0).2.1

/-! ### Perceptual gate -/

theorem mindE_lt_maxdE (s thr : ℚ) (hs : 0 ≤ s) (hthr : 0 ≤ thr) :
    mindE s thr < maxdE s thr := by
  unfold mindE maxdE minscope maxscope
  nlinarith [mul_nonneg hs hthr]

theorem gate_ramp_eq (s thr dE : ℚ) (h : mindE s thr < maxdE s thr) :
    1 / (mindE s thr - maxdE s thr) * dE + -(1 / (mindE s thr - maxdE s thr)) * maxdE s thr
      = (maxdE s thr - dE) / (maxdE s thr - mindE s thr) := by
  have h1 : mindE s thr - maxdE s thr ≠ 0 := by linarith
  have h2 : maxdE s thr - mindE s thr ≠ 0 := by linarith
  field_simp
  ring

/-- C5: the gate of `transit_shapedetect` for a sensitivity `s` below the
ceiling (`0 <= s <= 99`), a threshold `thr >= 0` and an exponent `iterat` at
which the library `pow` maps 0 to 0 and 1 to 1 (every positive exponent).
With `minDE = 2 + 0.025 * s * thr` and `maxDE = 5 + 1.25 * s * (1 + 0.1 * thr)`
the gate is 1 when `dE <= minDE`, 0 when `dE > maxDE`, and
`pow ((maxDE - dE) / (maxDE - minDE), iterat)` when `minDE < dE <= maxDE`. -/
theorem reducdE_cases (m : Libm) (s thr iterat dE : ℚ)
    (hs : 0 ≤ s ∧ s ≤ 99) (hthr : 0 ≤ thr)
    (hpow0 : m.pow 0 iterat = 0) (hpow1 : m.pow 1 iterat = 1) :
    (mindE s thr = 2 + (25 / 1000) * s * thr
      ∧ maxdE s thr = 5 + (125 / 100) * s * (1 + (1 / 10) * thr))
    ∧ (dE ≤ mindE s thr → reducdE m s thr iterat dE = 1)
    ∧ (dE > maxdE s thr → reducdE m s thr iterat dE = 0)
    ∧ (mindE s thr < dE ∧ dE ≤ maxdE s thr →
        reducdE m s thr iterat dE
          = m.pow ((maxdE s thr - dE) / (maxdE s thr - mindE s thr)) iterat) := by
  have hlt := mindE_lt_maxdE s thr hs.1 hthr
  have hceil : ¬ s > 99 := not_lt.mpr hs.2
  refine ⟨⟨by unfold mindE minscope; norm_num, by unfold maxdE maxscope; norm_num⟩, ?_, ?_, ?_⟩
  · intro h
    unfold reducdE gateBase
    simp only [if_neg hceil, if_pos h, hpow1]
  · intro h
    have h1 : ¬ dE ≤ mindE s thr := by
      intro h'
      linarith
    have h2 : ¬ (dE > mindE s thr ∧ dE ≤ maxdE s thr) := by
      rintro ⟨_, h'⟩
      exact absurd h (not_lt.mpr h')
    unfold reducdE gateBase
    simp only [if_neg hceil, if_neg h1, if_neg h2, if_pos h, hpow0]
  · intro h
    have h1 : ¬ dE ≤ mindE s thr := not_le.mpr h.1
    have h2 : dE > mindE s thr ∧ dE ≤ maxdE s thr := h
    unfold reducdE gateBase
    simp only [if_neg hceil, if_neg h1, if_pos h2]
    rw [gate_ramp_eq s thr dE hlt]

/-- C5, witness: sensitivity 50, threshold 2, exponent 2 (`minDE = 4.5`,
`maxDE = 80`) at the distance 42.25, the middle of the ramp. -/
theorem reducdE_cases_witness :
    reducdE libmQ 50 2 2 (169 / 4)
      = libmQ.pow ((maxdE 50 2 - 169 / 4) / (maxdE 50 2 - mindE 50 2)) 2 :=
  (reducdE_cases libmQ 50 2 2 (169 / 4) (by norm_num) (by norm_num)
    (by norm_num [libmQ]) (by norm_num [libmQ])).2.2.2
    (by norm_num [mindE, maxdE, minscope, maxscope])

theorem mindE_ge_two (s thr : ℚ) (hs : 0 ≤ s) (hthr : 0 ≤ thr) : 2 ≤ mindE s thr := by
  unfold mindE minscope
  nlinarith [mul_nonneg hs hthr]

theorem gateBase_low (s thr dE : ℚ) (h : dE ≤ mindE s thr) : gateBase s thr dE = 1 := by
  unfold gateBase
  simp only [if_pos h]

theorem gateBase_high (s thr dE : ℚ) (hlt : mindE s thr < maxdE s thr)
    (h : dE > maxdE s thr) : gateBase s thr dE = 0 := by
  have h1 : ¬ dE ≤ mindE s thr := by
    intro h'
    linarith
  have h2 : ¬ (dE > mindE s thr ∧ dE ≤ maxdE s thr) := by
    rintro ⟨_, h'⟩
    exact absurd h (not_lt.mpr h')
  unfold gateBase
  simp only [if_neg h1, if_neg h2, if_pos h]

theorem gateBase_ramp (s thr dE : ℚ) (hlt : mindE s thr < maxdE s thr)
    (h : mindE s thr < dE ∧ dE ≤ maxdE s thr) :
    gateBase s thr dE = (maxdE s thr - dE) / (maxdE s thr - mindE s thr) := by
  have h1 : ¬ dE ≤ mindE s thr := not_le.mpr h.1
  have h2 : dE > mindE s thr ∧ dE ≤ maxdE s thr := h
  unfold gateBase
  simp only [if_neg h1, if_pos h2]
  exact gate_ramp_eq s thr dE hlt

theorem gateBase_range (s thr dE : ℚ) (hlt : mindE s thr < maxdE s thr) :
    0 ≤ gateBase s thr dE ∧ gateBase s thr dE ≤ 1 := by
  by_cases h1 : dE ≤ mindE s thr
  · rw [gateBase_low s thr dE h1]
    norm_num
  · by_cases h2 : dE > maxdE s thr
    · rw [gateBase_high s thr dE hlt h2]
      norm_num
    · have h3 : mindE s thr < dE ∧ dE ≤ maxdE s thr := ⟨not_le.mp h1, not_lt.mp h2⟩
      rw [gateBase_ramp s thr dE hlt h3]
      have hD : 0 < maxdE s thr - mindE s thr := by linarith
      constructor
      · exact div_nonneg (by linarith [h3.2]) hD.le
      · rw [div_le_one hD]
        linarith [h3.1]

theorem gateBase_antitone (s thr d1 d2 : ℚ) (hlt : mindE s thr < maxdE s thr)
    (h : d1 ≤ d2) : gateBase s thr d2 ≤ gateBase s thr d1 := by
  by_cases h1 : d1 ≤ mindE s thr
  · rw [gateBase_low s thr d1 h1]
    exact (gateBase_range s thr d2 hlt).2
  · by_cases h2 : d2 > maxdE s thr
    · rw [gateBase_high s thr d2 hlt h2]
      exact (gateBase_range s thr d1 hlt).1
    · have h3 : mindE s thr < d1 ∧ d1 ≤ maxdE s thr :=
        ⟨not_le.mp h1, le_trans h (not_lt.mp h2)⟩
      have h4 : mindE s thr < d2 ∧ d2 ≤ maxdE s thr :=
        ⟨lt_of_lt_of_le (not_le.mp h1) h, not_lt.mp h2⟩
      rw [gateBase_ramp s thr d1 hlt h3, gateBase_ramp s thr d2 hlt h4]
      have hD : 0 < maxdE s thr - mindE s thr := by linarith
      exact div_le_div_of_nonneg_right (by linarith) hD.le

/-- C6: gate monotonicity.  For a sensitivity `s` in `[0, 100]`, a threshold
`thr` in `[0, 8]` and an exponent `iterat` in `[0.2, 4]`, at which the library
`pow` maps 0 to 0, 1 to 1 and is non-decreasing on `[0, 1]`, the gate of
`transit_shapedetect` is a non-increasing function of `dE` on `dE >= 0`, takes
its values in `[0, 1]`, equals 1 at `dE = 0`, and, for `s` below the ceiling,
equals 0 at `dE = maxDE`. -/
theorem reducdE_monotone (m : Libm) (s thr iterat : ℚ)
    (hs : 0 ≤ s ∧ s ≤ 100) (hthr : 0 ≤ thr ∧ thr ≤ 8)
    (hit : 1 / 5 ≤ iterat ∧ iterat ≤ 4) (hpow : PowSpec m iterat) :
    (∀ d1 d2 : ℚ, 0 ≤ d1 → d1 ≤ d2 →
        reducdE m s thr iterat d2 ≤ reducdE m s thr iterat d1)
    ∧ (∀ dE : ℚ, 0 ≤ dE →
        0 ≤ reducdE m s thr iterat dE ∧ reducdE m s thr iterat dE ≤ 1)
    ∧ reducdE m s thr iterat 0 = 1
    ∧ (s ≤ 99 → reducdE m s thr iterat (maxdE s thr) = 0) := by
  obtain ⟨hp0, hp1, hmono⟩ := hpow
  have _hit := hit
  have hlt := mindE_lt_maxdE s thr hs.1 hthr.1
  have hmin := mindE_ge_two s thr hs.1 hthr.1
  refine ⟨?_, ?_, ?_, ?_⟩
  · intro d1 d2 _ h12
    unfold reducdE
    by_cases hc : s > 99
    · simp only [if_pos hc, le_refl]
    · simp only [if_neg hc]
      exact hmono _ _ (gateBase_range s thr d2 hlt).1 (gateBase_antitone s thr d1 d2 hlt h12)
        (gateBase_range s thr d1 hlt).2
  · intro dE _
    unfold reducdE
    by_cases hc : s > 99
    · simp only [if_pos hc]
      norm_num
    · simp only [if_neg hc]
      have hr := gateBase_range s thr dE hlt
      constructor
      · have h := hmono 0 (gateBase s thr dE) le_rfl hr.1 hr.2
        rw [hp0] at h
        exact h
      · have h := hmono (gateBase s thr dE) 1 hr.1 hr.2 le_rfl
        rw [hp1] at h
        exact h
  · unfold reducdE
    by_cases hc : s > 99
    · simp only [if_pos hc]
    · simp only [if_neg hc]
      rw [gateBase_low s thr 0 (by linarith), hp1]
  · intro hc
    unfold reducdE
    simp only [if_neg (not_lt.mpr hc)]
    rw [gateBase_ramp s thr (maxdE s thr) hlt ⟨hlt, le_rfl⟩]
    simp [hp0]

theorem libmQ_powSpec_two : PowSpec libmQ 2 := by
  refine ⟨by norm_num [libmQ], by norm_num [libmQ], ?_⟩
  intro a b ha hab _
  have h2 : Int.toNat ⌊(2 : ℚ)⌋ = 2 := by
    rw [show ⌊(2 : ℚ)⌋ = 2 by norm_num]
    rfl
  show a ^ (Int.toNat ⌊(2 : ℚ)⌋) ≤ b ^ (Int.toNat ⌊(2 : ℚ)⌋)
  rw [h2]
  exact pow_le_pow_left₀ ha hab 2

/-- C6, witness: sensitivity 50, threshold 2, exponent 2, with the square as
the power function. -/
theorem reducdE_monotone_witness :
    reducdE libmQ 50 2 2 0 = 1 ∧ reducdE libmQ 50 2 2 (maxdE 50 2) = 0 :=
  ⟨(reducdE_monotone libmQ 50 2 2 (by norm_num) (by norm_num) (by norm_num)
      libmQ_powSpec_two).2.2.1,
   (reducdE_monotone libmQ 50 2 2 (by norm_num) (by norm_num) (by norm_num)
      libmQ_powSpec_two).2.2.2 (by norm_num)⟩

/-- C7 (amended): sensitivity ceiling.  For every sensitivity `s > 99`, that
is `s >= 100` for the integer sensitivity of the parameter block, the gate of
`transit_shapedetect` is 1 for every distance `dE`, every threshold, every
exponent and every power function, so that at sensitivity 100 a pixel with
`dE = 1000` has gate 1. -/
theorem reducdE_ceiling (m : Libm) (s thr iterat dE : ℚ) (n : ℤ)
    (hs : s > 99) (hn : n ≥ 100) :
    reducdE m s thr iterat dE = 1 ∧ reducdE m (n : ℚ) thr iterat dE = 1 := by
  have hn' : (n : ℚ) > 99 := by
    have h : (100 : ℚ) ≤ (n : ℚ) := by exact_mod_cast hn
    linarith
  constructor
  · unfold reducdE
    simp only [if_pos hs]
  · unfold reducdE
    simp only [if_pos hn']

/-- C7, witness: sensitivity 100 and `dE = 1000`. -/
theorem reducdE_ceiling_witness :
    reducdE libmQ 100 2 2 1000 = 1 ∧ reducdE libmQ ((100 : ℤ) : ℚ) 2 2 1000 = 1 :=
  reducdE_ceiling libmQ 100 2 2 1000 100 (by norm_num) (by norm_num)

/-- C7, counterexample: at sensitivity 99 (threshold 2, exponent 2, so that
`maxDE = 153.5`) the gate of a pixel with `dE = 1000` is `pow (0, 2) = 0`,
not 1. -/
theorem reducdE_at_99_not_one :
    maxdE 99 2 = 307 / 2 ∧ reducdE libmQ 99 2 2 1000 = 0
    ∧ reducdE libmQ (varsens 0 (spotParams 0 50 99)) 2 2 1000 ≠ 1 := by
  refine ⟨by norm_num [maxdE, maxscope], ?_, ?_⟩
  · norm_num [reducdE, gateBase, mindE, maxdE, minscope, maxscope, libmQ]
  · norm_num [reducdE, gateBase, mindE, maxdE, minscope, maxscope, libmQ, varsens,
      spotParams]

theorem calcTransitionrect_zone (m : Libm) (lox loy ach : ℚ) (lp : local_params) (lf : ℚ)
    (hpos : 0 < lp.lx ∧ 0 < lp.ly ∧ 0 < lp.lxL ∧ 0 < lp.lyT) (hach : 0 < ach ∧ ach < 1) :
    (calcTransitionrect m lox loy ach lp lf).1
      = if lp.xc - lp.lxL * ach < lox ∧ lox < lp.xc + lp.lx * ach
            ∧ lp.yc - lp.lyT * ach < loy ∧ loy < lp.yc + lp.ly * ach then 2
        else if lp.xc - lp.lxL < lox ∧ lox < lp.xc + lp.lx
            ∧ lp.yc - lp.lyT < loy ∧ loy < lp.yc + lp.ly then 1
        else 0 := by
  obtain ⟨h1, h2, h3, h4⟩ := hpos
  obtain ⟨ha0, ha1⟩ := hach
  have a1 : 0 < lp.lx * ach := mul_pos h1 ha0
  have a2 : 0 < lp.ly * ach := mul_pos h2 ha0
  have a3 : 0 < lp.lxL * ach := mul_pos h3 ha0
  have a4 : 0 < lp.lyT * ach := mul_pos h4 ha0
  have b1 : lp.lx * ach < lp.lx := by nlinarith
  have b2 : lp.ly * ach < lp.ly := by nlinarith
  have b3 : lp.lxL * ach < lp.lxL := by nlinarith
  have b4 : lp.lyT * ach < lp.lyT := by nlinarith
  unfold calcTransitionrect
  simp only [ge_iff_le, gt_iff_lt]
  by_cases hx : lp.xc ≤ lox
  · have nx : ¬ lox < lp.xc := not_lt.mpr hx
    have t1 : lp.xc - lp.lxL * ach < lox := by linarith
    have t2 : lp.xc - lp.lxL < lox := by linarith
    by_cases hy : lp.yc ≤ loy
    · have ny : ¬ loy < lp.yc := not_lt.mpr hy
      have t3 : lp.yc - lp.lyT * ach < loy := by linarith
      have t4 : lp.yc - lp.lyT < loy := by linarith
      simp only [hx, hy, nx, ny, t1, t2, t3, t4, true_and, and_true, false_and, and_false,
        if_false]
      clear nx ny
      split_ifs
      all_goals first
        | rfl
        | (exfalso
           obtain ⟨r1, r2⟩ := ‹_ ∧ _›
           apply ‹¬ (_ ∧ _)›
           constructor <;> linarith)
    · have ny : loy < lp.yc := not_le.mp hy
      have t3 : loy < lp.yc + lp.ly * ach := by linarith
      have t4 : loy < lp.yc + lp.ly := by linarith
      simp only [hx, hy, nx, ny, t1, t2, t3, t4, true_and, and_true, false_and, and_false,
        if_false]
      clear nx hy
      split_ifs
      all_goals first
        | rfl
        | (exfalso
           obtain ⟨r1, r2⟩ := ‹_ ∧ _›
           apply ‹¬ (_ ∧ _)›
           constructor <;> linarith)
  · have nx : lox < lp.xc := not_le.mp hx
    have t1 : lox < lp.xc + lp.lx * ach := by linarith
    have t2 : lox < lp.xc + lp.lx := by linarith
    by_cases hy : loy ≤ lp.yc
    · have ny : ¬ lp.yc < loy := not_lt.mpr hy
      have t3 : loy < lp.yc + lp.ly * ach := by linarith
      have t4 : loy < lp.yc + lp.ly := by linarith
      simp only [hx, hy, nx, ny, t1, t2, t3, t4, true_and, and_true, false_and, and_false,
        if_false]
      clear hx ny
      split_ifs
      all_goals first
        | rfl
        | (exfalso
           obtain ⟨r1, r2⟩ := ‹_ ∧ _›
           apply ‹¬ (_ ∧ _)›
           constructor <;> linarith)
    · have ny : lp.yc < loy := not_le.mp hy
      have t3 : lp.yc - lp.lyT * ach < loy := by linarith
      have t4 : lp.yc - lp.lyT < loy := by linarith
      simp only [hx, hy, nx, ny, t1, t2, t3, t4, true_and, and_true, false_and, and_false,
        if_false]
      clear hx hy
      split_ifs
      all_goals first
        | rfl
        | (exfalso
           obtain ⟨r1, r2⟩ := ‹_ ∧ _›
           apply ‹¬ (_ ∧ _)›
           constructor <;> linarith)

theorem ray_interval (c a b d t1 t2 : ℚ) (ha : 0 < a) (hb : 0 < b)
    (ht : 0 ≤ t1 ∧ t1 ≤ t2) (h : c - a < c + t2 * d ∧ c + t2 * d < c + b) :
    c - a < c + t1 * d ∧ c + t1 * d < c + b := by
  rcases le_total 0 d with hd | hd
  · have e1 : t1 * d ≤ t2 * d := mul_le_mul_of_nonneg_right ht.2 hd
    have e2 : 0 ≤ t1 * d := mul_nonneg ht.1 hd
    constructor <;> linarith [h.1, h.2]
  · have e1 : t2 * d ≤ t1 * d := mul_le_mul_of_nonpos_right ht.2 hd
    have e2 : t1 * d ≤ 0 := mul_nonpos_of_nonneg_of_nonpos ht.1 hd
    constructor <;> linarith [h.1, h.2]

/-- C8, failing input: ellipse of half-extents 10 centred at the origin with
transition fraction 1/2.  On the ray of direction (1, 0) the point P = (5, 0),
for which `zoneVal` equals 1, is classified Outside (zone 0), and the point
Q = (6, 0), farther from the centre, is classified Transition (zone 1). -/
theorem calcTransition_not_monotone_at_boundary :
    SQR ((5 - 0) / ((1 / 2) * 10)) + SQR ((0 - 0) / ((1 / 2) * 10)) = 1
    ∧ (calcTransition libmQ 5 0 (1 / 2) (spotParams 0 50 50) 1).1 = 0
    ∧ (calcTransition libmQ 6 0 (1 / 2) (spotParams 0 50 50) 1).1 = 1
    ∧ (calcTransition libmQ 4 0 (1 / 2) (spotParams 0 50 50) 1).1 = 2 := by
  refine ⟨by norm_num [SQR], ?_, ?_, ?_⟩ <;>
    norm_num [calcTransition, calcTransitionQuadrant, spotParams, SQR]

/-- C9: zone monotonicity of `calcTransitionrect`.  For a spot with the four
half-extents positive and a transition fraction `ach` in (0, 1), and for every
ray from the spot centre with direction (`dx`, `dy`): if P is the point at
parameter `t1` and Q the point at parameter `t2 >= t1 >= 0`, so that P is
nearer the centre than Q, then `zone (P) >= zone (Q)`. -/
theorem calcTransitionrect_monotone (m : Libm) (ach : ℚ) (lp : local_params) (lf : ℚ)
    (dx dy t1 t2 : ℚ)
    (hpos : 0 < lp.lx ∧ 0 < lp.ly ∧ 0 < lp.lxL ∧ 0 < lp.lyT) (hach : 0 < ach ∧ ach < 1)
    (ht : 0 ≤ t1 ∧ t1 ≤ t2) :
    (calcTransitionrect m (lp.xc + t2 * dx) (lp.yc + t2 * dy) ach lp lf).1
      ≤ (calcTransitionrect m (lp.xc + t1 * dx) (lp.yc + t1 * dy) ach lp lf).1 := by
  rw [calcTransitionrect_zone m _ _ ach lp lf hpos hach,
    calcTransitionrect_zone m _ _ ach lp lf hpos hach]
  obtain ⟨h1, h2, h3, h4⟩ := hpos
  obtain ⟨ha0, _⟩ := hach
  have a1 : 0 < lp.lx * ach := mul_pos h1 ha0
  have a2 : 0 < lp.ly * ach := mul_pos h2 ha0
  have a3 : 0 < lp.lxL * ach := mul_pos h3 ha0
  have a4 : 0 < lp.lyT * ach := mul_pos h4 ha0
  by_cases hQi : lp.xc - lp.lxL * ach < lp.xc + t2 * dx ∧ lp.xc + t2 * dx < lp.xc + lp.lx * ach
      ∧ lp.yc - lp.lyT * ach < lp.yc + t2 * dy ∧ lp.yc + t2 * dy < lp.yc + lp.ly * ach
  · have ex := ray_interval lp.xc _ _ dx t1 t2 a3 a1 ht ⟨hQi.1, hQi.2.1⟩
    have ey := ray_interval lp.yc _ _ dy t1 t2 a4 a2 ht ⟨hQi.2.2.1, hQi.2.2.2⟩
    rw [if_pos hQi, if_pos ⟨ex.1, ex.2, ey.1, ey.2⟩]
  · rw [if_neg hQi]
    by_cases hQo : lp.xc - lp.lxL < lp.xc + t2 * dx ∧ lp.xc + t2 * dx < lp.xc + lp.lx
        ∧ lp.yc - lp.lyT < lp.yc + t2 * dy ∧ lp.yc + t2 * dy < lp.yc + lp.ly
    · have ex := ray_interval lp.xc _ _ dx t1 t2 h3 h1 ht ⟨hQo.1, hQo.2.1⟩
      have ey := ray_interval lp.yc _ _ dy t1 t2 h4 h2 ht ⟨hQo.2.2.1, hQo.2.2.2⟩
      have hPo : lp.xc - lp.lxL < lp.xc + t1 * dx ∧ lp.xc + t1 * dx < lp.xc + lp.lx
          ∧ lp.yc - lp.lyT < lp.yc + t1 * dy ∧ lp.yc + t1 * dy < lp.yc + lp.ly :=
        ⟨ex.1, ex.2, ey.1, ey.2⟩
      rw [if_pos hQo]
      split_ifs <;> norm_num
    · rw [if_neg hQo]
      split_ifs <;> norm_num

/-- C9, witness: rectangle of half-extents 10 centred at the origin with
transition fraction 1/2, ray of direction (1, 1), P at parameter 2 (Inside)
and Q at parameter 7 (Transition). -/
theorem calcTransitionrect_monotone_witness :
    (calcTransitionrect libmQ ((spotParams 1 50 50).xc + 7 * 1)
        ((spotParams 1 50 50).yc + 7 * 1) (1 / 2) (spotParams 1 50 50) 1).1
      ≤ (calcTransitionrect libmQ ((spotParams 1 50 50).xc + 2 * 1)
        ((spotParams 1 50 50).yc + 2 * 1) (1 / 2) (spotParams 1 50 50) 1).1 :=
  calcTransitionrect_monotone libmQ (1 / 2) (spotParams 1 50 50) 1 1 1 2 7
    (by norm_num [spotParams]) (by norm_num) (by norm_num)

theorem sq_lt_one_bound (u e : ℚ) (he : 0 < e) (r : ℚ) (hr : 0 ≤ r)
    (h : SQR (u / e) + r < 1) : -e < u ∧ u < e := by
  have hq : (u / e) * (u / e) < 1 := by
    unfold SQR at h
    linarith
  have hlt : u / e < 1 := by
    by_contra hc
    push_neg at hc
    nlinarith
  have hgt : -1 < u / e := by
    by_contra hc
    push_neg at hc
    nlinarith
  constructor
  · have := (lt_div_iff₀ he).mp hgt
    linarith
  · have := (div_lt_iff₀ he).mp hlt
    linarith

theorem SQR_nonneg (x : ℚ) : 0 ≤ SQR x := mul_self_nonneg x

theorem calcTransitionQuadrant_inside (m : Libm) (lox loy ach xc yc ex ey lf : ℚ)
    (h : SQR ((lox - xc) / (ach * ex)) + SQR ((loy - yc) / (ach * ey)) < 1) :
    (calcTransitionQuadrant m lox loy ach xc yc ex ey lf).1 = 2 := by
  unfold calcTransitionQuadrant
  simp [h]

/-- C10 (amended): boundary policy of the zone classifiers; the full-effect
tests are strict.  For the rectangle, a pixel lying exactly on the full-effect
boundary, `|x - xc| = ach * ex` with `|y - yc| <= ach * ey`, is classified
Transition (zone 1), and a pixel with `|x - xc| < ach * ex` and
`|y - yc| < ach * ey` is classified Inside (zone 2).  For the ellipse, a pixel
with `((x - xc) / (ach * ex))^2 + ((y - yc) / (ach * ey))^2 < 1` is classified
Inside (zone 2).  Here `ex`, `ey` are the half-extents of the pixel's
quadrant, all four half-extents are positive and `ach` is in (0, 1). -/
theorem boundary_policy_strict (m : Libm) (lox loy ach : ℚ) (lp : local_params) (lf : ℚ)
    (hpos : 0 < lp.lx ∧ 0 < lp.ly ∧ 0 < lp.lxL ∧ 0 < lp.lyT) (hach : 0 < ach ∧ ach < 1) :
    (|lox - lp.xc| = ach * quadEx lp lox → |loy - lp.yc| ≤ ach * quadEy lp lox loy →
        (calcTransitionrect m lox loy ach lp lf).1 = 1)
    ∧ (|lox - lp.xc| < ach * quadEx lp lox → |loy - lp.yc| < ach * quadEy lp lox loy →
        (calcTransitionrect m lox loy ach lp lf).1 = 2)
    ∧ (SQR ((lox - lp.xc) / (ach * quadEx lp lox))
          + SQR ((loy - lp.yc) / (ach * quadEy lp lox loy)) < 1 →
        (calcTransition m lox loy ach lp lf).1 = 2) := by
  have hz := calcTransitionrect_zone m lox loy ach lp lf hpos hach
  obtain ⟨h1, h2, h3, h4⟩ := hpos
  obtain ⟨ha0, ha1⟩ := hach
  have a1 : 0 < lp.lx * ach := mul_pos h1 ha0
  have a2 : 0 < lp.ly * ach := mul_pos h2 ha0
  have a3 : 0 < lp.lxL * ach := mul_pos h3 ha0
  have a4 : 0 < lp.lyT * ach := mul_pos h4 ha0
  have b1 : lp.lx * ach < lp.lx := by nlinarith
  have b2 : lp.ly * ach < lp.ly := by nlinarith
  have b3 : lp.lxL * ach < lp.lxL := by nlinarith
  have b4 : lp.lyT * ach < lp.lyT := by nlinarith
  have c1 : 0 < ach * lp.lx := by linarith [mul_comm ach lp.lx]
  have c2 : 0 < ach * lp.ly := by linarith [mul_comm ach lp.ly]
  have c3 : 0 < ach * lp.lxL := by linarith [mul_comm ach lp.lxL]
  have c4 : 0 < ach * lp.lyT := by linarith [mul_comm ach lp.lyT]
  refine ⟨?_, ?_, ?_⟩
  · -- on the full-effect boundary of the rectangle
    intro hxb hyb
    rw [hz]
    unfold quadEx at hxb
    unfold quadEy at hyb
    have hyb' := abs_le.mp hyb
    by_cases hx : lox ≥ lp.xc
    · rw [if_pos hx] at hxb hyb'
      rw [abs_of_nonneg (by linarith)] at hxb
      have hni : ¬ (lp.xc - lp.lxL * ach < lox ∧ lox < lp.xc + lp.lx * ach
          ∧ lp.yc - lp.lyT * ach < loy ∧ loy < lp.yc + lp.ly * ach) := by
        rintro ⟨_, h, _, _⟩
        linarith
      rw [if_neg hni]
      by_cases hy : loy ≥ lp.yc
      · rw [if_pos hy] at hyb'
        rw [if_pos ⟨by linarith, by linarith, by linarith, by linarith⟩]
      · rw [if_neg hy] at hyb'
        rw [if_pos ⟨by linarith, by linarith, by linarith, by linarith⟩]
    · rw [if_neg hx] at hxb hyb'
      rw [abs_of_neg (by linarith [not_le.mp hx])] at hxb
      have hni : ¬ (lp.xc - lp.lxL * ach < lox ∧ lox < lp.xc + lp.lx * ach
          ∧ lp.yc - lp.lyT * ach < loy ∧ loy < lp.yc + lp.ly * ach) := by
        rintro ⟨h, _, _, _⟩
        linarith
      rw [if_neg hni]
      have hx' : lox < lp.xc := not_le.mp hx
      by_cases hy : loy ≤ lp.yc
      · rw [if_pos hy] at hyb'
        rw [if_pos ⟨by linarith, by linarith, by linarith, by linarith⟩]
      · rw [if_neg hy] at hyb'
        have hy' : lp.yc < loy := not_le.mp hy
        rw [if_pos ⟨by linarith, by linarith, by linarith, by linarith⟩]
  · -- strictly inside the full-effect rectangle
    intro hxb hyb
    rw [hz]
    unfold quadEx at hxb
    unfold quadEy at hyb
    have hxb' := abs_lt.mp hxb
    have hyb' := abs_lt.mp hyb
    by_cases hx : lox ≥ lp.xc
    · rw [if_pos hx] at hxb' hyb'
      by_cases hy : loy ≥ lp.yc
      · rw [if_pos hy] at hyb'
        rw [if_pos ⟨by linarith, by linarith, by linarith, by linarith⟩]
      · rw [if_neg hy] at hyb'
        have hy' : loy < lp.yc := not_le.mp hy
        rw [if_pos ⟨by linarith, by linarith, by linarith, by linarith⟩]
    · rw [if_neg hx] at hxb' hyb'
      have hx' : lox < lp.xc := not_le.mp hx
      by_cases hy : loy ≤ lp.yc
      · rw [if_pos hy] at hyb'
        rw [if_pos ⟨by linarith, by linarith, by linarith, by linarith⟩]
      · rw [if_neg hy] at hyb'
        have hy' : lp.yc < loy := not_le.mp hy
        rw [if_pos ⟨by linarith, by linarith, by linarith, by linarith⟩]
  · -- strictly inside the full-effect ellipse
    intro he
    unfold quadEx quadEy at he
    unfold calcTransition
    by_cases hx : lox ≥ lp.xc
    · simp only [if_pos hx] at he
      by_cases hy : loy ≥ lp.yc
      · simp only [if_pos hy] at he
        have ux := sq_lt_one_bound (lox - lp.xc) (ach * lp.lx) c1
          (SQR ((loy - lp.yc) / (ach * lp.ly))) (SQR_nonneg _) he
        have uy := sq_lt_one_bound (loy - lp.yc) (ach * lp.ly) c2
          (SQR ((lox - lp.xc) / (ach * lp.lx))) (SQR_nonneg _) (by linarith [he])
        rw [if_pos ⟨hx, by linarith, hy, by linarith⟩]
        exact calcTransitionQuadrant_inside m _ _ _ _ _ _ _ _ he
      · simp only [if_neg hy] at he
        have hy' : loy < lp.yc := not_le.mp hy
        have ux := sq_lt_one_bound (lox - lp.xc) (ach * lp.lx) c1
          (SQR ((loy - lp.yc) / (ach * lp.lyT))) (SQR_nonneg _) he
        have uy := sq_lt_one_bound (loy - lp.yc) (ach * lp.lyT) c4
          (SQR ((lox - lp.xc) / (ach * lp.lx))) (SQR_nonneg _) (by linarith [he])
        rw [if_neg (fun h => hy h.2.2.1), if_pos ⟨hx, by linarith, hy', by linarith⟩]
        exact calcTransitionQuadrant_inside m _ _ _ _ _ _ _ _ he
    · simp only [if_neg hx] at he
      have hx' : lox < lp.xc := not_le.mp hx
      by_cases hy : loy ≤ lp.yc
      · simp only [if_pos hy] at he
        have ux := sq_lt_one_bound (lox - lp.xc) (ach * lp.lxL) c3
          (SQR ((loy - lp.yc) / (ach * lp.lyT))) (SQR_nonneg _) he
        have uy := sq_lt_one_bound (loy - lp.yc) (ach * lp.lyT) c4
          (SQR ((lox - lp.xc) / (ach * lp.lxL))) (SQR_nonneg _) (by linarith [he])
        rw [if_neg (fun h => hx h.1), if_neg (fun h => hx h.1),
          if_pos ⟨hx', by linarith, hy, by linarith⟩]
        exact calcTransitionQuadrant_inside m _ _ _ _ _ _ _ _ he
      · simp only [if_neg hy] at he
        have hy' : lp.yc < loy := not_le.mp hy
        have ux := sq_lt_one_bound (lox - lp.xc) (ach * lp.lxL) c3
          (SQR ((loy - lp.yc) / (ach * lp.ly))) (SQR_nonneg _) he
        have uy := sq_lt_one_bound (loy - lp.yc) (ach * lp.ly) c2
          (SQR ((lox - lp.xc) / (ach * lp.lxL))) (SQR_nonneg _) (by linarith [he])
        rw [if_neg (fun h => hx h.1), if_neg (fun h => hx h.1),
          if_neg (fun h => hy h.2.2.1), if_pos ⟨hx', by linarith, hy', by linarith⟩]
        exact calcTransitionQuadrant_inside m _ _ _ _ _ _ _ _ he

/-- C10, witness: rectangle and ellipse of half-extents 10 centred at the
origin with transition fraction 1/2; the pixel (5, 3) is on the full-effect
boundary of the rectangle. -/
theorem boundary_policy_strict_witness :
    (calcTransitionrect libmQ 5 3 (1 / 2) (spotParams 1 50 50) 1).1 = 1 :=
  (boundary_policy_strict libmQ 5 3 (1 / 2) (spotParams 1 50 50) 1
    (by norm_num [spotParams]) (by norm_num)).1
    (by norm_num [quadEx, spotParams]) (by norm_num [quadEy, spotParams, abs_le])

/-- C10, counterexample: rectangle of half-extents 10 centred at the origin
with transition fraction 1/2.  The pixel (5, 0) satisfies
`|x - xc| = ach * ex` and `|y - yc| <= ach * ey` and is classified Transition
(zone 1), not Inside (zone 2). -/
theorem calcTransitionrect_boundary_is_transition :
    |(5 : ℚ) - (spotParams 1 50 50).xc| = (1 / 2) * quadEx (spotParams 1 50 50) 5
    ∧ |(0 : ℚ) - (spotParams 1 50 50).yc| ≤ (1 / 2) * quadEy (spotParams 1 50 50) 5 0
    ∧ (calcTransitionrect libmQ 5 0 (1 / 2) (spotParams 1 50 50) 1).1 = 1
    ∧ (calcTransitionrect libmQ 5 0 (1 / 2) (spotParams 1 50 50) 1).1 ≠ 2 := by
  refine ⟨by norm_num [quadEx, spotParams], by norm_num [quadEy, spotParams], ?_, ?_⟩ <;>
    norm_num [calcTransitionrect, spotParams]

/-! ### Row test, quadrants, degenerate spots -/

theorem calcTransition_zone_row (m : Libm) (lox loy ach : ℚ) (lp : local_params) (lf : ℚ)
    (hly : 0 ≤ lp.ly) (hlyT : 0 ≤ lp.lyT)
    (hrow : loy > lp.yc + lp.ly ∨ loy < lp.yc - lp.lyT) :
    calcTransition m lox loy ach lp lf = (0, lf) := by
  have n1 : ¬ (lox ≥ lp.xc ∧ lox < lp.xc + lp.lx ∧ loy ≥ lp.yc ∧ loy < lp.yc + lp.ly) := by
    rintro ⟨_, _, h3, h4⟩
    rcases hrow with h | h <;> linarith
  have n2 : ¬ (lox ≥ lp.xc ∧ lox < lp.xc + lp.lx ∧ loy < lp.yc ∧ loy > lp.yc - lp.lyT) := by
    rintro ⟨_, _, h3, h4⟩
    rcases hrow with h | h <;> linarith
  have n3 : ¬ (lox < lp.xc ∧ lox > lp.xc - lp.lxL ∧ loy ≤ lp.yc ∧ loy > lp.yc - lp.lyT) := by
    rintro ⟨_, _, h3, h4⟩
    rcases hrow with h | h <;> linarith
  have n4 : ¬ (lox < lp.xc ∧ lox > lp.xc - lp.lxL ∧ loy > lp.yc ∧ loy < lp.yc + lp.ly) := by
    rintro ⟨_, _, h3, h4⟩
    rcases hrow with h | h <;> linarith
  unfold calcTransition
  rw [if_neg n1, if_neg n2, if_neg n3, if_neg n4]

theorem calcTransitionrect_zone_row (m : Libm) (lox loy ach : ℚ) (lp : local_params)
    (lf : ℚ) (hly : 0 ≤ lp.ly) (hlyT : 0 ≤ lp.lyT)
    (hrow : loy > lp.yc + lp.ly ∨ loy < lp.yc - lp.lyT) :
    calcTransitionrect m lox loy ach lp lf = (0, lf) := by
  have n1 : ¬ (lox ≥ lp.xc ∧ lox < lp.xc + lp.lx ∧ loy ≥ lp.yc ∧ loy < lp.yc + lp.ly) := by
    rintro ⟨_, _, h3, h4⟩
    rcases hrow with h | h <;> linarith
  have n2 : ¬ (lox ≥ lp.xc ∧ lox < lp.xc + lp.lx ∧ loy < lp.yc ∧ loy > lp.yc - lp.lyT) := by
    rintro ⟨_, _, h3, h4⟩
    rcases hrow with h | h <;> linarith
  have n3 : ¬ (lox < lp.xc ∧ lox > lp.xc - lp.lxL ∧ loy ≤ lp.yc ∧ loy > lp.yc - lp.lyT) := by
    rintro ⟨_, _, h3, h4⟩
    rcases hrow with h | h <;> linarith
  have n4 : ¬ (lox < lp.xc ∧ lox > lp.xc - lp.lxL ∧ loy > lp.yc ∧ loy < lp.yc + lp.ly) := by
    rintro ⟨_, _, h3, h4⟩
    rcases hrow with h | h <;> linarith
  unfold calcTransitionrect
  rw [if_neg n1, if_neg n2, if_neg n3, if_neg n4]

theorem pixelZone_row (m : Libm) (lp : local_params) (ach : ℚ) (lox loy : ℤ)
    (hly : 0 ≤ lp.ly) (hlyT : 0 ≤ lp.lyT) (hrow : isZone0 lp loy = true) :
    (pixelZone m lp ach lox loy).1 = 0 := by
  have hr : (loy : ℚ) > lp.yc + lp.ly ∨ (loy : ℚ) < lp.yc - lp.lyT := by
    simpa [isZone0] using hrow
  unfold pixelZone
  split_ifs
  · rw [calcTransition_zone_row m _ _ ach lp 1 hly hlyT hr]
  · rw [calcTransitionrect_zone_row m _ _ ach lp 1 hly hlyT hr]
  · rfl

/-- C14: row short-circuit soundness.  For a spot with non-negative
half-extents, on a row that satisfies the test `loy > yc + ly` or
`loy < yc - lyT`, `calcTransition` and `calcTransitionrect` return zone 0 for
every column `lox`; hence the pixel loop of `transit_shapedetect` with the row
test makes, for every pixel, exactly the stores of the loop that classifies
each pixel without the row test. -/
theorem row_shortcircuit_sound (m : Libm) (lp : local_params)
    (hnn : 0 ≤ lp.lx ∧ 0 ≤ lp.ly ∧ 0 ≤ lp.lxL ∧ 0 ≤ lp.lyT) :
    (∀ (loy : ℤ) (lox ach lf : ℚ),
        ((loy : ℚ) > lp.yc + lp.ly ∨ (loy : ℚ) < lp.yc - lp.lyT) →
        (calcTransition m lox loy ach lp lf).1 = 0
          ∧ (calcTransitionrect m lox loy ach lp lf).1 = 0)
    ∧ (∀ (senstype : ℤ) (bufexporig originalmask : LabImage)
        (buflight bufchro buf_a_cat buf_b_cat bufhh : ℤ → ℤ → ℚ) (HHutili : Bool)
        (hueref chromaref lumaref sobelref meansobel : ℚ) (blend2 : ℤ → ℤ → ℚ)
        (original transformed : LabImage) (cx cy sk : ℤ) (y x : ℤ),
        pixelStores m senstype bufexporig originalmask buflight bufchro buf_a_cat buf_b_cat
          bufhh HHutili hueref chromaref lumaref sobelref meansobel blend2 lp original
          transformed cx cy sk y x
        = pixelStoresNoRowTest m senstype bufexporig originalmask buflight bufchro
          buf_a_cat buf_b_cat bufhh HHutili hueref chromaref lumaref sobelref meansobel
          blend2 lp original transformed cx cy sk y x) := by
  obtain ⟨_, hly, _, hlyT⟩ := hnn
  constructor
  · intro loy lox ach lf hrow
    rw [calcTransition_zone_row m lox loy ach lp lf hly hlyT hrow,
      calcTransitionrect_zone_row m lox loy ach lp lf hly hlyT hrow]
    exact ⟨rfl, rfl⟩
  · intro senstype bufexporig originalmask buflight bufchro buf_a_cat buf_b_cat bufhh
      HHutili hueref chromaref lumaref sobelref meansobel blend2 original transformed
      cx cy sk y x
    unfold pixelStores pixelStoresNoRowTest
    by_cases hrow : isZone0 lp (cy + y) = true
    · have hz := pixelZone_row m lp
        (prelude m lp hueref chromaref sobelref meansobel).ach (cx + x) (cy + y) hly hlyT hrow
      simp only [hrow, if_true, hz]
    · simp only [hrow]
      rfl

/-- C14, witness: the spot of half-extents 10 centred at the origin and the
row 11, below the bottom extent. -/
theorem row_shortcircuit_sound_witness :
    (calcTransition libmQ 3 ((11 : ℤ) : ℚ) (1 / 2) (spotParams 0 50 50) 1).1 = 0
      ∧ (calcTransitionrect libmQ 3 ((11 : ℤ) : ℚ) (1 / 2) (spotParams 0 50 50) 1).1 = 0 :=
  (row_shortcircuit_sound libmQ (spotParams 0 50 50)
    (by norm_num [spotParams])).1 11 3 (1 / 2) 1 (Or.inl (by norm_num [spotParams]))

/-- C13 (amended): quadrant selection of `calcTransitionrect`.  The result
(zone and weight) for a pixel strictly left of the centre does not depend on
the right extent `lx`, and for a pixel at or right of the centre it does not
depend on the left extent `lxL`.  For a pixel strictly above the centre it
does not depend on the bottom extent `ly`, and for a pixel strictly below it
does not depend on the top extent `lyT`; on the centre row the vertical extent
used is the bottom one at or right of the centre and the top one left of it.
With left 100, right 50 and transition fraction 1/2, the pixel at
`x = centre - 60` of the centre row is not Outside, the pixel at
`x = centre + 60` is Outside, and the pixel at `x = centre + 30` is in the
transition zone of the right extent 50 while `x = centre - 30` is Inside. -/
theorem calcTransitionrect_quadrant (m : Libm) (lox loy ach : ℚ) (lp : local_params)
    (lf r : ℚ) :
    (lox < lp.xc →
      calcTransitionrect m lox loy ach { lp with lx := r } lf
        = calcTransitionrect m lox loy ach lp lf)
    ∧ (lox ≥ lp.xc →
      calcTransitionrect m lox loy ach { lp with lxL := r } lf
        = calcTransitionrect m lox loy ach lp lf)
    ∧ (loy < lp.yc →
      calcTransitionrect m lox loy ach { lp with ly := r } lf
        = calcTransitionrect m lox loy ach lp lf)
    ∧ (loy > lp.yc →
      calcTransitionrect m lox loy ach { lp with lyT := r } lf
        = calcTransitionrect m lox loy ach lp lf)
    ∧ (loy = lp.yc → lox ≥ lp.xc →
      calcTransitionrect m lox loy ach { lp with lyT := r } lf
        = calcTransitionrect m lox loy ach lp lf)
    ∧ (loy = lp.yc → lox < lp.xc →
      calcTransitionrect m lox loy ach { lp with ly := r } lf
        = calcTransitionrect m lox loy ach lp lf)
    ∧ ((calcTransitionrect m (-60) 0 (1 / 2) (asymParams 1 50 80) lf).1 ≠ 0
      ∧ (calcTransitionrect m 60 0 (1 / 2) (asymParams 1 50 80) lf).1 = 0
      ∧ (calcTransitionrect m 30 0 (1 / 2) (asymParams 1 50 80) lf).1 = 1
      ∧ (calcTransitionrect m (-30) 0 (1 / 2) (asymParams 1 50 80) lf).1 = 2) := by
  refine ⟨?_, ?_, ?_, ?_, ?_, ?_, ?_⟩
  · intro h
    have n : ¬ lox ≥ lp.xc := not_le.mpr h
    unfold calcTransitionrect
    simp only [n, false_and, if_false]
  · intro h
    have n : ¬ lox < lp.xc := not_lt.mpr h
    unfold calcTransitionrect
    simp only [n, false_and, if_false]
  · intro h
    have n1 : ¬ loy ≥ lp.yc := not_le.mpr h
    have n2 : ¬ loy > lp.yc := not_lt.mpr h.le
    unfold calcTransitionrect
    simp only [n1, n2, false_and, and_false, if_false]
  · intro h
    have n1 : ¬ loy < lp.yc := not_lt.mpr h.le
    have n2 : ¬ loy ≤ lp.yc := not_le.mpr h
    unfold calcTransitionrect
    simp only [n1, n2, false_and, and_false, if_false]
  · intro h hx
    have n1 : ¬ loy < lp.yc := not_lt.mpr h.ge
    have n2 : ¬ lox < lp.xc := not_lt.mpr hx
    unfold calcTransitionrect
    simp only [n1, n2, false_and, and_false, if_false]
  · intro h hx
    have n1 : ¬ loy > lp.yc := not_lt.mpr h.le
    have n2 : ¬ lox ≥ lp.xc := not_le.mpr hx
    unfold calcTransitionrect
    simp only [n1, n2, false_and, and_false, if_false]
  · refine ⟨?_, ?_, ?_, ?_⟩ <;>
      norm_num [calcTransitionrect, asymParams, spotParams]

/-- C13, counterexample: rectangle with left 100, right 50, bottom 80.  The
pixel at `x = centre - 60` of the centre row (`y = yc`, at or below the
centre) is Inside or Transition with the top extent 80 and Outside with the
top extent 0: its result depends on the top extent. -/
theorem calcTransitionrect_centre_row_uses_top :
    (0 : ℚ) ≥ (asymParams 1 50 80).yc
    ∧ (calcTransitionrect libmQ (-60) 0 (1 / 2) (asymParams 1 50 80) 1).1 = 1
    ∧ (calcTransitionrect libmQ (-60) 0 (1 / 2) (asymParams 1 50 0) 1).1 = 0
    ∧ calcTransitionrect libmQ (-60) 0 (1 / 2) (asymParams 1 50 80) 1
      ≠ calcTransitionrect libmQ (-60) 0 (1 / 2) (asymParams 1 50 0) 1 := by
  have h1 : (calcTransitionrect libmQ (-60) 0 (1 / 2) (asymParams 1 50 80) 1).1 = 1 := by
    norm_num [calcTransitionrect, asymParams, spotParams]
  have h2 : (calcTransitionrect libmQ (-60) 0 (1 / 2) (asymParams 1 50 0) 1).1 = 0 := by
    norm_num [calcTransitionrect, asymParams, spotParams]
  refine ⟨by norm_num [asymParams, spotParams], h1, h2, ?_⟩
  intro h
  rw [h] at h1
  rw [h1] at h2
  exact absurd h2 (by decide)

/-- C13, witness: the rectangle with left 100, right 50 and the pixel at
`x = centre - 60`; changing the right extent to 7 does not change the
result. -/
theorem calcTransitionrect_quadrant_witness :
    calcTransitionrect libmQ (-60) 0 (1 / 2) { asymParams 1 50 80 with lx := 7 } 1
      = calcTransitionrect libmQ (-60) 0 (1 / 2) (asymParams 1 50 80) 1 :=
  (calcTransitionrect_quadrant libmQ (-60) 0 (1 / 2) (asymParams 1 50 80) 1 7).1
    (by norm_num [asymParams, spotParams])
theorem zero_area_no_branch (lox loy : ℚ) (lp : local_params)
    (hz : (lp.lx = 0 ∧ lp.lxL = 0) ∨ (lp.ly = 0 ∧ lp.lyT = 0)) :
    ¬ (lox ≥ lp.xc ∧ lox < lp.xc + lp.lx ∧ loy ≥ lp.yc ∧ loy < lp.yc + lp.ly)
    ∧ ¬ (lox ≥ lp.xc ∧ lox < lp.xc + lp.lx ∧ loy < lp.yc ∧ loy > lp.yc - lp.lyT)
    ∧ ¬ (lox < lp.xc ∧ lox > lp.xc - lp.lxL ∧ loy ≤ lp.yc ∧ loy > lp.yc - lp.lyT)
    ∧ ¬ (lox < lp.xc ∧ lox > lp.xc - lp.lxL ∧ loy > lp.yc ∧ loy < lp.yc + lp.ly) := by
  rcases hz with ⟨h1, h2⟩ | ⟨h1, h2⟩
  · refine ⟨?_, ?_, ?_, ?_⟩ <;>
      (rintro ⟨a, b, c, d⟩; rw [h1] at *; rw [h2] at *; linarith)
  · refine ⟨?_, ?_, ?_, ?_⟩ <;>
      (rintro ⟨a, b, c, d⟩; rw [h1] at *; rw [h2] at *; linarith)

theorem calcTransition_nonzero_box (m : Libm) (lox loy ach : ℚ) (lp : local_params)
    (lf : ℚ) (h : (calcTransition m lox loy ach lp lf).1 ≠ 0) :
    (lox ≥ lp.xc ∧ lox < lp.xc + lp.lx ∧ loy ≥ lp.yc ∧ loy < lp.yc + lp.ly)
    ∨ (lox ≥ lp.xc ∧ lox < lp.xc + lp.lx ∧ loy < lp.yc ∧ loy > lp.yc - lp.lyT)
    ∨ (lox < lp.xc ∧ lox > lp.xc - lp.lxL ∧ loy ≤ lp.yc ∧ loy > lp.yc - lp.lyT)
    ∨ (lox < lp.xc ∧ lox > lp.xc - lp.lxL ∧ loy > lp.yc ∧ loy < lp.yc + lp.ly) := by
  by_contra hc
  simp only [not_or] at hc
  obtain ⟨n1, n2, n3, n4⟩ := hc
  apply h
  unfold calcTransition
  rw [if_neg n1, if_neg n2, if_neg n3, if_neg n4]

theorem calcTransitionrect_nonzero_box (m : Libm) (lox loy ach : ℚ) (lp : local_params)
    (lf : ℚ) (h : (calcTransitionrect m lox loy ach lp lf).1 ≠ 0) :
    (lox ≥ lp.xc ∧ lox < lp.xc + lp.lx ∧ loy ≥ lp.yc ∧ loy < lp.yc + lp.ly)
    ∨ (lox ≥ lp.xc ∧ lox < lp.xc + lp.lx ∧ loy < lp.yc ∧ loy > lp.yc - lp.lyT)
    ∨ (lox < lp.xc ∧ lox > lp.xc - lp.lxL ∧ loy ≤ lp.yc ∧ loy > lp.yc - lp.lyT)
    ∨ (lox < lp.xc ∧ lox > lp.xc - lp.lxL ∧ loy > lp.yc ∧ loy < lp.yc + lp.ly) := by
  by_contra hc
  simp only [not_or] at hc
  obtain ⟨n1, n2, n3, n4⟩ := hc
  apply h
  unfold calcTransitionrect
  rw [if_neg n1, if_neg n2, if_neg n3, if_neg n4]

theorem calcTransitionQuadrantDivs_ne_zero (lox loy ach xc yc ex ey : ℚ)
    (hex : 0 < ex) (hey : 0 < ey) (hach : 0 < ach ∧ ach < 1) :
    ∀ d ∈ calcTransitionQuadrantDivs lox loy ach xc yc ex ey, d ≠ 0 := by
  have h1 : ach * ex ≠ 0 := (mul_pos hach.1 hex).ne'
  have h2 : ach * ey ≠ 0 := (mul_pos hach.1 hey).ne'
  have h3 : ex / ey ≠ 0 := (div_pos hex hey).ne'
  have h4 : 1 - ach ≠ 0 := by linarith [hach.2]
  unfold calcTransitionQuadrantDivs calcLocalFactorDivs
  simp only []
  split_ifs <;> simp [h1, h2, h3, h4, hex.ne', hey.ne', hach.1.ne']

/-- C15 (amended): degenerate geometry.  For a zero-area spot (both horizontal
half-extents 0, or both vertical half-extents 0) `calcTransition` and
`calcTransitionrect` classify every pixel Outside (zone 0) and evaluate no
division.  For a spot whose half-extents all lie in `[0, 1)`, a pixel that is
not Outside lies within one pixel of the centre (`|x - xc| < 1` and
`|y - yc| < 1`), for either shape.  For non-negative half-extents and a
transition fraction in (0, 1), no division evaluated by `calcTransition` has a
zero divisor. -/
theorem degenerate_geometry (m : Libm) (lox loy ach : ℚ) (lp : local_params) (lf : ℚ) :
    (((lp.lx = 0 ∧ lp.lxL = 0) ∨ (lp.ly = 0 ∧ lp.lyT = 0)) →
      (calcTransition m lox loy ach lp lf).1 = 0
      ∧ (calcTransitionrect m lox loy ach lp lf).1 = 0
      ∧ calcTransitionDivs lox loy ach lp = []
      ∧ calcTransitionrectDivs m lox loy ach lp = [])
    ∧ ((0 ≤ lp.lx ∧ lp.lx < 1) ∧ (0 ≤ lp.ly ∧ lp.ly < 1) ∧ (0 ≤ lp.lxL ∧ lp.lxL < 1)
        ∧ (0 ≤ lp.lyT ∧ lp.lyT < 1) →
      ((calcTransition m lox loy ach lp lf).1 ≠ 0 →
        |lox - lp.xc| < 1 ∧ |loy - lp.yc| < 1)
      ∧ ((calcTransitionrect m lox loy ach lp lf).1 ≠ 0 →
        |lox - lp.xc| < 1 ∧ |loy - lp.yc| < 1))
    ∧ (0 < ach ∧ ach < 1 → ∀ d ∈ calcTransitionDivs lox loy ach lp, d ≠ 0) := by
  refine ⟨?_, ?_, ?_⟩
  · intro hz
    obtain ⟨n1, n2, n3, n4⟩ := zero_area_no_branch lox loy lp hz
    refine ⟨?_, ?_, ?_, ?_⟩
    · unfold calcTransition
      rw [if_neg n1, if_neg n2, if_neg n3, if_neg n4]
    · unfold calcTransitionrect
      rw [if_neg n1, if_neg n2, if_neg n3, if_neg n4]
    · unfold calcTransitionDivs
      rw [if_neg n1, if_neg n2, if_neg n3, if_neg n4]
    · unfold calcTransitionrectDivs
      rw [if_neg n1, if_neg n2, if_neg n3, if_neg n4]
  · rintro ⟨⟨_, a1⟩, ⟨_, a2⟩, ⟨_, a3⟩, ⟨_, a4⟩⟩
    have box : ((lox ≥ lp.xc ∧ lox < lp.xc + lp.lx ∧ loy ≥ lp.yc ∧ loy < lp.yc + lp.ly)
        ∨ (lox ≥ lp.xc ∧ lox < lp.xc + lp.lx ∧ loy < lp.yc ∧ loy > lp.yc - lp.lyT)
        ∨ (lox < lp.xc ∧ lox > lp.xc - lp.lxL ∧ loy ≤ lp.yc ∧ loy > lp.yc - lp.lyT)
        ∨ (lox < lp.xc ∧ lox > lp.xc - lp.lxL ∧ loy > lp.yc ∧ loy < lp.yc + lp.ly)) →
        |lox - lp.xc| < 1 ∧ |loy - lp.yc| < 1 := by
      intro hb
      rw [abs_lt, abs_lt]
      rcases hb with ⟨b1, b2, b3, b4⟩ | ⟨b1, b2, b3, b4⟩ | ⟨b1, b2, b3, b4⟩ | ⟨b1, b2, b3, b4⟩ <;>
        (refine ⟨⟨?_, ?_⟩, ⟨?_, ?_⟩⟩ <;> linarith)
    exact ⟨fun h => box (calcTransition_nonzero_box m lox loy ach lp lf h),
      fun h => box (calcTransitionrect_nonzero_box m lox loy ach lp lf h)⟩
  · intro hach
    unfold calcTransitionDivs
    split_ifs with c1 c2 c3 c4
    · exact calcTransitionQuadrantDivs_ne_zero _ _ _ _ _ _ _ (by linarith [c1.1, c1.2.1])
        (by linarith [c1.2.2.1, c1.2.2.2]) hach
    · exact calcTransitionQuadrantDivs_ne_zero _ _ _ _ _ _ _ (by linarith [c2.1, c2.2.1])
        (by linarith [c2.2.2.1, c2.2.2.2]) hach
    · exact calcTransitionQuadrantDivs_ne_zero _ _ _ _ _ _ _ (by linarith [c3.1, c3.2.1])
        (by linarith [c3.2.2.1, c3.2.2.2]) hach
    · exact calcTransitionQuadrantDivs_ne_zero _ _ _ _ _ _ _ (by linarith [c4.1, c4.2.1])
        (by linarith [c4.2.2.1, c4.2.2.2]) hach
    · simp

/-- C15, witness: the zero-area spot at the origin and the pixel (0, 0). -/
theorem degenerate_geometry_witness :
    (calcTransition libmQ 0 0 (1 / 2) (tinyParams 0 50 0) 1).1 = 0
    ∧ (calcTransitionrect libmQ 0 0 (1 / 2) (tinyParams 0 50 0) 1).1 = 0
    ∧ calcTransitionDivs 0 0 (1 / 2) (tinyParams 0 50 0) = []
    ∧ calcTransitionrectDivs libmQ 0 0 (1 / 2) (tinyParams 0 50 0) = [] :=
  (degenerate_geometry libmQ 0 0 (1 / 2) (tinyParams 0 50 0) 1).1
    (Or.inl (by norm_num [tinyParams]))

/-- C15, counterexample: a spot centred at the origin whose four half-extents
are 1/2, below one pixel, with transition fraction 1/2.  The integer pixel
(0, 0) is classified Inside (zone 2) by both classifiers, not Outside. -/
theorem tiny_spot_centre_pixel_inside :
    (0 ≤ (tinyParams 0 50 (1 / 2)).lx ∧ (tinyParams 0 50 (1 / 2)).lx < 1)
    ∧ (0 ≤ (tinyParams 0 50 (1 / 2)).ly ∧ (tinyParams 0 50 (1 / 2)).ly < 1)
    ∧ (0 ≤ (tinyParams 0 50 (1 / 2)).lxL ∧ (tinyParams 0 50 (1 / 2)).lxL < 1)
    ∧ (0 ≤ (tinyParams 0 50 (1 / 2)).lyT ∧ (tinyParams 0 50 (1 / 2)).lyT < 1)
    ∧ (calcTransition libmQ ((0 : ℤ) : ℚ) ((0 : ℤ) : ℚ) (1 / 2) (tinyParams 0 50 (1 / 2)) 1).1 = 2
    ∧ (calcTransitionrect libmQ ((0 : ℤ) : ℚ) ((0 : ℤ) : ℚ) (1 / 2)
        (tinyParams 1 50 (1 / 2)) 1).1 = 2 := by
  refine ⟨?_, ?_, ?_, ?_, ?_, ?_⟩ <;>
    norm_num [tinyParams, spotParams, calcTransition, calcTransitionQuadrant,
      calcTransitionrect, SQR]
/-! ### Parameter resolution, masks, previews -/

/-- C17: parameter resolution clamps stale values.  After `calcLocalParams`,
`lp.thr` lies in `[0, 8]` and `lp.iterat` lies in `[0.2, 4]` for every stored
spot configuration; a stored threshold outside `[0, 8]` or a stored exponent
outside `[0.2, 4]` is replaced by 2, and an in-range value is passed through
unchanged. -/
theorem calcLocalParams_thr_iterat (spot : LocallabSpot) (lp : local_params) :
    (0 ≤ (calcLocalParams spot lp).thr ∧ (calcLocalParams spot lp).thr ≤ 8)
    ∧ (1 / 5 ≤ (calcLocalParams spot lp).iterat ∧ (calcLocalParams spot lp).iterat ≤ 4)
    ∧ ((spot.thresh > 8 ∨ spot.thresh < 0) → (calcLocalParams spot lp).thr = 2)
    ∧ ((spot.iter > 4 ∨ spot.iter < 1 / 5) → (calcLocalParams spot lp).iterat = 2)
    ∧ ((0 ≤ spot.thresh ∧ spot.thresh ≤ 8) → (calcLocalParams spot lp).thr = spot.thresh)
    ∧ ((1 / 5 ≤ spot.iter ∧ spot.iter ≤ 4) → (calcLocalParams spot lp).iterat = spot.iter) := by
  have hthr : (calcLocalParams spot lp).thr
      = if spot.thresh > 8 ∨ spot.thresh < 0 then 2 else spot.thresh := rfl
  have hit : (calcLocalParams spot lp).iterat
      = if spot.iter > 4 ∨ spot.iter < 1 / 5 then 2 else spot.iter := rfl
  rw [hthr, hit]
  refine ⟨?_, ?_, ?_, ?_, ?_, ?_⟩
  · split_ifs with h
    · norm_num
    · rw [not_or, not_lt, not_lt] at h
      exact ⟨h.2, h.1⟩
  · split_ifs with h
    · norm_num
    · rw [not_or, not_lt, not_lt] at h
      exact ⟨h.2, h.1⟩
  · intro h
    rw [if_pos h]
  · intro h
    rw [if_pos h]
  · intro h
    rw [if_neg]
    rw [not_or, not_lt, not_lt]
    exact ⟨h.2, h.1⟩
  · intro h
    rw [if_neg]
    rw [not_or, not_lt, not_lt]
    exact ⟨h.2, h.1⟩

/-- C17, witness: a stored threshold 12 and a stored exponent 1/10, both out
of range, are replaced by 2. -/
theorem calcLocalParams_thr_iterat_witness :
    (calcLocalParams { thresh := 12, iter := 1 / 10 } (spotParams 0 50 50)).thr = 2
    ∧ (calcLocalParams { thresh := 12, iter := 1 / 10 } (spotParams 0 50 50)).iterat = 2 :=
  ⟨(calcLocalParams_thr_iterat { thresh := 12, iter := 1 / 10 } (spotParams 0 50 50)).2.2.1
      (Or.inl (by norm_num)),
   (calcLocalParams_thr_iterat { thresh := 12, iter := 1 / 10 } (spotParams 0 50 50)).2.2.2.1
      (Or.inr (by norm_num))⟩

theorem LIM01_range (x : ℚ) : 0 ≤ LIM01 x ∧ LIM01 x ≤ 1 := by
  unfold LIM01 LIM
  exact ⟨le_max_left _ _, max_le (by norm_num) (min_le_left _ _)⟩

theorem CLIPLOC_range (x : ℚ) : 0 ≤ CLIPLOC x ∧ CLIPLOC x ≤ 32767 := by
  unfold CLIPLOC LIM
  exact ⟨le_max_left _ _, max_le (by norm_num) (min_le_left _ _)⟩

theorem CLIPC_id (x : ℚ) (h : -42000 < x ∧ x < 42000) : CLIPC x = x := by
  unfold CLIPC
  rw [if_pos h.1, if_pos h.2]
/-- C18 (amended): neutral luminance mask curve.  When the luminance mask
curve is enabled and evaluates to 0 (fully include) at the pixel's index, and
the hue mask curve is disabled, the raw luminance mask that the colour mask
evaluator stores is `CLIPLOC (32768) = 32767`, so the raw normalised mask
`ble` (mask L value / 32768, before spatial refinement) equals `32767 / 32768`
at every pixel of the spot box, just below 1. -/
theorem colorMaskPixel_neutral (m : Libm) (huelab_to_huehsv2 : ℚ → ℚ)
    (locllmasCurve locccmasCurve lochhmasCurve : MaskCurve)
    (llmasutili lcmasutili lhmasutili : Bool) (fab bL ba bb : ℚ)
    (hll : locllmasCurve.valid = true ∧ llmasutili = true)
    (hhh : ¬ (lochhmasCurve.valid = true ∧ lhmasutili = true))
    (h0 : locllmasCurve.val (500 * (bL / 32768)) = 0) :
    (colorMaskPixel m huelab_to_huehsv2 locllmasCurve locccmasCurve lochhmasCurve
        llmasutili lcmasutili lhmasutili fab bL ba bb).L = 32767
    ∧ (colorMaskPixel m huelab_to_huehsv2 locllmasCurve locccmasCurve lochhmasCurve
        llmasutili lcmasutili lhmasutili fab bL ba bb).ble = 32767 / 32768 := by
  have hL : (colorMaskPixel m huelab_to_huehsv2 locllmasCurve locccmasCurve lochhmasCurve
      llmasutili lcmasutili lhmasutili fab bL ba bb).L = 32767 := by
    unfold colorMaskPixel
    simp only [if_pos hll, if_neg hhh, h0]
    norm_num [LIM01, LIM, CLIPLOC]
  refine ⟨hL, ?_⟩
  have hble : (colorMaskPixel m huelab_to_huehsv2 locllmasCurve locccmasCurve lochhmasCurve
      llmasutili lcmasutili lhmasutili fab bL ba bb).ble
      = (colorMaskPixel m huelab_to_huehsv2 locllmasCurve locccmasCurve lochhmasCurve
      llmasutili lcmasutili lhmasutili fab bL ba bb).L / 32768 := rfl
  rw [hble, hL]

/-- C18, witness: the luminance curve is the constant 0, the chroma and hue
curves are disabled, the pixel has luma 20000. -/
theorem colorMaskPixel_neutral_witness :
    (colorMaskPixel libmQ (fun h => h) (constCurve 0) (constCurve 0) (constCurve 0)
        true false false 1 20000 0 0).L = 32767
    ∧ (colorMaskPixel libmQ (fun h => h) (constCurve 0) (constCurve 0) (constCurve 0)
        true false false 1 20000 0 0).ble = 32767 / 32768 :=
  colorMaskPixel_neutral libmQ (fun h => h) (constCurve 0) (constCurve 0) (constCurve 0)
    true false false 1 20000 0 0 ⟨rfl, rfl⟩ (by simp) rfl

/-- C18, counterexample: with the luminance curve constantly 0 and the other
curves disabled, the raw normalised luminance mask of a pixel of luma 20000 is
`32767 / 32768`, not 1. -/
theorem colorMaskPixel_neutral_not_one :
    (colorMaskPixel libmQ (fun h => h) (constCurve 0) (constCurve 0) (constCurve 0)
        true false false 1 20000 0 0).ble = 32767 / 32768
    ∧ (colorMaskPixel libmQ (fun h => h) (constCurve 0) (constCurve 0) (constCurve 0)
        true false false 1 20000 0 0).ble ≠ 1 := by
  have h : (colorMaskPixel libmQ (fun h => h) (constCurve 0) (constCurve 0) (constCurve 0)
      true false false 1 20000 0 0).ble = 32767 / 32768 := by
    norm_num [colorMaskPixel, constCurve, LIM01, LIM, CLIPLOC]
  refine ⟨h, ?_⟩
  rw [h]
  norm_num

theorem maskL_range (k h : ℚ) :
    0 ≤ CLIPLOC (k + h) / 32768 ∧ CLIPLOC (k + h) / 32768 ≤ 1 := by
  have hr := CLIPLOC_range (k + h)
  constructor
  · exact div_nonneg hr.1 (by norm_num)
  · rw [div_le_one (by norm_num)]
    linarith [hr.2]

theorem ite_LIM01_range (c : Prop) [Decidable c] (x : ℚ) :
    0 ≤ (if c then LIM01 x else 0) ∧ (if c then LIM01 x else 0) ≤ 1 := by
  split_ifs
  · exact LIM01_range x
  · norm_num

/-- C19 (amended): raw user-mask range.  For every combination of enabled mask
curves and every curve value, in the colour and in the exposure mask
evaluator, the L sub-channel divided by 32768 is in `[0, 1]`, and the a and b
sub-channels, the sum of the chroma-indexed and hue-indexed inverted curve
values, are in `[0, 2]`; they are in `[0, 1]` when the chroma-indexed and the
hue-indexed curve are not both enabled. -/
theorem maskPixel_range (m : Libm) (huelab_to_huehsv2 : ℚ → ℚ)
    (cll ccc chh : MaskCurve) (ull ucc uhh : Bool) (fab bL ba bb : ℚ) :
    let c := colorMaskPixel m huelab_to_huehsv2 cll ccc chh ull ucc uhh fab bL ba bb
    let e := expMaskPixel m huelab_to_huehsv2 cll ccc chh ull ucc uhh fab bL ba bb
    (0 ≤ c.L / 32768 ∧ c.L / 32768 ≤ 1) ∧ (0 ≤ e.L / 32768 ∧ e.L / 32768 ≤ 1)
    ∧ (0 ≤ c.a ∧ c.a ≤ 2) ∧ (0 ≤ c.b ∧ c.b ≤ 2)
    ∧ (0 ≤ e.a ∧ e.a ≤ 2) ∧ (0 ≤ e.b ∧ e.b ≤ 2)
    ∧ (¬ ((ccc.valid = true ∧ ucc = true) ∧ (chh.valid = true ∧ uhh = true)) →
        c.a ≤ 1 ∧ c.b ≤ 1 ∧ e.a ≤ 1 ∧ e.b ≤ 1) := by
  intro c e
  -- the two inverted curve values
  obtain ⟨vc, hvc, hvc0, hvc1, hvcd⟩ : ∃ vc : ℚ, vc = (if ccc.valid = true ∧ ucc = true then
      LIM01 (1 - ccc.val (500 * (1 / 10000 + m.sqrt (SQR (ba / fab) + SQR (bb / fab)))))
      else 0) ∧ 0 ≤ vc ∧ vc ≤ 1 ∧ (¬ (ccc.valid = true ∧ ucc = true) → vc = 0) := by
    refine ⟨_, rfl, (ite_LIM01_range _ _).1, (ite_LIM01_range _ _).2, fun h => if_neg h⟩
  obtain ⟨vh, hvh, hvh0, hvh1, hvhd⟩ : ∃ vh : ℚ, vh = (if chh.valid = true ∧ uhh = true then
      LIM01 (1 - chh.val (500 * (if huelab_to_huehsv2 (m.atan2 bb ba) + 1 / 6 > 1
        then huelab_to_huehsv2 (m.atan2 bb ba) + 1 / 6 - 1
        else huelab_to_huehsv2 (m.atan2 bb ba) + 1 / 6)))
      else 0) ∧ 0 ≤ vh ∧ vh ≤ 1 ∧ (¬ (chh.valid = true ∧ uhh = true) → vh = 0) := by
    refine ⟨_, rfl, (ite_LIM01_range _ _).1, (ite_LIM01_range _ _).2, fun h => if_neg h⟩
  have hca : c.a = CLIPC (vc + vh) := by rw [hvc, hvh]; rfl
  have hcb : c.b = CLIPC (vc + vh) := by rw [hvc, hvh]; rfl
  have hea : e.a = vc + vh := by rw [hvc, hvh]; rfl
  have heb : e.b = vc + vh := by rw [hvc, hvh]; rfl
  have hclip : CLIPC (vc + vh) = vc + vh :=
    CLIPC_id _ ⟨by linarith, by linarith⟩
  rw [hca, hcb, hea, heb, hclip]
  refine ⟨maskL_range _ _, maskL_range _ _, ⟨by linarith, by linarith⟩,
    ⟨by linarith, by linarith⟩, ⟨by linarith, by linarith⟩, ⟨by linarith, by linarith⟩, ?_⟩
  intro hnot
  have h1 : vc + vh ≤ 1 := by
    by_cases hc : ccc.valid = true ∧ ucc = true
    · have hh : ¬ (chh.valid = true ∧ uhh = true) := fun hh => hnot ⟨hc, hh⟩
      rw [hvhd hh]
      linarith
    · rw [hvcd hc]
      linarith
  exact ⟨h1, h1, h1, h1⟩

/-- C19, witness: the chroma-indexed curve alone is enabled, with value 0. -/
theorem maskPixel_range_witness :
    (colorMaskPixel libmQ (fun h => h) (constCurve 0) (constCurve 0) (constCurve 0)
        false true false 1 20000 0 0).a ≤ 1 :=
  ((maskPixel_range libmQ (fun h => h) (constCurve 0) (constCurve 0) (constCurve 0)
    false true false 1 20000 0 0).2.2.2.2.2.2 (by simp)).1

/-- C19, counterexample: the chroma-indexed and the hue-indexed curve are both
enabled and both evaluate to 0, so each inverted value is 1; the a sub-channel
of the raw colour mask is `CLIPC (1 + 1) = 2`, outside `[0, 1]`. -/
theorem colorMaskPixel_a_is_two :
    (colorMaskPixel libmQ (fun h => h) (constCurve 0) (constCurve 0) (constCurve 0)
        false true true 1 20000 0 0).a = 2
    ∧ (expMaskPixel libmQ (fun h => h) (constCurve 0) (constCurve 0) (constCurve 0)
        false true true 1 20000 0 0).a = 2
    ∧ ¬ ((colorMaskPixel libmQ (fun h => h) (constCurve 0) (constCurve 0) (constCurve 0)
        false true true 1 20000 0 0).a ≤ 1) := by
  have h : (colorMaskPixel libmQ (fun h => h) (constCurve 0) (constCurve 0) (constCurve 0)
      false true true 1 20000 0 0).a = 2 := by
    norm_num [colorMaskPixel, constCurve, LIM01, LIM, CLIPC]
  refine ⟨h, ?_, ?_⟩
  · norm_num [expMaskPixel, constCurve, LIM01, LIM]
  · rw [h]
    norm_num

theorem lastStore_of_forall (c : Chan) (v : ℚ) (ws : List Store)
    (hws : ∀ s ∈ ws, s.chan = c → s.val = v) :
    ∀ prev : ℚ, lastStore c ws prev = prev ∨ lastStore c ws prev = v := by
  induction ws with
  | nil => intro prev; exact Or.inl rfl
  | cons w ws ih =>
    intro prev
    have ih2 := ih (fun s hs => hws s (List.mem_cons_of_mem _ hs))
    show lastStore c ws (if w.chan = c then w.val else prev) = prev
      ∨ lastStore c ws (if w.chan = c then w.val else prev) = v
    by_cases hc : w.chan = c
    · rw [if_pos hc]
      rcases ih2 w.val with h | h
      · right
        rw [h]
        exact hws w (List.mem_cons_self _ _) hc
      · exact Or.inr h
    · rw [if_neg hc]
      exact ih2 prev

theorem structurePreviewStores_chroma (m : Libm) (lp : local_params)
    (begx begy cx cy xEn yEn : ℤ) (blend2 : ℤ → ℤ → ℚ) (y x : ℤ) :
    ∀ s ∈ structurePreviewStores m lp begx begy cx cy xEn yEn blend2 y x,
      s.chan ≠ Chan.L → s.val = 0 := by
  intro s hs
  unfold structurePreviewStores at hs
  simp only [] at hs
  split_ifs at hs
  · simp only [List.mem_cons, List.mem_singleton, List.not_mem_nil, or_false] at hs
    rcases hs with rfl | rfl | rfl <;> simp
  · simp at hs
  · simp at hs

theorem showmaskStores_chroma (m : Libm) (lp : local_params)
    (begx begy cx cy xEn yEn : ℤ) (bufexporig bufmaskorigSH : LabImage) (y x : ℤ) :
    ∀ s ∈ showmaskStores m lp begx begy cx cy xEn yEn bufexporig bufmaskorigSH y x,
      (s.chan = Chan.a →
        s.val = bufexporig.a (cy + y - begy) (cx + x - begx)
          * bufmaskorigSH.a (cy + y - begy) (cx + x - begx))
      ∧ (s.chan = Chan.b →
        s.val = bufexporig.b (cy + y - begy) (cx + x - begx)
          * bufmaskorigSH.b (cy + y - begy) (cx + x - begx)) := by
  intro s hs
  unfold showmaskStores at hs
  simp only [] at hs
  split_ifs at hs
  · simp only [List.mem_cons, List.mem_singleton, List.not_mem_nil, or_false] at hs
    rcases hs with rfl | rfl | rfl <;> simp
  · simp at hs
  · simp at hs

theorem ite_nil_forall (c : Prop) [Decidable c] (ws : List Store) (P : Store → Prop)
    (h : ∀ s ∈ ws, P s) : ∀ s ∈ (if c then ws else []), P s := by
  split_ifs
  · exact h
  · simp

/-- C20 (amended): chroma written by the mask previews.  The structure-mask
preview (show-mask method 4) stores `a = 0` and `b = 0` at every pixel it
writes, whatever the original chroma and the structure mask are: after it,
each chroma value of the output is 0 or, where the pixel is not written, the
value held before.  The function `showmask` (show-mask method 3) stores the
product of the chroma of `bufexporig` and the chroma plane of the mask,
`a = a_buf * a_mask` and `b = b_buf * b_mask`: after it, each chroma value is
that product or the value held before; the product is 0 where the mask plane
is 0. -/
theorem preview_chroma (m : Libm) (lp : local_params) (begx begy cx cy xEn yEn : ℤ)
    (bufexporig bufmaskorigSH transformed : LabImage) (blend2 : ℤ → ℤ → ℚ) (y x : ℤ) :
    (∀ s ∈ structurePreviewStores m lp begx begy cx cy xEn yEn blend2 y x,
      s.chan ≠ Chan.L → s.val = 0)
    ∧ (((structurePreview m lp begx begy cx cy xEn yEn blend2 transformed).a y x
          = transformed.a y x
        ∨ (structurePreview m lp begx begy cx cy xEn yEn blend2 transformed).a y x = 0)
      ∧ ((structurePreview m lp begx begy cx cy xEn yEn blend2 transformed).b y x
          = transformed.b y x
        ∨ (structurePreview m lp begx begy cx cy xEn yEn blend2 transformed).b y x = 0))
    ∧ (((showmask m lp begx begy cx cy xEn yEn bufexporig transformed bufmaskorigSH).a y x
          = transformed.a y x
        ∨ (showmask m lp begx begy cx cy xEn yEn bufexporig transformed bufmaskorigSH).a y x
          = bufexporig.a (cy + y - begy) (cx + x - begx)
            * bufmaskorigSH.a (cy + y - begy) (cx + x - begx))
      ∧ ((showmask m lp begx begy cx cy xEn yEn bufexporig transformed bufmaskorigSH).b y x
          = transformed.b y x
        ∨ (showmask m lp begx begy cx cy xEn yEn bufexporig transformed bufmaskorigSH).b y x
          = bufexporig.b (cy + y - begy) (cx + x - begx)
            * bufmaskorigSH.b (cy + y - begy) (cx + x - begx)))
    ∧ (bufmaskorigSH.a (cy + y - begy) (cx + x - begx) = 0 →
        bufmaskorigSH.b (cy + y - begy) (cx + x - begx) = 0 →
        ∀ s ∈ showmaskStores m lp begx begy cx cy xEn yEn bufexporig bufmaskorigSH y x,
          s.chan ≠ Chan.L → s.val = 0) := by
  have hsp := structurePreviewStores_chroma m lp begx begy cx cy xEn yEn blend2 y x
  have hsm := showmaskStores_chroma m lp begx begy cx cy xEn yEn bufexporig bufmaskorigSH y x
  refine ⟨hsp, ⟨?_, ?_⟩, ⟨?_, ?_⟩, ?_⟩
  · exact lastStore_of_forall Chan.a 0 _
      (ite_nil_forall _ _ _ (fun s hs hc => hsp s hs (by rw [hc]; decide))) _
  · exact lastStore_of_forall Chan.b 0 _
      (ite_nil_forall _ _ _ (fun s hs hc => hsp s hs (by rw [hc]; decide))) _
  · exact lastStore_of_forall Chan.a _ _
      (ite_nil_forall _ _ _ (fun s hs hc => (hsm s hs).1 hc)) _
  · exact lastStore_of_forall Chan.b _ _
      (ite_nil_forall _ _ _ (fun s hs hc => (hsm s hs).2 hc)) _
  · intro ha hb s hs hc
    have h := hsm s hs
    obtain ⟨c, v⟩ := s
    cases c
    · exact absurd rfl hc
    · rw [h.1 rfl, ha, mul_zero]
    · rw [h.2 rfl, hb, mul_zero]

/-- C20, witness: the structure preview at the pixel (2, 0) of the ellipse of
half-extents 10, with the value 777 in the structure buffer and the chroma
(6, 7) in the output before. -/
theorem preview_chroma_witness :
    (structurePreview libmQ (spotParams 0 50 50) (-10) (-10) 2 0 10 10 (constPlane 777)
        (constImage 1 1 5 6 7)).a 0 0 = (constImage 1 1 5 6 7).a 0 0
    ∨ (structurePreview libmQ (spotParams 0 50 50) (-10) (-10) 2 0 10 10 (constPlane 777)
        (constImage 1 1 5 6 7)).a 0 0 = 0 :=
  (preview_chroma libmQ (spotParams 0 50 50) (-10) (-10) 2 0 10 10
    (constImage 1 1 0 3 4) (constImage 1 1 0 1 1) (constImage 1 1 5 6 7) (constPlane 777)
    0 0).2.1.1

/-- C20, counterexample: `showmask` at the pixel (2, 0), inside the ellipse of
half-extents 10, with chroma (3, 4) in `bufexporig` and the value 1/2 in the
two chroma planes of the mask: the a plane of the output holds 3/2 and the b
plane 2, not 0. -/
theorem showmask_chroma_not_zero :
    (showmask libmQ (spotParams 0 50 50) (-10) (-10) 2 0 10 10 (constImage 1 1 0 3 4)
        (constImage 1 1 5 6 7) (constImage 1 1 0 (1 / 2) (1 / 2))).a 0 0 = 3 / 2
    ∧ (showmask libmQ (spotParams 0 50 50) (-10) (-10) 2 0 10 10 (constImage 1 1 0 3 4)
        (constImage 1 1 5 6 7) (constImage 1 1 0 (1 / 2) (1 / 2))).b 0 0 = 2 := by
  constructor <;>
    (norm_num [showmask, showmaskStores, pixelZone, spotParams, calcTransition,
      calcTransitionQuadrant, SQR, constImage, constPlane, lastStore, CLIPLOC, LIM]
     try simp)

/-! ### Reference sampler -/

theorem sum_map_const {α : Type} (l : List α) (f : α → ℚ) (c : ℚ)
    (h : ∀ p ∈ l, f p = c) : (l.map f).sum = (l.length : ℚ) * c := by
  induction l with
  | nil => simp
  | cons p l ih =>
    have hp := h p (List.mem_cons_self _ _)
    have ih2 := ih (fun q hq => h q (List.mem_cons_of_mem _ hq))
    simp only [List.map_cons, List.sum_cons, List.length_cons, hp, ih2]
    push_cast
    ring

theorem mean_map_const {α : Type} (l : List α) (f : α → ℚ) (c : ℚ) (hl : l ≠ [])
    (h : ∀ p ∈ l, f p = c) : mean (l.map f) = c := by
  unfold mean
  rw [sum_map_const l f c h, List.length_map]
  have hn : (l.length : ℚ) ≠ 0 := by
    have : l.length ≠ 0 := fun h0 => hl (List.length_eq_zero.mp h0)
    exact_mod_cast this
  field_simp

/-- C16: reference sampler.  For a non-empty sampling window `W` of the
original buffer, with an arctangent that does not change when its two
arguments are divided by the same positive number, `calc_ref` returns
`hueref = atan2 (mean_W b, mean_W a)`, which is 0 when both means are 0 (as
`atan2 (0, 0) = 0`), `chromaref = (mean over W of sqrt (a^2 + b^2)) / 327.68`
and `lumaref = min ((mean_W L) / 327.68, 95)`.  A uniform patch with
`L = 20000`, `a = 0`, `b = 0` gives hue 0, chroma 0 and luma
`20000 / 327.68`. -/
theorem calc_ref_spec (m : Libm) (lp : local_params) (original transformed : LabImage)
    (cx cy sk : ℤ)
    (hW : calcRefWindow lp transformed cx cy sk ≠ [])
    (hscale : ∀ y x k : ℚ, 0 < k → m.atan2 (y / k) (x / k) = m.atan2 y x) :
    ∃ r : RefColor, calc_ref m true lp original transformed cx cy sk = some r
      ∧ r.hueref = m.atan2
          (mean ((calcRefWindow lp transformed cx cy sk).map
            (fun p => original.b (p.1 - cy) (p.2 - cx))))
          (mean ((calcRefWindow lp transformed cx cy sk).map
            (fun p => original.a (p.1 - cy) (p.2 - cx))))
      ∧ (m.atan2 0 0 = 0 →
          mean ((calcRefWindow lp transformed cx cy sk).map
            (fun p => original.b (p.1 - cy) (p.2 - cx))) = 0 →
          mean ((calcRefWindow lp transformed cx cy sk).map
            (fun p => original.a (p.1 - cy) (p.2 - cx))) = 0 → r.hueref = 0)
      ∧ r.chromaref = mean ((calcRefWindow lp transformed cx cy sk).map
          (fun p => m.sqrt (SQR (original.a (p.1 - cy) (p.2 - cx))
            + SQR (original.b (p.1 - cy) (p.2 - cx))))) / (8192 / 25)
      ∧ r.lumaref = min (mean ((calcRefWindow lp transformed cx cy sk).map
          (fun p => original.L (p.1 - cy) (p.2 - cx))) / (8192 / 25)) 95
      ∧ (m.atan2 0 0 = 0 → m.sqrt 0 = 0 →
          (∀ p ∈ calcRefWindow lp transformed cx cy sk,
            original.L (p.1 - cy) (p.2 - cx) = 20000
              ∧ original.a (p.1 - cy) (p.2 - cx) = 0
              ∧ original.b (p.1 - cy) (p.2 - cx) = 0) →
          r.hueref = 0 ∧ r.chromaref = 0 ∧ r.lumaref = 20000 / (8192 / 25)) := by
  have hhue : m.atan2
      ((((calcRefWindow lp transformed cx cy sk).map
          (fun p => original.b (p.1 - cy) (p.2 - cx))).sum
        / ((calcRefWindow lp transformed cx cy sk).length : ℚ)) / (8192 / 25))
      ((((calcRefWindow lp transformed cx cy sk).map
          (fun p => original.a (p.1 - cy) (p.2 - cx))).sum
        / ((calcRefWindow lp transformed cx cy sk).length : ℚ)) / (8192 / 25))
      = m.atan2
          (mean ((calcRefWindow lp transformed cx cy sk).map
            (fun p => original.b (p.1 - cy) (p.2 - cx))))
          (mean ((calcRefWindow lp transformed cx cy sk).map
            (fun p => original.a (p.1 - cy) (p.2 - cx)))) := by
    rw [hscale _ _ (8192 / 25) (by norm_num)]
    simp only [mean, List.length_map]
  have hchro : ((calcRefWindow lp transformed cx cy sk).map (fun p =>
        m.sqrt (SQR (original.b (p.1 - cy) (p.2 - cx))
          + SQR (original.a (p.1 - cy) (p.2 - cx))))).sum
        / ((calcRefWindow lp transformed cx cy sk).length : ℚ) / (8192 / 25)
      = mean ((calcRefWindow lp transformed cx cy sk).map
          (fun p => m.sqrt (SQR (original.a (p.1 - cy) (p.2 - cx))
            + SQR (original.b (p.1 - cy) (p.2 - cx))))) / (8192 / 25) := by
    simp only [mean, List.length_map, add_comm]
  have hlum : (if ((calcRefWindow lp transformed cx cy sk).map
          (fun p => original.L (p.1 - cy) (p.2 - cx))).sum
          / ((calcRefWindow lp transformed cx cy sk).length : ℚ) / (8192 / 25) > 95 then 95
        else ((calcRefWindow lp transformed cx cy sk).map
          (fun p => original.L (p.1 - cy) (p.2 - cx))).sum
          / ((calcRefWindow lp transformed cx cy sk).length : ℚ) / (8192 / 25))
      = min (mean ((calcRefWindow lp transformed cx cy sk).map
          (fun p => original.L (p.1 - cy) (p.2 - cx))) / (8192 / 25)) 95 := by
    simp only [mean, List.length_map]
    split_ifs with h
    · exact (min_eq_right h.le).symm
    · exact (min_eq_left (not_lt.mp h)).symm
  refine ⟨_, rfl, hhue, ?_, hchro, hlum, ?_⟩
  · intro h0 hb ha
    show m.atan2 _ _ = 0
    rw [hhue, hb, ha, h0]
  · intro h0 hs0 hu
    refine ⟨?_, ?_, ?_⟩
    · show m.atan2 _ _ = 0
      rw [hhue, mean_map_const _ _ 0 hW (fun p hp => (hu p hp).2.2),
        mean_map_const _ _ 0 hW (fun p hp => (hu p hp).2.1), h0]
    · show _ / _ / (8192 / 25 : ℚ) = 0
      rw [hchro, mean_map_const _ _ 0 hW]
      · norm_num
      · intro p hp
        rw [(hu p hp).2.1, (hu p hp).2.2]
        simp [SQR, hs0]
    · show (if _ then _ else _) = _
      rw [hlum, mean_map_const _ _ 20000 hW (fun p hp => (hu p hp).1)]
      norm_num
theorem libmLaw_atan2_scale (y x k : ℚ) (hk : 0 < k) :
    libmLaw.atan2 (y / k) (x / k) = libmLaw.atan2 y x := by
  have h1 : y / k > 0 ↔ y > 0 := by
    constructor
    · intro h
      by_contra hc
      exact absurd h (not_lt.mpr (div_nonpos_of_nonpos_of_nonneg (not_lt.mp hc) hk.le))
    · intro h
      exact div_pos h hk
  have h2 : y / k < 0 ↔ y < 0 := by
    constructor
    · intro h
      by_contra hc
      exact absurd h (not_lt.mpr (div_nonneg (not_lt.mp hc) hk.le))
    · intro h
      exact div_neg_of_neg_of_pos h hk
  have h3 : x / k < 0 ↔ x < 0 := by
    constructor
    · intro h
      by_contra hc
      exact absurd h (not_lt.mpr (div_nonneg (not_lt.mp hc) hk.le))
    · intro h
      exact div_neg_of_neg_of_pos h hk
  show (if y / k > 0 then _ else if y / k < 0 then _ else if x / k < 0 then _ else _)
    = (if y > 0 then _ else if y < 0 then _ else if x < 0 then _ else _)
  simp only [h1, h2, h3]

theorem example_window :
    calcRefWindow (spotParams 0 50 50) (constImage 2 2 0 0 0) 0 0 1
      = [(0, 0), (0, 1), (1, 0), (1, 1)] := by
  have hs : calcRefSpotSize (spotParams 0 50 50) 1 = 1 := by
    have h2 : Int.tdiv 2 1 = 2 := by decide
    have hf : ⌊(88623 / 50000 : ℚ)⌋ = 1 := by
      rw [Int.floor_eq_iff]
      norm_num
    simp only [calcRefSpotSize, spotParams, h2]
    norm_num [truncInt, hf]
  have ht1 : truncInt ((0 : ℚ) - ((1 : ℤ) : ℚ)) = -1 := by
    rw [show ((0 : ℚ) - ((1 : ℤ) : ℚ)) = ((-1 : ℤ) : ℚ) by norm_num]
    unfold truncInt
    rw [if_neg (by norm_num), Int.ceil_intCast]
  have ht2 : truncInt ((0 : ℚ) + ((1 : ℤ) : ℚ) + 1) = 2 := by
    rw [show ((0 : ℚ) + ((1 : ℤ) : ℚ) + 1) = ((2 : ℤ) : ℚ) by norm_num]
    unfold truncInt
    rw [if_pos (by norm_num), Int.floor_intCast]
  have hyc : (spotParams 0 50 50).yc = 0 := rfl
  have hxc : (spotParams 0 50 50).xc = 0 := rfl
  have hH : (constImage 2 2 0 0 0).H = 2 := rfl
  have hWd : (constImage 2 2 0 0 0).W = 2 := rfl
  simp only [calcRefWindow, hs, hyc, hxc, hH, hWd, ht1, ht2]
  decide

/-- C16, witness: a uniform 2 x 2 image with `L = 20000`, `a = 0`, `b = 0`,
sampled by the spot of circle radius 2 centred at the origin; the window is
the four pixels of the image. -/
theorem calc_ref_spec_witness :
    ∃ r : RefColor,
      calc_ref libmLaw true (spotParams 0 50 50) (constImage 2 2 20000 0 0)
        (constImage 2 2 0 0 0) 0 0 1 = some r
      ∧ r.hueref = 0 ∧ r.chromaref = 0 ∧ r.lumaref = 20000 / (8192 / 25) :=
  let ⟨r, h1, _, _, _, _, h6⟩ := calc_ref_spec libmLaw (spotParams 0 50 50)
    (constImage 2 2 20000 0 0) (constImage 2 2 0 0 0) 0 0 1
    (by rw [example_window]; decide) libmLaw_atan2_scale
  ⟨r, h1, h6 (by norm_num [libmLaw]) (by simp [libmLaw, sqrtExact])
    (fun _ _ => ⟨rfl, rfl, rfl⟩)⟩
/-! ### Ellipse transition weight -/

/-- C11: ellipse transition weight.  For positive half-extents `dx`, `dy` and
`ach` in (0, 1), with a square root that satisfies
`sqrt (c * c * t) = c * sqrt t` for `c > 0` and a cosine that satisfies
`cos (RT_PI - t) = - cos t` and `cos 0 = 1`, `calcLocalFactor` equals
`0.5 * (1 - cos (RT_PI * (1 - r) / (1 - ach)))` where
`r = sqrt (((x - cx) / dx)^2 + ((y - cy) / dy)^2)` is the radius normalised by
the outer ellipse; hence the weight is 1 at the full-effect boundary
(`r = ach`), 0 at the outer boundary (`r = 1`) and exactly 0.5 at the midpoint
`r = (1 + ach) / 2`. -/
theorem calcLocalFactor_formula (m : Libm) (lox loy lcx dx lcy dy ach : ℚ)
    (hdx : 0 < dx) (hdy : 0 < dy) (hach : 0 < ach ∧ ach < 1)
    (hsqrt : ∀ c t : ℚ, 0 < c → 0 ≤ t → m.sqrt (c * c * t) = c * m.sqrt t)
    (hcos : ∀ t : ℚ, m.cos (m.RT_PI - t) = - m.cos t) (hcos0 : m.cos 0 = 1) :
    let r := m.sqrt (SQR ((lox - lcx) / dx) + SQR ((loy - lcy) / dy))
    calcLocalFactor m lox loy lcx dx lcy dy ach
        = (1 / 2) * (1 - m.cos (m.RT_PI * (1 - r) / (1 - ach)))
    ∧ (r = ach → calcLocalFactor m lox loy lcx dx lcy dy ach = 1)
    ∧ (r = 1 → calcLocalFactor m lox loy lcx dx lcy dy ach = 0)
    ∧ (r = (1 + ach) / 2 → calcLocalFactor m lox loy lcx dx lcy dy ach = 1 / 2) := by
  intro r
  have hdx0 : dx ≠ 0 := hdx.ne'
  have hdy0 : dy ≠ 0 := hdy.ne'
  have h1a : (1 : ℚ) - ach ≠ 0 := by linarith [hach.2]
  -- the argument of the square root is `dy * dy` times the normalised one
  have harg : SQR ((lox - lcx) / (dx / dy)) + SQR (loy - lcy)
      = dy * dy * (SQR ((lox - lcx) / dx) + SQR ((loy - lcy) / dy)) := by
    unfold SQR
    field_simp
    ring
  have hnn : 0 ≤ SQR ((lox - lcx) / dx) + SQR ((loy - lcy) / dy) :=
    add_nonneg (mul_self_nonneg _) (mul_self_nonneg _)
  have hbelip : m.sqrt (SQR ((lox - lcx) / (dx / dy)) + SQR (loy - lcy)) = dy * r := by
    rw [harg, hsqrt dy _ hdy hnn]
  -- the normalised radius `degrad` is `r`
  have hdeg : m.sqrt (SQR ((lox - lcx) / (dx / dy)) + SQR (loy - lcy)) * (dx / dy) / dx
      = r := by
    rw [hbelip]
    field_simp
    ring
  -- the angle is `RT_PI` minus the angle of the claim
  have hang : r * (m.RT_PI / (1 - ach)) + (m.RT_PI - m.RT_PI / (1 - ach))
      = m.RT_PI - m.RT_PI * (1 - r) / (1 - ach) := by
    field_simp
    ring
  have hmain : calcLocalFactor m lox loy lcx dx lcy dy ach
      = (1 / 2) * (1 - m.cos (m.RT_PI * (1 - r) / (1 - ach))) := by
    unfold calcLocalFactor
    simp only []
    rw [hdeg, hang, hcos]
    ring
  have hcospi : m.cos m.RT_PI = -1 := by
    have h := hcos 0
    rw [sub_zero, hcos0] at h
    exact h
  have hcoshalf : m.cos (m.RT_PI / 2) = 0 := by
    have h := hcos (m.RT_PI / 2)
    have e : m.RT_PI - m.RT_PI / 2 = m.RT_PI / 2 := by ring
    rw [e] at h
    linarith
  refine ⟨hmain, ?_, ?_, ?_⟩
  · intro hr
    rw [hmain, hr]
    have e : m.RT_PI * (1 - ach) / (1 - ach) = m.RT_PI := by field_simp
    rw [e, hcospi]
    norm_num
  · intro hr
    rw [hmain, hr]
    have e : m.RT_PI * (1 - 1) / (1 - ach) = 0 := by simp
    rw [e, hcos0]
    norm_num
  · intro hr
    rw [hmain, hr]
    have e : m.RT_PI * (1 - (1 + ach) / 2) / (1 - ach) = m.RT_PI / 2 := by
      field_simp
      ring
    rw [e, hcoshalf]
    norm_num

theorem sqrtExact_sq (q : ℚ) (hq : 0 ≤ q) : sqrtExact (q * q) = q := by
  unfold sqrtExact
  rw [Rat.sqrt_eq, abs_of_nonneg hq, if_pos rfl]

theorem sqrtExact_scale (c t : ℚ) (hc : 0 < c) (_ht : 0 ≤ t) :
    sqrtExact (c * c * t) = c * sqrtExact t := by
  by_cases hsq : Rat.sqrt t * Rat.sqrt t = t
  · have ht' : sqrtExact t = Rat.sqrt t := by
      unfold sqrtExact
      rw [if_pos hsq]
    have e : c * c * t = (c * Rat.sqrt t) * (c * Rat.sqrt t) := by
      rw [mul_mul_mul_comm, hsq]
    rw [ht', e, sqrtExact_sq _ (mul_nonneg hc.le (Rat.sqrt_nonneg t))]
  · have ht' : sqrtExact t = 0 := by
      unfold sqrtExact
      rw [if_neg hsq]
    have hn : ¬ Rat.sqrt (c * c * t) * Rat.sqrt (c * c * t) = c * c * t := by
      intro h
      apply hsq
      rw [← Rat.exists_mul_self]
      refine ⟨Rat.sqrt (c * c * t) / c, ?_⟩
      have hc0 : c ≠ 0 := hc.ne'
      field_simp
      rw [h]
      ring
    unfold sqrtExact at ht' ⊢
    rw [if_neg hn, if_neg hsq, mul_zero]

theorem libmLaw_cos_supp (t : ℚ) : libmLaw.cos (libmLaw.RT_PI - t) = - libmLaw.cos t := by
  show 1 - 2 * ((355 / 113 : ℚ) - t) / (355 / 113) = - (1 - 2 * t / (355 / 113))
  ring

/-- C11, witness: circle of radius 10, transition fraction 4/5; the point
(9, 0) has normalised radius 0.9, the midpoint of the transition, and gets the
weight 1/2. -/
theorem calcLocalFactor_formula_witness :
    calcLocalFactor libmLaw 9 0 0 10 0 10 (4 / 5) = 1 / 2 :=
  (calcLocalFactor_formula libmLaw 9 0 0 10 0 10 (4 / 5) (by norm_num) (by norm_num)
    (by norm_num) sqrtExact_scale libmLaw_cos_supp (by norm_num [libmLaw])).2.2.2
    (by
      have h : (SQR (((9 : ℚ) - 0) / 10) + SQR (((0 : ℚ) - 0) / 10))
          = (9 / 10) * (9 / 10) := by norm_num [SQR]
      show sqrtExact _ = _
      rw [h, sqrtExact_sq _ (by norm_num)]
      norm_num)

/-! ### The field versions and the rational embedding -/

/-- On the rationals, with the square root of the library `m`,
`calcLocalFactorrectK` is `calcLocalFactorrect`. -/
theorem calcLocalFactorrectK_rat (m : Libm) (lox loy lcx dx lcy dy ach : ℚ) :
    calcLocalFactorrectK m.sqrt lox loy lcx dx lcy dy ach
      = calcLocalFactorrect m lox loy lcx dx lcy dy ach := rfl

/-- On the rationals, with the square root of the library `m`,
`calcTransitionrectK` at the fields of `lp` is `calcTransitionrect`. -/
theorem calcTransitionrectK_rat (m : Libm) (lox loy ach : ℚ) (lp : local_params) (lf : ℚ) :
    calcTransitionrectK m.sqrt lox loy ach lp.xc lp.yc lp.lx lp.ly lp.lxL lp.lyT lf
      = calcTransitionrect m lox loy ach lp lf := rfl

theorem quadExK_rat (lp : local_params) (lox : ℚ) :
    quadExK lp.xc lp.lx lp.lxL lox = quadEx lp lox := rfl

theorem quadEyK_rat (lp : local_params) (lox loy : ℚ) :
    quadEyK lp.xc lp.yc lp.ly lp.lyT lox loy = quadEy lp lox loy := rfl

theorem meanK_rat (l : List ℚ) : meanK l = mean l := rfl

/-- On the rationals, with the square root of the library `m`,
`calc_ref_chromarefK` at the planes of `original` is the `chromaref` that
`calc_ref` returns. -/
theorem calc_ref_chromarefK_rat (m : Libm) (lp : local_params)
    (original transformed : LabImage) (cx cy sk : ℤ) (r : RefColor)
    (h : calc_ref m true lp original transformed cx cy sk = some r) :
    r.chromaref = calc_ref_chromarefK m.sqrt lp original.a original.b transformed cx cy sk := by
  unfold calc_ref at h
  simp only [if_true, Option.some.injEq] at h
  rw [← h]
  rfl

/-! ### Rectangle transition weight -/
theorem le_of_mul_self_le {K : Type} [LinearOrderedField K]
    (c u : K) (hu : 0 ≤ u) (h : c * c ≤ u * u) : c ≤ u := by
  by_contra hc
  push_neg at hc
  nlinarith

/-- Bounds on `rad / ref` in one branch of `calcLocalFactorrectK`: `bigY` is
the distance along the dominant axis, `bigB` the magnitude of the shifted
distance used in the slope, `q` the squared slope and `x2` the squared
distance along the other axis. -/
theorem ratio_bounds {K : Type} [LinearOrderedField K] (rad ref d bigY bigB q x2 e : K)
    (hrad : 0 ≤ rad) (href : 0 ≤ ref) (hd : 0 < d) (hY : 0 ≤ bigY) (hq : 0 ≤ q)
    (he : 0 ≤ e)
    (hrad2 : rad * rad = x2 + bigY * bigY) (href2 : ref * ref = d * d * (1 + q))
    (hqB : q * (bigB * bigB) = x2) (hB0 : 0 ≤ bigB)
    (hB1 : bigY - e ≤ bigB) (hB2 : bigB ≤ bigY + e) :
    (bigY - e) / d ≤ rad / ref ∧ rad / ref ≤ (bigY + e) / d := by
  have hrefpos : 0 < ref := by
    rcases href.lt_or_eq with h | h
    · exact h
    · exfalso
      rw [← h] at href2
      have : 0 < d * d * (1 + q) := mul_pos (mul_pos hd hd) (by linarith)
      linarith
  have hx2 : 0 ≤ x2 := by
    rw [← hqB]
    exact mul_nonneg hq (mul_self_nonneg _)
  constructor
  · rw [div_le_div_iff₀ hd hrefpos]
    by_cases hneg : bigY - e ≤ 0
    · have h1 : (bigY - e) * ref ≤ 0 := mul_nonpos_of_nonpos_of_nonneg hneg hrefpos.le
      have h2 : 0 ≤ rad * d := mul_nonneg hrad hd.le
      linarith
    · push_neg at hneg
      apply le_of_mul_self_le _ _ (mul_nonneg hrad hd.le)
      -- ((Y - e) ref)^2 = (Y - e)^2 d^2 (1 + q) <= (x2 + Y^2) d^2 = (rad d)^2
      have s1 : (bigY - e) * (bigY - e) ≤ bigB * bigB :=
        mul_self_le_mul_self hneg.le hB1
      have s2 : (bigY - e) * (bigY - e) ≤ bigY * bigY :=
        mul_self_le_mul_self hneg.le (by linarith)
      have s3 : q * ((bigY - e) * (bigY - e)) ≤ x2 := by
        rw [← hqB]
        exact mul_le_mul_of_nonneg_left s1 hq
      have e1 : (bigY - e) * ref * ((bigY - e) * ref)
          = (bigY - e) * (bigY - e) * (ref * ref) := by ring
      have e2 : rad * d * (rad * d) = rad * rad * (d * d) := by ring
      rw [e1, e2, href2, hrad2]
      have hdd : 0 ≤ d * d := mul_self_nonneg d
      have key : (bigY - e) * (bigY - e) * (1 + q) ≤ x2 + bigY * bigY := by
        have : (bigY - e) * (bigY - e) * (1 + q)
            = (bigY - e) * (bigY - e) + q * ((bigY - e) * (bigY - e)) := by ring
        rw [this]
        linarith
      calc (bigY - e) * (bigY - e) * (d * d * (1 + q))
          = (bigY - e) * (bigY - e) * (1 + q) * (d * d) := by ring
        _ ≤ (x2 + bigY * bigY) * (d * d) := mul_le_mul_of_nonneg_right key hdd
  · rw [div_le_div_iff₀ hrefpos hd]
    have hYe : 0 ≤ bigY + e := by linarith
    apply le_of_mul_self_le _ _ (mul_nonneg hYe hrefpos.le)
    have s1 : bigB * bigB ≤ (bigY + e) * (bigY + e) := mul_self_le_mul_self hB0 hB2
    have s2 : bigY * bigY ≤ (bigY + e) * (bigY + e) :=
      mul_self_le_mul_self hY (by linarith)
    have s3 : x2 ≤ q * ((bigY + e) * (bigY + e)) := by
      rw [← hqB]
      exact mul_le_mul_of_nonneg_left s1 hq
    have e1 : (bigY + e) * ref * ((bigY + e) * ref)
        = (bigY + e) * (bigY + e) * (ref * ref) := by ring
    have e2 : rad * d * (rad * d) = rad * rad * (d * d) := by ring
    rw [e1, e2, href2, hrad2]
    have hdd : 0 ≤ d * d := mul_self_nonneg d
    have key : x2 + bigY * bigY ≤ (bigY + e) * (bigY + e) * (1 + q) := by
      have : (bigY + e) * (bigY + e) * (1 + q)
          = (bigY + e) * (bigY + e) + q * ((bigY + e) * (bigY + e)) := by ring
      rw [this]
      linarith
    calc (x2 + bigY * bigY) * (d * d)
        ≤ (bigY + e) * (bigY + e) * (1 + q) * (d * d) :=
          mul_le_mul_of_nonneg_right key hdd
      _ = (bigY + e) * (bigY + e) * (d * d * (1 + q)) := by ring

theorem fact_bounds {K : Type} [LinearOrderedField K]
    (c ach dc : K) (hach : ach < 1) (h1 : ach - dc ≤ c) (h2 : c ≤ 1 + dc) :
    -(dc / (1 - ach)) ≤ 1 / (ach - 1) * (c - 1)
    ∧ 1 / (ach - 1) * (c - 1) ≤ 1 + dc / (1 - ach) := by
  have hD : 0 < 1 - ach := by linarith
  have e : 1 / (ach - 1) * (c - 1) = (1 - c) / (1 - ach) := by
    have h0 : ach - 1 ≠ 0 := by linarith
    have h0' : 1 - ach ≠ 0 := hD.ne'
    field_simp
    ring
  rw [e]
  constructor
  · rw [← neg_div, div_le_div_iff_of_pos_right hD]
    linarith
  · have : 1 + dc / (1 - ach) = (1 - ach + dc) / (1 - ach) := by
      field_simp
    rw [this, div_le_div_iff_of_pos_right hD]
    linarith

theorem abs_shift_bounds {K : Type} [LinearOrderedField K] (k e : K) (he : 0 ≤ e) :
    |k| - e ≤ |k + e| ∧ |k + e| ≤ |k| + e := by
  constructor
  · have h := abs_add (k + e) (-e)
    rw [abs_neg, abs_of_nonneg he] at h
    have h2 : k + e + -e = k := by ring
    rw [h2] at h
    linarith
  · have h := abs_add k e
    rw [abs_of_nonneg he] at h
    exact h

theorem sq_div_mul_abs {K : Type} [LinearOrderedField K] (k β : K) (h : β ≠ 0) :
    k / β * (k / β) * (|β| * |β|) = k * k := by
  rw [abs_mul_abs_self]
  field_simp

/-- Bounds on the ratio `rad / ref` of the rectangle weight when the reference radius
is taken on the side at distance `d` in the direction of `k`, the other direction
being `k2` with half-extent `d2`. -/
theorem coef_bounds {K : Type} [LinearOrderedField K] (rad ref k k2 d d2 ach e : K)
    (hd : 0 < d) (hd2 : 0 < d2) (he : 0 ≤ e)
    (hb : |k| < d) (hlow : ach * d - e - e * (d / d2) ≤ |k|)
    (hβ : k + e ≠ 0)
    (hr0 : 0 ≤ rad) (hr2 : rad * rad = k2 * k2 + k * k)
    (hf0 : 0 ≤ ref) (hf2 : ref * ref = d * d * (1 + k2 / (k + e) * (k2 / (k + e)))) :
    ach - 2 * e * (1 / d + 1 / d2) ≤ rad / ref
    ∧ rad / ref ≤ 1 + 2 * e * (1 / d + 1 / d2) := by
  have hid : 0 < 1 / d := one_div_pos.mpr hd
  have hid2 : 0 < 1 / d2 := one_div_pos.mpr hd2
  have hsb := abs_shift_bounds k e he
  have hrb := ratio_bounds rad ref d |k| |k + e| (k2 / (k + e) * (k2 / (k + e)))
    (k2 * k2) e hr0 hf0 hd (abs_nonneg _) (mul_self_nonneg _) he
    (by rw [hr2, abs_mul_abs_self]) hf2 (sq_div_mul_abs k2 (k + e) hβ)
    (abs_nonneg _) hsb.1 hsb.2
  have p1 : 0 ≤ e * (1 / d) := mul_nonneg he hid.le
  have p2 : 0 ≤ e * (1 / d2) := mul_nonneg he hid2.le
  constructor
  · have h1 : (ach * d - e - e * (d / d2) - e) / d ≤ (|k| - e) / d := by
      rw [div_le_div_iff_of_pos_right hd]
      linarith
    have h2 : (ach * d - e - e * (d / d2) - e) / d
        = ach - 2 * (e * (1 / d)) - e * (1 / d2) := by
      field_simp
      ring
    rw [h2] at h1
    have h3 : ach - 2 * e * (1 / d + 1 / d2) ≤ ach - 2 * (e * (1 / d)) - e * (1 / d2) := by
      linarith
    exact le_trans h3 (le_trans h1 hrb.1)
  · have h1 : (|k| + e) / d ≤ (d + e) / d := by
      rw [div_le_div_iff_of_pos_right hd]
      linarith
    have h2 : (d + e) / d = 1 + e * (1 / d) := by
      field_simp
    rw [h2] at h1
    have h3 : 1 + e * (1 / d) ≤ 1 + 2 * e * (1 / d + 1 / d2) := by linarith
    exact le_trans hrb.2 (le_trans h1 h3)

theorem vert_low {K : Type} [LinearOrderedField K]
    (kx ky dx dy ach e : K) (hdx : 0 < dx) (hdy : 0 < dy) (he : 0 ≤ e)
    (hβ : ky + e ≠ 0) (hout : ach * dx ≤ |kx| ∨ ach * dy ≤ |ky|)
    (hc : |kx / (ky + e)| < dx / dy) :
    ach * dy - e - e * (dy / dx) ≤ |ky| := by
  have hβabs : 0 < |ky + e| := abs_pos.mpr hβ
  have hsb := abs_shift_bounds ky e he
  have p : 0 ≤ e * (dy / dx) := mul_nonneg he (div_pos hdy hdx).le
  rcases hout with h | h
  · rw [abs_div, div_lt_div_iff₀ hβabs hdy] at hc
    have h1 : ach * dx * dy ≤ |kx| * dy := mul_le_mul_of_nonneg_right h hdy.le
    have h2 : dx * |ky + e| ≤ dx * (|ky| + e) := mul_le_mul_of_nonneg_left hsb.2 hdx.le
    have h3 : dx * (ach * dy) < dx * (|ky| + e) := by
      calc dx * (ach * dy) = ach * dx * dy := by ring
        _ ≤ |kx| * dy := h1
        _ < dx * |ky + e| := hc
        _ ≤ dx * (|ky| + e) := h2
    have h4 := lt_of_mul_lt_mul_left h3 hdx.le
    linarith
  · linarith

theorem horiz_low {K : Type} [LinearOrderedField K]
    (kx ky dx dy ach e : K) (hdx : 0 < dx) (hdy : 0 < dy) (he : 0 ≤ e)
    (hβ : ky + e ≠ 0) (hout : ach * dx ≤ |kx| ∨ ach * dy ≤ |ky|)
    (hc : ¬ |kx / (ky + e)| < dx / dy) :
    ach * dx - e - e * (dx / dy) ≤ |kx| := by
  have hβabs : 0 < |ky + e| := abs_pos.mpr hβ
  have hsb := abs_shift_bounds ky e he
  have p : 0 ≤ e * (dx / dy) := mul_nonneg he (div_pos hdx hdy).le
  rcases hout with h | h
  · linarith
  · rw [abs_div, not_lt, div_le_div_iff₀ hdy hβabs] at hc
    have h2 : dx * (|ky| - e) ≤ dx * |ky + e| := mul_le_mul_of_nonneg_left hsb.1 hdx.le
    have h3 : dx * (ach * dy - e) ≤ dx * (|ky| - e) :=
      mul_le_mul_of_nonneg_left (by linarith) hdx.le
    have h4 : dx * (ach * dy - e) ≤ |kx| * dy := by linarith
    have h5 : (ach * dx - e * (dx / dy)) * dy = dx * (ach * dy - e) := by
      field_simp
      ring
    have h6 : (ach * dx - e * (dx / dy)) * dy ≤ |kx| * dy := by
      rw [h5]
      exact h4
    have h7 := le_of_mul_le_mul_right h6 hdy
    linarith

/-- Bounds on the rectangle weight: inside the open box of half-extents `dx`, `dy` and
not inside the box scaled by `ach`, with exact square roots and no zero divisor, the
weight of `calcLocalFactorrectK` lies within `2 * eps * (1 / dx + 1 / dy) / (1 - ach)`
of the interval from 0 to 1, where `eps = 1 / 10000` is the guard of the code. -/
theorem calcLocalFactorrectK_bounds {K : Type} [LinearOrderedField K]
    (sqrt : K → K) (lox loy lcx dx lcy dy ach : K)
    (hdx : 0 < dx) (hdy : 0 < dy) (hach : ach < 1)
    (hbx : |lox - lcx| < dx) (hby : |loy - lcy| < dy)
    (hout : ach * dx ≤ |lox - lcx| ∨ ach * dy ≤ |loy - lcy|)
    (hβ : loy - lcy + 1 / 10000 ≠ 0) (hα : lox - lcx + 1 / 10000 ≠ 0)
    (hs1 : ExactSqrtAt sqrt (rectRadArgK lox loy lcx lcy))
    (hs2 : ExactSqrtAt sqrt (rectRefArgK lox loy lcx dx lcy dy)) :
    -(2 * (1 / 10000) * (1 / dx + 1 / dy) / (1 - ach))
        ≤ calcLocalFactorrectK sqrt lox loy lcx dx lcy dy ach
    ∧ calcLocalFactorrectK sqrt lox loy lcx dx lcy dy ach
        ≤ 1 + 2 * (1 / 10000) * (1 / dx + 1 / dy) / (1 - ach) := by
  have he : (0 : K) ≤ 1 / 10000 := by norm_num
  have hk : |dx / dy| = dx / dy := abs_of_pos (div_pos hdx hdy)
  obtain ⟨hr0, hr2⟩ := hs1
  unfold rectRadArgK SQRK at hr0 hr2
  obtain ⟨hf0, hf2⟩ := hs2
  unfold rectRefArgK SQRK at hf0 hf2
  by_cases hc : |(lox - lcx) / (loy - lcy + 1 / 10000)| < |dx / dy|
  · simp only [if_pos hc] at hf0 hf2
    have hlow := vert_low (lox - lcx) (loy - lcy) dx dy ach (1 / 10000) hdx hdy he hβ hout
      (by rw [← hk]; exact hc)
    have hcb := coef_bounds _ _ (loy - lcy) (lox - lcx) dy dx ach (1 / 10000) hdy hdx he
      hby hlow hβ hr0 hr2 hf0 hf2
    rw [add_comm (1 / dy) (1 / dx)] at hcb
    have hfb := fact_bounds _ ach _ hach hcb.1 hcb.2
    have hv : calcLocalFactorrectK sqrt lox loy lcx dx lcy dy ach
        = 1 / (ach - 1) * (sqrt ((lox - lcx) * (lox - lcx) + (loy - lcy) * (loy - lcy))
          / sqrt (dy * dy * (1 + (lox - lcx) / (loy - lcy + 1 / 10000)
            * ((lox - lcx) / (loy - lcy + 1 / 10000)))) - 1) := by
      unfold calcLocalFactorrectK SQRK
      simp only [if_pos hc]
    rw [hv]
    exact hfb
  · simp only [if_neg hc] at hf0 hf2
    have hlow := horiz_low (lox - lcx) (loy - lcy) dx dy ach (1 / 10000) hdx hdy he hβ hout
      (by rw [← hk]; exact hc)
    have hcb := coef_bounds _ _ (lox - lcx) (loy - lcy) dx dy ach (1 / 10000) hdx hdy he
      hbx hlow hα hr0 (by rw [hr2, add_comm]) hf0 hf2
    have hfb := fact_bounds _ ach _ hach hcb.1 hcb.2
    have hv : calcLocalFactorrectK sqrt lox loy lcx dx lcy dy ach
        = 1 / (ach - 1) * (sqrt ((lox - lcx) * (lox - lcx) + (loy - lcy) * (loy - lcy))
          / sqrt (dx * dx * (1 + (loy - lcy) / (lox - lcx + 1 / 10000)
            * ((loy - lcy) / (lox - lcx + 1 / 10000)))) - 1) := by
      unfold calcLocalFactorrectK SQRK
      simp only [if_neg hc]
    rw [hv]
    exact hfb

/-- A pixel that `calcTransitionrectK` puts in zone 1 gets the weight of
`calcLocalFactorrectK` for the half-extents of its quadrant, lies strictly inside the
box of these half-extents and not strictly inside the box scaled by `ach`. -/
theorem calcTransitionrectK_zone1 {K : Type} [LinearOrderedField K] (sqrt : K → K)
    (lox loy ach xc yc lx ly lxL lyT lf : K)
    (hz : (calcTransitionrectK sqrt lox loy ach xc yc lx ly lxL lyT lf).1 = 1) :
    (calcTransitionrectK sqrt lox loy ach xc yc lx ly lxL lyT lf).2
        = calcLocalFactorrectK sqrt lox loy xc (quadExK xc lx lxL lox) yc
            (quadEyK xc yc ly lyT lox loy) ach
    ∧ |lox - xc| < quadExK xc lx lxL lox ∧ |loy - yc| < quadEyK xc yc ly lyT lox loy
    ∧ (ach * quadExK xc lx lxL lox ≤ |lox - xc|
        ∨ ach * quadEyK xc yc ly lyT lox loy ≤ |loy - yc|) := by
  unfold calcTransitionrectK at hz ⊢
  unfold quadExK quadEyK
  simp only [ge_iff_le, gt_iff_lt] at hz ⊢
  by_cases hx : xc ≤ lox
  · have nx : ¬ lox < xc := not_lt.mpr hx
    have ax : |lox - xc| = lox - xc := abs_of_nonneg (by linarith)
    by_cases hy : yc ≤ loy
    · have ny : ¬ loy < yc := not_lt.mpr hy
      have ay : |loy - yc| = loy - yc := abs_of_nonneg (by linarith)
      simp only [hx, hy, nx, ny, true_and, and_true, false_and, and_false, if_false,
        if_true] at hz ⊢
      by_cases ho : lox < xc + lx ∧ loy < yc + ly
      · simp only [if_pos ho] at hz ⊢
        by_cases hi : lox < xc + lx * ach ∧ loy < yc + ly * ach
        · simp only [if_pos hi] at hz
          exact absurd hz (by decide)
        · simp only [if_neg hi]
          rw [ax, ay]
          refine ⟨trivial, by linarith [ho.1], by linarith [ho.2], ?_⟩
          by_contra hcon
          rw [not_or, not_le, not_le] at hcon
          exact hi ⟨by linarith [hcon.1], by linarith [hcon.2]⟩
      · simp only [if_neg ho] at hz
        exact absurd hz (by decide)
    · have ny : loy < yc := not_le.mp hy
      have ay : |loy - yc| = yc - loy := by
        rw [abs_of_neg (by linarith)]
        ring
      simp only [hx, hy, nx, ny, true_and, and_true, false_and, and_false, if_false,
        if_true] at hz ⊢
      by_cases ho : lox < xc + lx ∧ yc - lyT < loy
      · simp only [if_pos ho] at hz ⊢
        by_cases hi : lox < xc + lx * ach ∧ yc - lyT * ach < loy
        · simp only [if_pos hi] at hz
          exact absurd hz (by decide)
        · simp only [if_neg hi]
          rw [ax, ay]
          refine ⟨trivial, by linarith [ho.1], by linarith [ho.2], ?_⟩
          by_contra hcon
          rw [not_or, not_le, not_le] at hcon
          exact hi ⟨by linarith [hcon.1], by linarith [hcon.2]⟩
      · simp only [if_neg ho] at hz
        exact absurd hz (by decide)
  · have nx : lox < xc := not_le.mp hx
    have ax : |lox - xc| = xc - lox := by
      rw [abs_of_neg (by linarith)]
      ring
    by_cases hy : loy ≤ yc
    · have ny : ¬ yc < loy := not_lt.mpr hy
      have ay : |loy - yc| = yc - loy := by
        rw [abs_of_nonpos (by linarith)]
        ring
      simp only [hx, hy, nx, ny, true_and, and_true, false_and, and_false, if_false,
        if_true] at hz ⊢
      by_cases ho : xc - lxL < lox ∧ yc - lyT < loy
      · simp only [if_pos ho] at hz ⊢
        by_cases hi : xc - lxL * ach < lox ∧ yc - lyT * ach < loy
        · simp only [if_pos hi] at hz
          exact absurd hz (by decide)
        · simp only [if_neg hi]
          rw [ax, ay]
          refine ⟨trivial, by linarith [ho.1], by linarith [ho.2], ?_⟩
          by_contra hcon
          rw [not_or, not_le, not_le] at hcon
          exact hi ⟨by linarith [hcon.1], by linarith [hcon.2]⟩
      · simp only [if_neg ho] at hz
        exact absurd hz (by decide)
    · have ny : yc < loy := not_le.mp hy
      have ay : |loy - yc| = loy - yc := abs_of_pos (by linarith)
      simp only [hx, hy, nx, ny, true_and, and_true, false_and, and_false, if_false,
        if_true] at hz ⊢
      by_cases ho : xc - lxL < lox ∧ loy < yc + ly
      · simp only [if_pos ho] at hz ⊢
        by_cases hi : xc - lxL * ach < lox ∧ loy < yc + ly * ach
        · simp only [if_pos hi] at hz
          exact absurd hz (by decide)
        · simp only [if_neg hi]
          rw [ax, ay]
          refine ⟨trivial, by linarith [ho.1], by linarith [ho.2], ?_⟩
          by_contra hcon
          rw [not_or, not_le, not_le] at hcon
          exact hi ⟨by linarith [hcon.1], by linarith [hcon.2]⟩
      · simp only [if_neg ho] at hz
        exact absurd hz (by decide)

theorem exactSqrtAt_real (t : ℝ) (ht : 0 ≤ t) : ExactSqrtAt Real.sqrt t :=
  ⟨Real.sqrt_nonneg t, Real.mul_self_sqrt ht⟩

theorem SQRK_nonneg {K : Type} [LinearOrderedField K] (x : K) : 0 ≤ SQRK x :=
  mul_self_nonneg x

theorem rectRadArgK_nonneg {K : Type} [LinearOrderedField K] (lox loy lcx lcy : K) :
    0 ≤ rectRadArgK lox loy lcx lcy :=
  add_nonneg (SQRK_nonneg _) (SQRK_nonneg _)

theorem rectRefArgK_nonneg {K : Type} [LinearOrderedField K] (lox loy lcx dx lcy dy : K) :
    0 ≤ rectRefArgK lox loy lcx dx lcy dy := by
  unfold rectRefArgK
  simp only []
  split_ifs
  · exact mul_nonneg (SQRK_nonneg _) (add_nonneg zero_le_one (SQRK_nonneg _))
  · exact mul_nonneg (SQRK_nonneg _) (add_nonneg zero_le_one (SQRK_nonneg _))

/-- Zone-1 weight bounds over any ordered field: when `sqrt` is exact at the two
radicands of `calcLocalFactorrect` and neither guarded divisor is zero, the weight
of a zone-1 pixel lies in `[-d, 1 + d]` with
`d = 2 * 0.0001 * (1 / ex + 1 / ey) / (1 - ach)`. -/
theorem rect_weight_bounds_field {K : Type} [LinearOrderedField K] (sqrt : K → K)
    (lox loy ach xc yc lx ly lxL lyT lf : K) (hach : 0 < ach ∧ ach < 1)
    (hz : (calcTransitionrectK sqrt lox loy ach xc yc lx ly lxL lyT lf).1 = 1)
    (hβ : loy - yc + 1 / 10000 ≠ 0) (hα : lox - xc + 1 / 10000 ≠ 0)
    (hs1 : ExactSqrtAt sqrt (rectRadArgK lox loy xc yc))
    (hs2 : ExactSqrtAt sqrt
      (rectRefArgK lox loy xc (quadExK xc lx lxL lox) yc (quadEyK xc yc ly lyT lox loy))) :
    0 < quadExK xc lx lxL lox ∧ 0 < quadEyK xc yc ly lyT lox loy
    ∧ -(2 * (1 / 10000) * (1 / quadExK xc lx lxL lox + 1 / quadEyK xc yc ly lyT lox loy)
          / (1 - ach))
        ≤ (calcTransitionrectK sqrt lox loy ach xc yc lx ly lxL lyT lf).2
    ∧ (calcTransitionrectK sqrt lox loy ach xc yc lx ly lxL lyT lf).2
        ≤ 1 + 2 * (1 / 10000)
          * (1 / quadExK xc lx lxL lox + 1 / quadEyK xc yc ly lyT lox loy) / (1 - ach) := by
  obtain ⟨hv, hbx, hby, hout⟩ :=
    calcTransitionrectK_zone1 sqrt lox loy ach xc yc lx ly lxL lyT lf hz
  have hdx : 0 < quadExK xc lx lxL lox := lt_of_le_of_lt (abs_nonneg _) hbx
  have hdy : 0 < quadEyK xc yc ly lyT lox loy := lt_of_le_of_lt (abs_nonneg _) hby
  rw [hv]
  exact ⟨hdx, hdy, calcLocalFactorrectK_bounds sqrt lox loy xc _ yc _ ach hdx hdy hach.2
    hbx hby hout hβ hα hs1 hs2⟩

/-- Zone-1 weight bounds for `calcTransitionrect` with a library `m` whose square
root is exact at the two radicands of the pixel. -/
theorem rect_weight_bounds_libm (m : Libm) (lox loy ach : ℚ) (lp : local_params)
    (lf : ℚ) (hach : 0 < ach ∧ ach < 1)
    (hz : (calcTransitionrect m lox loy ach lp lf).1 = 1)
    (hβ : loy - lp.yc + 1 / 10000 ≠ 0) (hα : lox - lp.xc + 1 / 10000 ≠ 0)
    (hs1 : SqrtExactAt m (rectRadArgK lox loy lp.xc lp.yc))
    (hs2 : SqrtExactAt m
      (rectRefArgK lox loy lp.xc (quadEx lp lox) lp.yc (quadEy lp lox loy))) :
    0 < quadEx lp lox ∧ 0 < quadEy lp lox loy
    ∧ -(2 * (1 / 10000) * (1 / quadEx lp lox + 1 / quadEy lp lox loy) / (1 - ach))
        ≤ (calcTransitionrect m lox loy ach lp lf).2
    ∧ (calcTransitionrect m lox loy ach lp lf).2
        ≤ 1 + 2 * (1 / 10000) * (1 / quadEx lp lox + 1 / quadEy lp lox loy) / (1 - ach) :=
  rect_weight_bounds_field m.sqrt lox loy ach lp.xc lp.yc lp.lx lp.ly lp.lxL lp.lyT lf
    hach hz hβ hα hs1 hs2

/-- With the real square root, the zone-1 pixel (-5, -4) of the square spot of
half-extent 10 centred at the origin, transition fraction 1/2, has a weight above
1: `rad = sqrt 41` and `ref = 10 * sqrt (1 + (4 / 4.9999)^2)`, so
`coef = rad / ref < 1/2` and the weight `2 * (1 - coef)` exceeds 1. -/
theorem rect_weight_real_above_one :
    1 < (calcTransitionrectK Real.sqrt (-5) (-4) (1 / 2) 0 0 10 10 10 10 1).2 := by
  have hz : (calcTransitionrectK Real.sqrt (-5) (-4) (1 / 2) 0 0 10 10 10 10 1).1 = 1 := by
    norm_num [calcTransitionrectK]
  have hv := (calcTransitionrectK_zone1 Real.sqrt (-5) (-4) (1 / 2) 0 0 10 10 10 10 1 hz).1
  have hq1 : quadExK (0 : ℝ) 10 10 (-5) = 10 := by norm_num [quadExK]
  have hq2 : quadEyK (0 : ℝ) 0 10 10 (-5) (-4) = 10 := by norm_num [quadEyK]
  have hc : ¬ |((-5 : ℝ) - 0) / (-4 - 0 + 1 / 10000)| < |(10 : ℝ) / 10| := by
    rw [not_lt, abs_of_pos (by norm_num), abs_of_pos (by norm_num)]
    norm_num
  rw [hv, hq1, hq2]
  unfold calcLocalFactorrectK
  simp only [if_neg hc]
  obtain ⟨hA0, hA2⟩ := exactSqrtAt_real (SQRK ((-5 : ℝ) - 0) + SQRK (-4 - 0))
    (add_nonneg (SQRK_nonneg _) (SQRK_nonneg _))
  obtain ⟨hB0, hB2⟩ := exactSqrtAt_real
    (SQRK (10 : ℝ) * (1 + SQRK ((-4 - 0) / (-5 - 0 + 1 / 10000))))
    (mul_nonneg (SQRK_nonneg _) (add_nonneg zero_le_one (SQRK_nonneg _)))
  generalize Real.sqrt (SQRK ((-5 : ℝ) - 0) + SQRK (-4 - 0)) = A at hA0 hA2 ⊢
  generalize Real.sqrt (SQRK (10 : ℝ) * (1 + SQRK ((-4 - 0) / (-5 - 0 + 1 / 10000)))) = B
    at hB0 hB2 ⊢
  norm_num [SQRK] at hA2 hB2
  have hlt : 2 * A < B := by
    by_contra hcon
    rw [not_lt] at hcon
    have h1 : B * B ≤ (2 * A) * (2 * A) := mul_self_le_mul_self hB0 hcon
    have h2 : (2 * A) * (2 * A) = 164 := by linear_combination 4 * hA2
    rw [hB2, h2] at h1
    norm_num at h1
  have hBpos : 0 < B := lt_of_le_of_lt (by linarith) hlt
  have hq : A / B < 1 / 2 := by
    rw [div_lt_div_iff₀ hBpos (by norm_num)]
    linarith
  have e : 1 / ((1 : ℝ) / 2 - 1) = -2 := by norm_num
  rw [e]
  linarith

/-- C12 (amended): rectangle transition weight range.  The float values are read
as real numbers and `sqrt` as the real square root: `calcTransitionrectK Real.sqrt`
is `calcTransitionrect` on the reals.  For every spot, every `ach` in (0, 1) and
every pixel that `calcTransitionrect` puts in zone 1 (the half-extents `ex`, `ey`
of its quadrant are then positive), when neither guarded divisor `ky + 0.0001`,
`kx + 0.0001` is zero, the returned weight lies in `[-d, 1 + d]` with
`d = 2 * 0.0001 * (1 / ex + 1 / ey) / (1 - ach)`: the guard `0.0001` that the code
adds to the divisors moves the weight out of `[0, 1]` by at most `d`. -/
theorem calcTransitionrect_weight_range (lox loy ach xc yc lx ly lxL lyT lf : ℝ)
    (hach : 0 < ach ∧ ach < 1)
    (hz : (calcTransitionrectK Real.sqrt lox loy ach xc yc lx ly lxL lyT lf).1 = 1)
    (hβ : loy - yc + 1 / 10000 ≠ 0) (hα : lox - xc + 1 / 10000 ≠ 0) :
    0 < quadExK xc lx lxL lox ∧ 0 < quadEyK xc yc ly lyT lox loy
    ∧ -(2 * (1 / 10000) * (1 / quadExK xc lx lxL lox + 1 / quadEyK xc yc ly lyT lox loy)
          / (1 - ach))
        ≤ (calcTransitionrectK Real.sqrt lox loy ach xc yc lx ly lxL lyT lf).2
    ∧ (calcTransitionrectK Real.sqrt lox loy ach xc yc lx ly lxL lyT lf).2
        ≤ 1 + 2 * (1 / 10000)
          * (1 / quadExK xc lx lxL lox + 1 / quadEyK xc yc ly lyT lox loy) / (1 - ach) :=
  rect_weight_bounds_field Real.sqrt lox loy ach xc yc lx ly lxL lyT lf hach hz hβ hα
    (exactSqrtAt_real _ (rectRadArgK_nonneg _ _ _ _))
    (exactSqrtAt_real _ (rectRefArgK_nonneg _ _ _ _ _ _))

/-- C12, witness: square spot of half-extent 10 centred at the origin, transition
fraction 1/2.  The pixel (-5, -4) lies on the edge of the inner box and is in zone
1; its radicands 41 and `100 * (1 + (4 / 4.9999)^2)` are not squares of rationals.
Its weight is above 1 and within `2 * 0.0001 * (1 / 10 + 1 / 10) / (1 / 2)` of the
interval from 0 to 1. -/
theorem calcTransitionrect_weight_range_witness :
    (calcTransitionrectK Real.sqrt (-5) (-4) (1 / 2) 0 0 10 10 10 10 1).1 = 1
    ∧ 1 < (calcTransitionrectK Real.sqrt (-5) (-4) (1 / 2) 0 0 10 10 10 10 1).2
    ∧ -(2 * (1 / 10000) * (1 / quadExK (0 : ℝ) 10 10 (-5)
          + 1 / quadEyK (0 : ℝ) 0 10 10 (-5) (-4)) / (1 - 1 / 2))
        ≤ (calcTransitionrectK Real.sqrt (-5) (-4) (1 / 2) 0 0 10 10 10 10 1).2
    ∧ (calcTransitionrectK Real.sqrt (-5) (-4) (1 / 2) 0 0 10 10 10 10 1).2
        ≤ 1 + 2 * (1 / 10000) * (1 / quadExK (0 : ℝ) 10 10 (-5)
          + 1 / quadEyK (0 : ℝ) 0 10 10 (-5) (-4)) / (1 - 1 / 2) :=
  have hz : (calcTransitionrectK Real.sqrt (-5) (-4) (1 / 2) 0 0 10 10 10 10 1).1 = 1 := by
    norm_num [calcTransitionrectK]
  ⟨hz, rect_weight_real_above_one,
    (calcTransitionrect_weight_range (-5) (-4) (1 / 2) 0 0 10 10 10 10 1
      (by norm_num) hz (by norm_num) (by norm_num)).2.2⟩


/-- C12, counterexample: a transition pixel whose weight is 5/4.  The spot has its
centre at (1/4375, -3/17500), left extent 2/4375, bottom extent 10 and transition
fraction 1/2; the pixel (0, 0) lies left of and below the centre, on the edge of the
inner box, so its zone is 1.  With `kx = -1/4375`, `ky = 3/17500` the code takes
`ref = dx * sqrt (1 + (ky / (kx + 0.0001))^2) = (2/4375) * (5/3)` and
`rad = sqrt (kx^2 + ky^2) = 1/3500`, so `coef = 3/8` and the weight is
`(1 / (1/2 - 1)) * (3/8 - 1) = 5/4`; both square roots are exact. -/
theorem calcTransitionrect_weight_above_one :
    0 < (offsetParams (1 / 4375) (-(3 / 17500)) (2 / 4375)).lx
    ∧ 0 < (offsetParams (1 / 4375) (-(3 / 17500)) (2 / 4375)).ly
    ∧ 0 < (offsetParams (1 / 4375) (-(3 / 17500)) (2 / 4375)).lxL
    ∧ 0 < (offsetParams (1 / 4375) (-(3 / 17500)) (2 / 4375)).lyT
    ∧ calcTransitionrect libmLaw 0 0 (1 / 2)
        (offsetParams (1 / 4375) (-(3 / 17500)) (2 / 4375)) 0 = (1, 5 / 4)
    ∧ ¬ (calcTransitionrect libmLaw 0 0 (1 / 2)
        (offsetParams (1 / 4375) (-(3 / 17500)) (2 / 4375)) 0).2 ≤ 1 := by
  have hrad : sqrtExact (SQR (0 - 1 / 4375) + SQR (0 - -(3 / 17500))) = 1 / 3500 := by
    rw [show SQR ((0 : ℚ) - 1 / 4375) + SQR (0 - -(3 / 17500))
      = (1 / 3500) * (1 / 3500) by norm_num [SQR]]
    exact sqrtExact_sq _ (by norm_num)
  have href : sqrtExact (SQR (2 / 4375)
      * (1 + SQR ((0 - -(3 / 17500)) / (0 - 1 / 4375 + 1 / 10000)))) = 2 / 2625 := by
    rw [show SQR ((2 : ℚ) / 4375)
      * (1 + SQR ((0 - -(3 / 17500)) / (0 - 1 / 4375 + 1 / 10000)))
      = (2 / 2625) * (2 / 2625) by norm_num [SQR]]
    exact sqrtExact_sq _ (by norm_num)
  have hcond : ¬ |((0 : ℚ) - 1 / 4375) / (0 - -(3 / 17500) + 1 / 10000)|
      < |(2 / 4375 : ℚ) / 10| := by
    norm_num [abs_of_pos, abs_of_neg]
  have hw : calcLocalFactorrect libmLaw 0 0 (1 / 4375) (2 / 4375) (-(3 / 17500)) 10 (1 / 2)
      = 5 / 4 := by
    unfold calcLocalFactorrect
    simp only [if_neg hcond]
    show 1 / ((1 : ℚ) / 2 - 1) * (sqrtExact _ / sqrtExact _ - 1) = 5 / 4
    rw [hrad, href]
    norm_num
  have hv : calcTransitionrect libmLaw 0 0 (1 / 2)
      (offsetParams (1 / 4375) (-(3 / 17500)) (2 / 4375)) 0 = (1, 5 / 4) := by
    rw [← hw]
    norm_num [calcTransitionrect, offsetParams, spotParams]
  refine ⟨by norm_num [offsetParams, spotParams], by norm_num [offsetParams, spotParams],
    by norm_num [offsetParams, spotParams], by norm_num [offsetParams, spotParams], hv, ?_⟩
  rw [hv]
  norm_num

/-! ### Gate ramp -/

/-- C26: the gate ramp is well defined.  For every sensitivity `s >= 0` and
threshold `thr >= 0`, `maxdE - mindE = 3 + 1.25 * s + 0.1 * s * thr >= 3 > 0`, so
the divisor `mindE - maxdE` of the slope `ar = 1 / (mindE - maxdE)` is not zero,
and for every distance `dE` exactly one of the three cases `dE <= mindE`,
`mindE < dE <= maxdE`, `dE > maxdE` holds. -/
theorem gate_ramp_well_defined (s thr : ℚ) (hs : 0 ≤ s) (hthr : 0 ≤ thr) :
    maxdE s thr - mindE s thr = 3 + (5 / 4) * s + (1 / 10) * s * thr
    ∧ 3 ≤ maxdE s thr - mindE s thr
    ∧ mindE s thr - maxdE s thr ≠ 0
    ∧ ∀ dE : ℚ,
        (dE ≤ mindE s thr ∧ ¬ (mindE s thr < dE ∧ dE ≤ maxdE s thr) ∧ ¬ dE > maxdE s thr)
        ∨ (¬ dE ≤ mindE s thr ∧ (mindE s thr < dE ∧ dE ≤ maxdE s thr) ∧ ¬ dE > maxdE s thr)
        ∨ (¬ dE ≤ mindE s thr ∧ ¬ (mindE s thr < dE ∧ dE ≤ maxdE s thr) ∧ dE > maxdE s thr) := by
  have hd : maxdE s thr - mindE s thr = 3 + (5 / 4) * s + (1 / 10) * s * thr := by
    unfold maxdE mindE maxscope minscope
    ring
  have hst : 0 ≤ s * thr := mul_nonneg hs hthr
  have h3 : 3 ≤ maxdE s thr - mindE s thr := by
    rw [hd]
    linarith
  refine ⟨hd, h3, by linarith, fun dE => ?_⟩
  by_cases h1 : dE ≤ mindE s thr
  · left
    exact ⟨h1, fun h => absurd h.1 (not_lt.mpr h1), not_lt.mpr (by linarith)⟩
  · by_cases h2 : dE ≤ maxdE s thr
    · right; left
      exact ⟨h1, ⟨not_le.mp h1, h2⟩, not_lt.mpr h2⟩
    · right; right
      exact ⟨h1, fun h => h2 h.2, not_le.mp h2⟩

/-- C26, witness: sensitivity 50 and threshold 2 give
`maxdE - mindE = 3 + 62.5 + 10 = 75.5`. -/
theorem gate_ramp_well_defined_witness :
    maxdE 50 2 - mindE 50 2 = 3 + (5 / 4) * 50 + (1 / 10) * 50 * 2 :=
  (gate_ramp_well_defined 50 2 (by norm_num) (by norm_num)).1
/-! ### Dark-pixel guard -/

theorem switchStores_dark (m : Libm) (senstype : ℤ) (lp : local_params) (HHutili : Bool)
    (rL : ℚ) (zone : ℤ) (localFactor : ℚ) (v : PixelVals) (h : rL ≤ 1 / 10) :
    switchStores m senstype lp HHutili rL zone localFactor v = [] := by
  unfold switchStores
  rw [if_neg (not_lt.mpr h)]

theorem pixelStores_dark (m : Libm) (senstype : ℤ) (bufexporig originalmask : LabImage)
    (buflight bufchro buf_a_cat buf_b_cat bufhh : ℤ → ℤ → ℚ) (HHutili : Bool)
    (hueref chromaref lumaref sobelref meansobel : ℚ) (blend2 : ℤ → ℤ → ℚ)
    (lp : local_params) (original transformed : LabImage) (cx cy sk : ℤ) (y x : ℤ)
    (hrL : (origblur m senstype lp original transformed sk).L y x / (8192 / 25) ≤ 1 / 10) :
    pixelStores m senstype bufexporig originalmask buflight bufchro buf_a_cat buf_b_cat
      bufhh HHutili hueref chromaref lumaref sobelref meansobel blend2 lp original
      transformed cx cy sk y x = [] := by
  unfold pixelStores
  simp only []
  split_ifs
  · rfl
  · rfl
  · exact switchStores_dark _ _ _ _ _ _ _ _ hrL

/-- C27: dark-pixel guard.  In `transit_shapedetect`, a pixel whose blurred
original luma divided by 327.68 is at most 0.1 is not written: whatever its zone
(Inside and Transition included), the deltas, the gate and the weight are, the
three channels of the output keep the values they had before the call. -/
theorem transit_shapedetect_dark_pixel (m : Libm) (senstype : ℤ)
    (bufexporig originalmask : LabImage)
    (buflight bufchro buf_a_cat buf_b_cat bufhh : ℤ → ℤ → ℚ) (HHutili : Bool)
    (hueref chromaref lumaref sobelref meansobel : ℚ) (blend2 : ℤ → ℤ → ℚ)
    (lp : local_params) (original transformed : LabImage) (cx cy sk : ℤ) (y x : ℤ)
    (hrL : (origblur m senstype lp original transformed sk).L y x / (8192 / 25) ≤ 1 / 10) :
    let out := transit_shapedetect m senstype bufexporig originalmask buflight bufchro
      buf_a_cat buf_b_cat bufhh HHutili hueref chromaref lumaref sobelref meansobel blend2
      lp original transformed cx cy sk
    out.L y x = transformed.L y x ∧ out.a y x = transformed.a y x
      ∧ out.b y x = transformed.b y x := by
  intro out
  have hp := pixelStores_dark m senstype bufexporig originalmask buflight bufchro buf_a_cat
    buf_b_cat bufhh HHutili hueref chromaref lumaref sobelref meansobel blend2 lp original
    transformed cx cy sk y x hrL
  refine ⟨?_, ?_, ?_⟩ <;> simp [out, transit_shapedetect, hp, lastStore]

/-- C27, witness: colour tool on a one-pixel image at image coordinates (2, 0),
inside the ellipse (zone 2); the original luma is 0, so the blurred luma is not
above 0.1; the lightness delta is 500 / 328 and the output held (7, 2, 3) before
the call.  It holds (7, 2, 3) after the call. -/
theorem transit_shapedetect_dark_pixel_witness :
    (pixelZone libmQ (spotParams 0 50 50) (1 / 2) 2 0).1 = 2
    ∧ (transit_shapedetect libmQ 0 (constImage 1 1 0 100 100) (constImage 1 1 0 0 0)
        (constPlane (500 / 328)) (constPlane 10) (constPlane 0) (constPlane 0) (constPlane 0)
        false 0 0 0 0 0 (constPlane 0) (spotParams 0 50 50) (constImage 1 1 0 50 50)
        (constImage 1 1 7 2 3) 2 0 1).L 0 0 = 7
    ∧ (transit_shapedetect libmQ 0 (constImage 1 1 0 100 100) (constImage 1 1 0 0 0)
        (constPlane (500 / 328)) (constPlane 10) (constPlane 0) (constPlane 0) (constPlane 0)
        false 0 0 0 0 0 (constPlane 0) (spotParams 0 50 50) (constImage 1 1 0 50 50)
        (constImage 1 1 7 2 3) 2 0 1).a 0 0 = 2
    ∧ (transit_shapedetect libmQ 0 (constImage 1 1 0 100 100) (constImage 1 1 0 0 0)
        (constPlane (500 / 328)) (constPlane 10) (constPlane 0) (constPlane 0) (constPlane 0)
        false 0 0 0 0 0 (constPlane 0) (spotParams 0 50 50) (constImage 1 1 0 50 50)
        (constImage 1 1 7 2 3) 2 0 1).b 0 0 = 3 :=
  ⟨by norm_num [pixelZone, spotParams, calcTransition, calcTransitionQuadrant, SQR],
    transit_shapedetect_dark_pixel libmQ 0 (constImage 1 1 0 100 100) (constImage 1 1 0 0 0)
      (constPlane (500 / 328)) (constPlane 10) (constPlane 0) (constPlane 0) (constPlane 0)
      false 0 0 0 0 0 (constPlane 0) (spotParams 0 50 50) (constImage 1 1 0 50 50)
      (constImage 1 1 7 2 3) 2 0 1 0 0
      (by norm_num [origblur, libmQ, constImage, constPlane])⟩

/-! ### Zero-chroma fallback -/

theorem Sharp_Local_varsens_eq (senstype : ℤ) (lp : local_params) :
    Sharp_Local_varsens senstype lp = (lp.senssha : ℚ) := by
  unfold Sharp_Local_varsens
  simp only []
  split_ifs <;> rfl

/-- C28: `Sharp_Local` called with `senstype = 1` (local contrast) on a spot
with sharpening sensitivity 10 and local-contrast sensitivity 90 computes its
gate thresholds from 10, the sharpening sensitivity: they are
`(2 + 0.025 * 10 * 2, 5 + 1.25 * 10 * 1.2)`, the same as with local-contrast
sensitivity 20, and not the thresholds of sensitivity 90.  The second test of
the selection repeats `senstype == 0`, so its branch is never taken. -/
theorem Sharp_Local_senstype1_uses_senssha :
    Sharp_Local_thresholds 1 (sharpParams 10 90) = (mindE 10 2, maxdE 10 2)
    ∧ Sharp_Local_thresholds 1 (sharpParams 10 90) = Sharp_Local_thresholds 1 (sharpParams 10 20)
    ∧ Sharp_Local_thresholds 1 (sharpParams 10 90) ≠ (mindE 90 2, maxdE 90 2) := by
  have h : ∀ c : ℤ, Sharp_Local_thresholds 1 (sharpParams 10 c) = (mindE 10 2, maxdE 10 2) := by
    intro c
    unfold Sharp_Local_thresholds
    simp only [Sharp_Local_varsens_eq]
    norm_num [sharpParams, spotParams, mindE, maxdE]
  refine ⟨h 90, by rw [h 90, h 20], ?_⟩
  rw [h 90]
  norm_num [mindE, maxdE, minscope, maxscope]

/-! ### Index safety of the blurred reference -/

theorem mem_intRange (lo hi i : ℤ) : i ∈ intRange lo hi ↔ lo ≤ i ∧ i < hi := by
  unfold intRange
  simp
  constructor
  · rintro ⟨a, ⟨k, hk, rfl⟩, rfl⟩
    omega
  · rintro ⟨h1, h2⟩
    refine ⟨i - lo, ⟨(i - lo).toNat, ?_, ?_⟩, ?_⟩
    · rw [Int.toNat_of_nonneg (by omega)]
      omega
    · rw [Int.toNat_of_nonneg (by omega)]
    · omega

theorem calcRefBlurReads_inPatch (isdenoise : Bool) (lp : local_params) (sk : ℤ) :
    ∀ p ∈ calcRefBlurReads isdenoise lp sk, inPatch (calcRefSpotSi lp sk) p := by
  intro p hp
  unfold calcRefBlurReads at hp
  cases isdenoise
  · simp at hp
  · simp only [if_true, List.mem_flatMap, List.mem_map, mem_intRange] at hp
    obtain ⟨y, hy, x, hx, rfl⟩ := hp
    exact ⟨hy.1, hy.2, hx.1, hx.2⟩

theorem calcRefBlurChromaReads_inPatch_zero (isdenoise : Bool) (lp : local_params)
    (sk : ℤ) :
    ∀ p ∈ calcRefBlurChromaReads isdenoise lp 0 0 sk, inPatch (calcRefSpotSi lp sk) p := by
  intro p hp
  unfold calcRefBlurChromaReads at hp
  cases isdenoise
  · simp at hp
  · simp only [if_true, List.mem_flatMap, List.mem_map, mem_intRange, sub_zero] at hp
    obtain ⟨y, hy, x, hx, rfl⟩ := hp
    exact ⟨hy.1, hy.2, hx.1, hx.2⟩

/-- C29: with denoise active, circle radius 2, scale 1 and crop offset
`cy = 1`, `cx = 0`, the patch has 5 rows and 5 columns and the first read of the
blurred chroma accumulation is at row -1, column 0, outside the patch: the
statement indexes `blurorig` with `[y - cy][x - cx]`, while the reads of the
three sums next to it use `[y][x]` and stay inside the patch. -/
theorem calc_ref_blur_chroma_read_outside :
    calcRefSpotSi (spotParams 0 50 50) 1 = 5
    ∧ (calcRefBlurChromaReads true (spotParams 0 50 50) 0 1 1).head? = some (-1, 0)
    ∧ (-1, 0) ∈ calcRefBlurChromaReads true (spotParams 0 50 50) 0 1 1
    ∧ ¬ inPatch (calcRefSpotSi (spotParams 0 50 50) 1) (-1, 0)
    ∧ ∀ p ∈ calcRefBlurReads true (spotParams 0 50 50) 1,
        inPatch (calcRefSpotSi (spotParams 0 50 50) 1) p := by
  have h5 : calcRefSpotSi (spotParams 0 50 50) 1 = 5 := by
    unfold calcRefSpotSi
    norm_num [spotParams]
  have hr : intRange 0 5 = [0, 1, 2, 3, 4] := by decide
  refine ⟨h5, ?_, ?_, ?_, calcRefBlurReads_inPatch _ _ _⟩
  · simp only [calcRefBlurChromaReads, h5, hr, if_true]
    rfl
  · simp only [calcRefBlurChromaReads, h5, hr, if_true]
    decide
  · rw [h5]
    unfold inPatch
    norm_num
/-! ### Inverse mode -/

theorem inverseBlurNoiseStores_last (lp : local_params) (original tmp1 : LabImage)
    (zone : ℤ) (w : ℚ) (y x : ℤ) (pL pa pb : ℚ) (hact : lp.actsp = false) :
    (zone = 2 →
      lastStore Chan.L (inverseBlurNoiseStores lp original tmp1 zone w y x) pL = original.L y x
      ∧ lastStore Chan.a (inverseBlurNoiseStores lp original tmp1 zone w y x) pa
          = original.a y x
      ∧ lastStore Chan.b (inverseBlurNoiseStores lp original tmp1 zone w y x) pb
          = original.b y x)
    ∧ (zone = 0 →
      lastStore Chan.L (inverseBlurNoiseStores lp original tmp1 zone w y x) pL
          = CLIP (tmp1.L y x)
      ∧ lastStore Chan.a (inverseBlurNoiseStores lp original tmp1 zone w y x) pa
          = CLIPC (tmp1.a y x)
      ∧ lastStore Chan.b (inverseBlurNoiseStores lp original tmp1 zone w y x) pb
          = CLIPC (tmp1.b y x))
    ∧ (zone = 1 →
      lastStore Chan.L (inverseBlurNoiseStores lp original tmp1 zone w y x) pL
          = CLIP (original.L y x + (1 - w) * (tmp1.L y x - original.L y x))
      ∧ lastStore Chan.a (inverseBlurNoiseStores lp original tmp1 zone w y x) pa
          = CLIPC (original.a y x + (1 - w) * (tmp1.a y x - original.a y x))
      ∧ lastStore Chan.b (inverseBlurNoiseStores lp original tmp1 zone w y x) pb
          = CLIPC (original.b y x + (1 - w) * (tmp1.b y x - original.b y x))) := by
  refine ⟨?_, ?_, ?_⟩
  · rintro rfl
    simp [inverseBlurNoiseStores, lastStore, hact]
  · rintro rfl
    simp [inverseBlurNoiseStores, lastStore, hact]
  · rintro rfl
    simp [inverseBlurNoiseStores, lastStore, hact, mul_comm]

/-- C22: inverse mode applies the effect outside the shape.  In
`InverseBlurNoise_Local` with chroma processing enabled (`lp.actsp` false), at a
pixel the loops visit, on the three channels: an Inside pixel (zone 2) is written
with the original value; an Outside pixel (zone 0) with the clamped processed
value; a Transition pixel (zone 1) of weight `w` with
`clamp (original + (1 - w) * (processed - original))`, which is the clamped
original for `w = 1` and the clamped processed value for `w = 0`. -/
theorem InverseBlurNoise_Local_zones (m : Libm) (lp : local_params)
    (original transformed tmp1 : LabImage) (cx cy : ℤ)
    (zoneU : ℤ → ℤ → ℤ) (localFactorU : ℤ → ℤ → ℚ) (y x : ℤ)
    (hact : lp.actsp = false)
    (hy : 0 ≤ y ∧ y < transformed.H) (hx : 0 ≤ x ∧ x < transformed.W) :
    let out := InverseBlurNoise_Local m lp original transformed tmp1 cx cy zoneU localFactorU
    let zw := inverseZone m lp ((lp.trans : ℚ) / 100) (cx + x) (cy + y) (zoneU y x)
      (localFactorU y x)
    (zw.1 = 2 → out.L y x = original.L y x ∧ out.a y x = original.a y x
        ∧ out.b y x = original.b y x)
    ∧ (zw.1 = 0 → out.L y x = CLIP (tmp1.L y x) ∧ out.a y x = CLIPC (tmp1.a y x)
        ∧ out.b y x = CLIPC (tmp1.b y x))
    ∧ (zw.1 = 1 →
        out.L y x = CLIP (original.L y x + (1 - zw.2) * (tmp1.L y x - original.L y x))
        ∧ out.a y x = CLIPC (original.a y x + (1 - zw.2) * (tmp1.a y x - original.a y x))
        ∧ out.b y x = CLIPC (original.b y x + (1 - zw.2) * (tmp1.b y x - original.b y x)))
    ∧ (zw.1 = 1 → zw.2 = 1 → out.L y x = CLIP (original.L y x)
        ∧ out.a y x = CLIPC (original.a y x) ∧ out.b y x = CLIPC (original.b y x))
    ∧ (zw.1 = 1 → zw.2 = 0 → out.L y x = CLIP (tmp1.L y x)
        ∧ out.a y x = CLIPC (tmp1.a y x) ∧ out.b y x = CLIPC (tmp1.b y x)) := by
  intro out zw
  have hin : 0 ≤ y ∧ y < transformed.H ∧ 0 ≤ x ∧ x < transformed.W :=
    ⟨hy.1, hy.2, hx.1, hx.2⟩
  have hL : out.L y x = lastStore Chan.L
      (inverseBlurNoiseStores lp original tmp1 zw.1 zw.2 y x) (transformed.L y x) := by
    simp only [out, zw, InverseBlurNoise_Local, if_pos hin]
  have ha : out.a y x = lastStore Chan.a
      (inverseBlurNoiseStores lp original tmp1 zw.1 zw.2 y x) (transformed.a y x) := by
    simp only [out, zw, InverseBlurNoise_Local, if_pos hin]
  have hb : out.b y x = lastStore Chan.b
      (inverseBlurNoiseStores lp original tmp1 zw.1 zw.2 y x) (transformed.b y x) := by
    simp only [out, zw, InverseBlurNoise_Local, if_pos hin]
  have hs := inverseBlurNoiseStores_last lp original tmp1 zw.1 zw.2 y x (transformed.L y x)
    (transformed.a y x) (transformed.b y x) hact
  rw [hL, ha, hb]
  refine ⟨hs.1, hs.2.1, hs.2.2, ?_, ?_⟩
  · intro h1 hw
    obtain ⟨e1, e2, e3⟩ := hs.2.2 h1
    rw [e1, e2, e3, hw]
    simp
  · intro h1 hw
    obtain ⟨e1, e2, e3⟩ := hs.2.2 h1
    rw [e1, e2, e3, hw]
    simp

/-- C22, witness: ellipse of half-extents 10 centred at the origin, one-pixel
image; the pixel at image coordinates (2, 0) is Inside and keeps the original
(5, 1, 1), the pixel at (20, 0) is Outside and gets the processed (9, 4, 6). -/
theorem InverseBlurNoise_Local_zones_witness :
    ((InverseBlurNoise_Local libmQ (spotParams 0 50 50) (constImage 1 1 5 1 1)
        (constImage 1 1 7 2 3) (constImage 1 1 9 4 6) 2 0 (fun _ _ => 0) (fun _ _ => 1)).L 0 0
        = (constImage 1 1 5 1 1).L 0 0
      ∧ (InverseBlurNoise_Local libmQ (spotParams 0 50 50) (constImage 1 1 5 1 1)
        (constImage 1 1 7 2 3) (constImage 1 1 9 4 6) 2 0 (fun _ _ => 0) (fun _ _ => 1)).a 0 0
        = (constImage 1 1 5 1 1).a 0 0
      ∧ (InverseBlurNoise_Local libmQ (spotParams 0 50 50) (constImage 1 1 5 1 1)
        (constImage 1 1 7 2 3) (constImage 1 1 9 4 6) 2 0 (fun _ _ => 0) (fun _ _ => 1)).b 0 0
        = (constImage 1 1 5 1 1).b 0 0)
    ∧ (InverseBlurNoise_Local libmQ (spotParams 0 50 50) (constImage 1 1 5 1 1)
        (constImage 1 1 7 2 3) (constImage 1 1 9 4 6) 20 0 (fun _ _ => 0) (fun _ _ => 1)).L 0 0
        = CLIP ((constImage 1 1 9 4 6).L 0 0) :=
  ⟨(InverseBlurNoise_Local_zones libmQ (spotParams 0 50 50) (constImage 1 1 5 1 1)
      (constImage 1 1 7 2 3) (constImage 1 1 9 4 6) 2 0 (fun _ _ => 0) (fun _ _ => 1) 0 0
      rfl (by simp [constImage]) (by simp [constImage])).1
      (by norm_num [inverseZone, spotParams, calcTransition, calcTransitionQuadrant, SQR]),
   ((InverseBlurNoise_Local_zones libmQ (spotParams 0 50 50) (constImage 1 1 5 1 1)
      (constImage 1 1 7 2 3) (constImage 1 1 9 4 6) 20 0 (fun _ _ => 0) (fun _ _ => 1) 0 0
      rfl (by simp [constImage]) (by simp [constImage])).2.1
      (by norm_num [inverseZone, spotParams, calcTransition])).1⟩

/-! ### Edge-strength operator -/

theorem intRange_neg_one_two : intRange (-1) 2 = [-1, 0, 1] := by
  decide

theorem sobelSum_GX (t : ℤ → ℤ → ℚ) (y x : ℤ) : sobelSum GX t y x = specSobelGy t y x := by
  unfold sobelSum specSobelGy
  rw [intRange_neg_one_two]
  simp only [List.foldl]
  norm_num [GX]
  simp only [← sub_eq_add_neg]
  ring

theorem sobelSum_GY (t : ℤ → ℤ → ℚ) (y x : ℤ) : sobelSum GY t y x = specSobelGx t y x := by
  unfold sobelSum specSobelGx
  rw [intRange_neg_one_two]
  simp only [List.foldl]
  norm_num [GY]
  simp only [← sub_eq_add_neg]
  ring

theorem CLIPLOC_zero : CLIPLOC 0 = 0 := by
  norm_num [CLIPLOC, LIM]

theorem CLIPLOC_of_nonneg (s : ℚ) (hs : 0 ≤ s) : CLIPLOC s = min 32767 s := by
  unfold CLIPLOC LIM
  exact max_eq_right (le_min (by norm_num) hs)

/-- C24: edge-strength operator.  `SobelCannyLuma` with radius 0 on a
`bfw` x `bfh` luma buffer returns 0 on the first and last row and the first and
last column; at an interior pixel, where the square root is not negative, it
returns `min (32767, sqrt (Gx^2 + Gy^2))` with `Gx`, `Gy` the responses of the
standard horizontal and vertical 3x3 Sobel kernels (the code's `sumXL` is `Gy`
and its `sumYL` is `Gx`, which leaves the magnitude unchanged); for a constant
buffer, with `sqrt 0 = 0`, it returns 0 at every pixel. -/
theorem SobelCannyLuma_spec (m : Libm) (sobelL luma : ℤ → ℤ → ℚ) (bfw bfh : ℤ) (y x : ℤ)
    (hy : 0 ≤ y ∧ y < bfh) (hx : 0 ≤ x ∧ x < bfw) :
    ((y = 0 ∨ y = bfh - 1 ∨ x = 0 ∨ x = bfw - 1) →
        SobelCannyLuma m sobelL luma bfw bfh 0 y x = 0)
    ∧ ((0 < y ∧ y < bfh - 1 ∧ 0 < x ∧ x < bfw - 1) →
        0 ≤ m.sqrt (SQR (specSobelGx luma y x) + SQR (specSobelGy luma y x)) →
        SobelCannyLuma m sobelL luma bfw bfh 0 y x
          = min 32767 (m.sqrt (SQR (specSobelGx luma y x) + SQR (specSobelGy luma y x))))
    ∧ (∀ c : ℚ, (∀ y' x' : ℤ, 0 ≤ y' ∧ y' < bfh → 0 ≤ x' ∧ x' < bfw → luma y' x' = c) →
        m.sqrt 0 = 0 → SobelCannyLuma m sobelL luma bfw bfh 0 y x = 0) := by
  have hin : 0 ≤ y ∧ y < bfh ∧ 0 ≤ x ∧ x < bfw := ⟨hy.1, hy.2, hx.1, hx.2⟩
  have hval : SobelCannyLuma m sobelL luma bfw bfh 0 y x
      = CLIPLOC (if y = 0 ∨ y = bfh - 1 then 0
          else if x = 0 ∨ x = bfw - 1 then 0
          else m.sqrt (SQR (specSobelGy luma y x) + SQR (specSobelGx luma y x))) := by
    unfold SobelCannyLuma
    simp only [gt_iff_lt, lt_irrefl, if_false, if_pos hin, sobelSum_GX, sobelSum_GY]
  have hborder : (y = 0 ∨ y = bfh - 1 ∨ x = 0 ∨ x = bfw - 1) →
      SobelCannyLuma m sobelL luma bfw bfh 0 y x = 0 := by
    intro hb
    rw [hval]
    by_cases h1 : y = 0 ∨ y = bfh - 1
    · rw [if_pos h1, CLIPLOC_zero]
    · have h2 : x = 0 ∨ x = bfw - 1 := by
        rcases hb with h | h | h | h
        · exact absurd (Or.inl h) h1
        · exact absurd (Or.inr h) h1
        · exact Or.inl h
        · exact Or.inr h
      rw [if_neg h1, if_pos h2, CLIPLOC_zero]
  have hinner : (0 < y ∧ y < bfh - 1 ∧ 0 < x ∧ x < bfw - 1) →
      SobelCannyLuma m sobelL luma bfw bfh 0 y x
        = CLIPLOC (m.sqrt (SQR (specSobelGx luma y x) + SQR (specSobelGy luma y x))) := by
    rintro ⟨i1, i2, i3, i4⟩
    rw [hval]
    have h1 : ¬ (y = 0 ∨ y = bfh - 1) := by omega
    have h2 : ¬ (x = 0 ∨ x = bfw - 1) := by omega
    rw [if_neg h1, if_neg h2, add_comm]
  refine ⟨hborder, ?_, ?_⟩
  · intro hi hs
    rw [hinner hi, CLIPLOC_of_nonneg _ hs]
  · intro c hc h0
    by_cases hb : y = 0 ∨ y = bfh - 1 ∨ x = 0 ∨ x = bfw - 1
    · exact hborder hb
    · have hi : 0 < y ∧ y < bfh - 1 ∧ 0 < x ∧ x < bfw - 1 := by omega
      obtain ⟨i1, i2, i3, i4⟩ := hi
      rw [hinner ⟨i1, i2, i3, i4⟩]
      have r : ∀ dy dx : ℤ, (-1 ≤ dy ∧ dy ≤ 1) → (-1 ≤ dx ∧ dx ≤ 1) →
          luma (y + dy) (x + dx) = c := by
        intro dy dx hdy hdx
        exact hc _ _ ⟨by omega, by omega⟩ ⟨by omega, by omega⟩
      have gx : specSobelGx luma y x = 0 := by
        unfold specSobelGx
        have e1 := r (-1) (-1) (by omega) (by omega)
        have e2 := r (-1) 1 (by omega) (by omega)
        have e3 := r 0 (-1) (by omega) (by omega)
        have e4 := r 0 1 (by omega) (by omega)
        have e5 := r 1 (-1) (by omega) (by omega)
        have e6 := r 1 1 (by omega) (by omega)
        simp only [← sub_eq_add_neg, add_zero] at e1 e2 e3 e4 e5 e6
        rw [e1, e2, e3, e4, e5, e6]
        ring
      have gy : specSobelGy luma y x = 0 := by
        unfold specSobelGy
        have e1 := r (-1) (-1) (by omega) (by omega)
        have e2 := r (-1) 0 (by omega) (by omega)
        have e3 := r (-1) 1 (by omega) (by omega)
        have e4 := r 1 (-1) (by omega) (by omega)
        have e5 := r 1 0 (by omega) (by omega)
        have e6 := r 1 1 (by omega) (by omega)
        simp only [← sub_eq_add_neg, add_zero] at e1 e2 e3 e4 e5 e6
        rw [e1, e2, e3, e4, e5, e6]
        ring
      rw [gx, gy]
      have z : SQR (0 : ℚ) + SQR 0 = 0 := by norm_num [SQR]
      rw [z, h0, CLIPLOC_zero]

/-- C24, witness: on the 3 x 3 buffer `luma[y][x] = 3 * x + 4 * y` the centre
pixel has `Gx = -24`, `Gy = -32` and edge strength 40; the corner (0, 0) has
edge strength 0. -/
theorem SobelCannyLuma_spec_witness :
    SobelCannyLuma libmLaw (constPlane 0) (fun y x => 3 * (x : ℚ) + 4 * (y : ℚ)) 3 3 0 1 1 = 40
    ∧ SobelCannyLuma libmLaw (constPlane 0) (fun y x => 3 * (x : ℚ) + 4 * (y : ℚ)) 3 3 0 0 0
        = 0 := by
  have hs : libmLaw.sqrt (SQR (specSobelGx (fun y x => 3 * (x : ℚ) + 4 * (y : ℚ)) 1 1)
      + SQR (specSobelGy (fun y x => 3 * (x : ℚ) + 4 * (y : ℚ)) 1 1)) = 40 := by
    show sqrtExact _ = _
    rw [show SQR (specSobelGx (fun y x => 3 * (x : ℚ) + 4 * (y : ℚ)) 1 1)
      + SQR (specSobelGy (fun y x => 3 * (x : ℚ) + 4 * (y : ℚ)) 1 1) = 40 * 40 by
        norm_num [SQR, specSobelGx, specSobelGy]]
    exact sqrtExact_sq 40 (by norm_num)
  constructor
  · have h := (SobelCannyLuma_spec libmLaw (constPlane 0)
      (fun y x => 3 * (x : ℚ) + 4 * (y : ℚ)) 3 3 1 1 (by norm_num) (by norm_num)).2.1
      (by norm_num) (by rw [hs]; norm_num)
    rw [h, hs]
    norm_num
  · exact (SobelCannyLuma_spec libmLaw (constPlane 0)
      (fun y x => 3 * (x : ℚ) + 4 * (y : ℚ)) 3 3 0 0 (by norm_num) (by norm_num)).1
      (Or.inl rfl)
/-! ### Reference chroma and the mean chroma vector -/

theorem eq_of_mul_self_eq {K : Type} [LinearOrderedField K]
    (a b : K) (ha : 0 ≤ a) (hb : 0 ≤ b) (h : a * a = b * b) : a = b :=
  le_antisymm (le_of_mul_self_le a b hb h.le) (le_of_mul_self_le b a ha h.ge)

/-- One term of the Cauchy-Schwarz inequality: the scalar product of (`A`, `B`)
and (`a`, `b`) is at most the product of their lengths `R` and `r`. -/
theorem cs_term {K : Type} [LinearOrderedField K]
    (A B R a b r : K) (hR0 : 0 ≤ R) (hR : R * R = A * A + B * B)
    (hr0 : 0 ≤ r) (hr : r * r = b * b + a * a) : A * a + B * b ≤ R * r := by
  apply le_of_mul_self_le _ _ (mul_nonneg hR0 hr0)
  have e : R * r * (R * r) = (A * A + B * B) * (b * b + a * a) := by
    rw [← hR, ← hr]
    ring
  rw [e]
  nlinarith [mul_self_nonneg (A * b - B * a)]

theorem cs_sum {K : Type} [LinearOrderedField K]
    (sqrt : K → K) (win : List (ℤ × ℤ)) (fa fb : ℤ × ℤ → K) (A B R : K)
    (hR0 : 0 ≤ R) (hR : R * R = A * A + B * B)
    (hs : ∀ p ∈ win, ExactSqrtAt sqrt (SQRK (fb p) + SQRK (fa p))) :
    A * (win.map fa).sum + B * (win.map fb).sum
      ≤ R * (win.map (fun p => sqrt (SQRK (fb p) + SQRK (fa p)))).sum := by
  induction win with
  | nil => simp
  | cons p l ih =>
    have h1 := cs_term A B R (fa p) (fb p) (sqrt (SQRK (fb p) + SQRK (fa p))) hR0 hR
      (hs p (List.mem_cons_self _ _)).1 (hs p (List.mem_cons_self _ _)).2
    have h2 := ih (fun q hq => hs q (List.mem_cons_of_mem _ hq))
    simp only [List.map_cons, List.sum_cons, mul_add]
    linarith

theorem sum_sqrt_nonneg {K : Type} [LinearOrderedField K]
    (sqrt : K → K) (win : List (ℤ × ℤ)) (fa fb : ℤ × ℤ → K)
    (hs : ∀ p ∈ win, ExactSqrtAt sqrt (SQRK (fb p) + SQRK (fa p))) :
    0 ≤ (win.map (fun p => sqrt (SQRK (fb p) + SQRK (fa p)))).sum := by
  apply List.sum_nonneg
  intro x hx
  obtain ⟨p, hp, rfl⟩ := List.mem_map.mp hx
  exact (hs p hp).1

/-- The mean of the lengths of the vectors (`fa p`, `fb p`) is at least the
length of their mean vector. -/
theorem mean_norm_ge {K : Type} [LinearOrderedField K]
    (sqrt : K → K) (win : List (ℤ × ℤ)) (fa fb : ℤ × ℤ → K)
    (hW : win ≠ [])
    (hs : ∀ p ∈ win, ExactSqrtAt sqrt (SQRK (fb p) + SQRK (fa p)))
    (hm : ExactSqrtAt sqrt (SQRK (meanK (win.map fa)) + SQRK (meanK (win.map fb)))) :
    sqrt (SQRK (meanK (win.map fa)) + SQRK (meanK (win.map fb)))
      ≤ (win.map (fun p => sqrt (SQRK (fb p) + SQRK (fa p)))).sum / (win.length : K) := by
  have hn : (0 : K) < (win.length : K) := by
    have : 0 < win.length := List.length_pos.mpr hW
    exact_mod_cast this
  obtain ⟨hR0, hR⟩ := hm
  have hcs := cs_sum sqrt win fa fb (meanK (win.map fa)) (meanK (win.map fb)) _ hR0 hR hs
  have hS := sum_sqrt_nonneg sqrt win fa fb hs
  have ea : (win.map fa).sum = (win.length : K) * meanK (win.map fa) := by
    unfold meanK
    rw [List.length_map]
    field_simp
  have eb : (win.map fb).sum = (win.length : K) * meanK (win.map fb) := by
    unfold meanK
    rw [List.length_map]
    field_simp
  rw [le_div_iff₀ hn]
  rcases hR0.eq_or_lt with h0 | hpos
  · rw [← h0, zero_mul]
    exact hS
  · rw [ea, eb] at hcs
    have h3 : sqrt (SQRK (meanK (win.map fa)) + SQRK (meanK (win.map fb)))
        * (sqrt (SQRK (meanK (win.map fa)) + SQRK (meanK (win.map fb))) * (win.length : K))
        ≤ sqrt (SQRK (meanK (win.map fa)) + SQRK (meanK (win.map fb)))
          * (win.map (fun p => sqrt (SQRK (fb p) + SQRK (fa p)))).sum := by
      unfold SQRK at hR hcs ⊢
      nlinarith
    exact le_of_mul_le_mul_left h3 hpos
theorem sum_map_zero {K : Type} [LinearOrderedField K] (win : List (ℤ × ℤ))
    (f : ℤ × ℤ → K) (h : ∀ p ∈ win, f p = 0) : (win.map f).sum = 0 := by
  induction win with
  | nil => simp
  | cons p l ih =>
    have hp := h p (List.mem_cons_self _ _)
    have ih2 := ih (fun q hq => h q (List.mem_cons_of_mem _ hq))
    simp only [List.map_cons, List.sum_cons, hp, ih2, add_zero]

theorem sum_map_scaled {K : Type} [LinearOrderedField K]
    (win : List (ℤ × ℤ)) (f t : ℤ × ℤ → K) (c : K)
    (h : ∀ p ∈ win, f p = t p * c) : (win.map f).sum = (win.map t).sum * c := by
  induction win with
  | nil => simp
  | cons p l ih =>
    have hp := h p (List.mem_cons_self _ _)
    have ih2 := ih (fun q hq => h q (List.mem_cons_of_mem _ hq))
    simp only [List.map_cons, List.sum_cons, hp, ih2]
    ring

/-- When every vector (`fa p`, `fb p`) is a non-negative multiple `t p` of one
vector (`u`, `v`), the mean of the lengths equals the length of the mean
vector. -/
theorem mean_norm_eq {K : Type} [LinearOrderedField K]
    (sqrt : K → K) (win : List (ℤ × ℤ)) (fa fb : ℤ × ℤ → K)
    (hW : win ≠ [])
    (hs : ∀ p ∈ win, ExactSqrtAt sqrt (SQRK (fb p) + SQRK (fa p)))
    (hm : ExactSqrtAt sqrt (SQRK (meanK (win.map fa)) + SQRK (meanK (win.map fb))))
    (u v : K) (t : ℤ × ℤ → K)
    (ht : ∀ p ∈ win, 0 ≤ t p ∧ fa p = t p * u ∧ fb p = t p * v) :
    (win.map (fun p => sqrt (SQRK (fb p) + SQRK (fa p)))).sum / (win.length : K)
      = sqrt (SQRK (meanK (win.map fa)) + SQRK (meanK (win.map fb))) := by
  have hn : (0 : K) < (win.length : K) := by
    have : 0 < win.length := List.length_pos.mpr hW
    exact_mod_cast this
  obtain ⟨hR0, hR⟩ := hm
  have hSa := sum_map_scaled win fa t u (fun p hp => (ht p hp).2.1)
  have hSb := sum_map_scaled win fb t v (fun p hp => (ht p hp).2.2)
  have hS0 : 0 ≤ (win.map t).sum := by
    apply List.sum_nonneg
    intro x hx
    obtain ⟨p, hp, rfl⟩ := List.mem_map.mp hx
    exact (ht p hp).1
  have hma : meanK (win.map fa) = (win.map t).sum / (win.length : K) * u := by
    unfold meanK
    rw [List.length_map, hSa]
    ring
  have hmb : meanK (win.map fb) = (win.map t).sum / (win.length : K) * v := by
    unfold meanK
    rw [List.length_map, hSb]
    ring
  rw [hma, hmb] at hR hR0 ⊢
  unfold SQRK at hR hR0 ⊢
  by_cases hex : ∃ p ∈ win, 0 < t p
  · obtain ⟨p0, hp0, htp0⟩ := hex
    obtain ⟨hr0, hr2⟩ := hs p0 hp0
    rw [(ht p0 hp0).2.1, (ht p0 hp0).2.2] at hr0 hr2
    unfold SQRK at hr0 hr2
    have hs0 : 0 ≤ sqrt (t p0 * v * (t p0 * v) + t p0 * u * (t p0 * u)) / t p0 :=
      div_nonneg hr0 htp0.le
    have hs2 : sqrt (t p0 * v * (t p0 * v) + t p0 * u * (t p0 * u)) / t p0
        * (sqrt (t p0 * v * (t p0 * v) + t p0 * u * (t p0 * u)) / t p0)
        = u * u + v * v := by
      rw [div_mul_div_comm, hr2]
      field_simp
      ring
    generalize sqrt (t p0 * v * (t p0 * v) + t p0 * u * (t p0 * u)) / t p0 = s
      at hs0 hs2
    have hall : ∀ p ∈ win, sqrt (SQRK (fb p) + SQRK (fa p)) = t p * s := by
      intro p hp
      obtain ⟨h1, h2⟩ := hs p hp
      apply eq_of_mul_self_eq _ _ h1 (mul_nonneg (ht p hp).1 hs0)
      rw [h2, (ht p hp).2.1, (ht p hp).2.2]
      unfold SQRK
      have e : t p * s * (t p * s) = t p * t p * (s * s) := by ring
      rw [e, hs2]
      ring
    have hSr := sum_map_scaled win (fun p => sqrt (SQRK (fb p) + SQRK (fa p))) t s hall
    unfold SQRK at hSr
    rw [hSr]
    have hq0 : 0 ≤ (win.map t).sum / (win.length : K) * s :=
      mul_nonneg (div_nonneg hS0 hn.le) hs0
    have e2 : (win.map t).sum * s / (win.length : K)
        = (win.map t).sum / (win.length : K) * s := by ring
    rw [e2]
    apply eq_of_mul_self_eq _ _ hq0 hR0
    rw [hR]
    have e3 : (win.map t).sum / (win.length : K) * s
        * ((win.map t).sum / (win.length : K) * s)
        = (win.map t).sum / (win.length : K) * ((win.map t).sum / (win.length : K))
          * (s * s) := by ring
    rw [e3, hs2]
    ring
  · push_neg at hex
    have ht0 : ∀ p ∈ win, t p = 0 := fun p hp => le_antisymm (hex p hp) (ht p hp).1
    have hr : ∀ p ∈ win, sqrt (SQRK (fb p) + SQRK (fa p)) = 0 := by
      intro p hp
      obtain ⟨_, h2⟩ := hs p hp
      rw [(ht p hp).2.1, (ht p hp).2.2, ht0 p hp] at h2 ⊢
      have z : SQRK ((0 : K) * v) + SQRK (0 * u) = 0 := by
        unfold SQRK
        ring
      rw [z] at h2 ⊢
      exact mul_self_eq_zero.mp h2
    have hSr := sum_map_zero win (fun p => sqrt (SQRK (fb p) + SQRK (fa p))) hr
    have hSt := sum_map_zero win t ht0
    unfold SQRK at hSr
    rw [hSr]
    rw [hSt] at hR ⊢
    have z2 : (0 : K) / (win.length : K) * u * (0 / (win.length : K) * u)
        + 0 / (win.length : K) * v * (0 / (win.length : K) * v) = 0 := by
      simp
    rw [z2] at hR ⊢
    rw [mul_self_eq_zero.mp hR]
    simp


/-- Reference chroma against the mean chroma vector over any ordered field: when
`sqrt` is exact at every sampled pixel and at the mean vector, the reference
chroma is at least the length of the mean vector divided by 327.68, with equality
when every sampled (a, b) is a non-negative multiple of one vector. -/
theorem chroma_ge_mean_field {K : Type} [LinearOrderedField K] (sqrt : K → K)
    (lp : local_params) (a b : ℤ → ℤ → K) (transformed : LabImage) (cx cy sk : ℤ)
    (hW : calcRefWindow lp transformed cx cy sk ≠ [])
    (hs : ∀ p ∈ calcRefWindow lp transformed cx cy sk,
      ExactSqrtAt sqrt (SQRK (b (p.1 - cy) (p.2 - cx)) + SQRK (a (p.1 - cy) (p.2 - cx))))
    (hm : ExactSqrtAt sqrt
      (SQRK (meanK ((calcRefWindow lp transformed cx cy sk).map
          (fun p => a (p.1 - cy) (p.2 - cx))))
        + SQRK (meanK ((calcRefWindow lp transformed cx cy sk).map
          (fun p => b (p.1 - cy) (p.2 - cx)))))) :
    sqrt
        (SQRK (meanK ((calcRefWindow lp transformed cx cy sk).map
            (fun p => a (p.1 - cy) (p.2 - cx))))
          + SQRK (meanK ((calcRefWindow lp transformed cx cy sk).map
            (fun p => b (p.1 - cy) (p.2 - cx))))) / (8192 / 25)
      ≤ calc_ref_chromarefK sqrt lp a b transformed cx cy sk
    ∧ ∀ (u v : K) (t : ℤ × ℤ → K),
        (∀ p ∈ calcRefWindow lp transformed cx cy sk,
          0 ≤ t p ∧ a (p.1 - cy) (p.2 - cx) = t p * u
            ∧ b (p.1 - cy) (p.2 - cx) = t p * v) →
        calc_ref_chromarefK sqrt lp a b transformed cx cy sk = sqrt
          (SQRK (meanK ((calcRefWindow lp transformed cx cy sk).map
              (fun p => a (p.1 - cy) (p.2 - cx))))
            + SQRK (meanK ((calcRefWindow lp transformed cx cy sk).map
              (fun p => b (p.1 - cy) (p.2 - cx))))) / (8192 / 25) := by
  refine ⟨?_, ?_⟩
  · show _ / (8192 / 25 : K) ≤ _ / _ / (8192 / 25 : K)
    rw [div_le_div_iff_of_pos_right (by norm_num)]
    exact mean_norm_ge sqrt _ (fun p => a (p.1 - cy) (p.2 - cx))
      (fun p => b (p.1 - cy) (p.2 - cx)) hW hs hm
  · intro u v t ht
    show _ / _ / (8192 / 25 : K) = _ / (8192 / 25 : K)
    rw [mean_norm_eq sqrt _ (fun p => a (p.1 - cy) (p.2 - cx))
      (fun p => b (p.1 - cy) (p.2 - cx)) hW hs hm u v t ht]

/-- Reference chroma against the mean chroma vector for `calc_ref` with a library
`m` whose square root is exact at every sampled pixel and at the mean vector. -/
theorem chroma_ge_mean_libm (m : Libm) (lp : local_params)
    (original transformed : LabImage) (cx cy sk : ℤ)
    (hW : calcRefWindow lp transformed cx cy sk ≠ [])
    (hs : ∀ p ∈ calcRefWindow lp transformed cx cy sk,
      SqrtExactAt m (SQR (original.b (p.1 - cy) (p.2 - cx))
        + SQR (original.a (p.1 - cy) (p.2 - cx))))
    (hm : SqrtExactAt m
      (SQR (mean ((calcRefWindow lp transformed cx cy sk).map
          (fun p => original.a (p.1 - cy) (p.2 - cx))))
        + SQR (mean ((calcRefWindow lp transformed cx cy sk).map
          (fun p => original.b (p.1 - cy) (p.2 - cx)))))) :
    ∃ r : RefColor, calc_ref m true lp original transformed cx cy sk = some r
      ∧ m.sqrt
          (SQR (mean ((calcRefWindow lp transformed cx cy sk).map
              (fun p => original.a (p.1 - cy) (p.2 - cx))))
            + SQR (mean ((calcRefWindow lp transformed cx cy sk).map
              (fun p => original.b (p.1 - cy) (p.2 - cx))))) / (8192 / 25)
          ≤ r.chromaref
      ∧ ∀ (u v : ℚ) (t : ℤ × ℤ → ℚ),
          (∀ p ∈ calcRefWindow lp transformed cx cy sk,
            0 ≤ t p ∧ original.a (p.1 - cy) (p.2 - cx) = t p * u
              ∧ original.b (p.1 - cy) (p.2 - cx) = t p * v) →
          r.chromaref = m.sqrt
            (SQR (mean ((calcRefWindow lp transformed cx cy sk).map
                (fun p => original.a (p.1 - cy) (p.2 - cx))))
              + SQR (mean ((calcRefWindow lp transformed cx cy sk).map
                (fun p => original.b (p.1 - cy) (p.2 - cx))))) / (8192 / 25) :=
  ⟨_, rfl, chroma_ge_mean_field m.sqrt lp original.a original.b transformed cx cy sk
    hW hs hm⟩

/-- With the real square root, planes `a = 1` and `b = x` (the column) sampled on
the window of four pixels: the chromas are 1, `sqrt 2`, 1, `sqrt 2`, so the
reference chroma is `(1 + sqrt 2) / 2 / 327.68`. -/
theorem example_chroma_value :
    calc_ref_chromarefK Real.sqrt (spotParams 0 50 50) (fun _ _ => (1 : ℝ))
        (fun _ x => (x : ℝ)) (constImage 2 2 0 0 0) 0 0 1
      = (1 + Real.sqrt 2) / 2 / (8192 / 25) := by
  unfold calc_ref_chromarefK
  rw [example_window]
  have h2 : (1 : ℝ) + 1 = 2 := by norm_num
  simp [SQRK, h2]
  ring

/-- The mean vector of the same window is (1, 1/2), of length `sqrt (5 / 4)`. -/
theorem example_mean_vector :
    Real.sqrt
        (SQRK (meanK ((calcRefWindow (spotParams 0 50 50) (constImage 2 2 0 0 0) 0 0 1).map
            (fun p => (fun (_ _ : ℤ) => (1 : ℝ)) (p.1 - 0) (p.2 - 0))))
          + SQRK (meanK ((calcRefWindow (spotParams 0 50 50) (constImage 2 2 0 0 0) 0 0 1).map
            (fun p => (fun (_ x : ℤ) => (x : ℝ)) (p.1 - 0) (p.2 - 0)))))
      = Real.sqrt (5 / 4) := by
  rw [example_window]
  congr 1
  norm_num [SQRK, meanK]

/-- The length `sqrt (5 / 4)` of the mean vector is below the mean length
`(1 + sqrt 2) / 2`. -/
theorem example_chroma_strict : Real.sqrt (5 / 4) < (1 + Real.sqrt 2) / 2 := by
  have h1 : (1 : ℝ) < Real.sqrt 2 := by
    rw [Real.lt_sqrt (by norm_num)]
    norm_num
  have h2 : Real.sqrt 2 * Real.sqrt 2 = 2 := Real.mul_self_sqrt (by norm_num)
  rw [Real.sqrt_lt' (by linarith)]
  nlinarith

/-- C30: reference chroma against the mean chroma vector.  The float values are
read as real numbers and `sqrt` as the real square root: `calc_ref_chromarefK
Real.sqrt` is the `chromaref` of `calc_ref` on the reals, for the planes `a`, `b`
of `original`.  For every non-empty sampling window it is at least
`sqrt ((mean a)^2 + (mean b)^2) / 327.68`, and equal to it when every sampled
pixel's (a, b) is a non-negative multiple of one vector (`u`, `v`), that is when
all sampled pixels have the same hue direction. -/
theorem calc_ref_chroma_ge_mean_vector (lp : local_params) (a b : ℤ → ℤ → ℝ)
    (transformed : LabImage) (cx cy sk : ℤ)
    (hW : calcRefWindow lp transformed cx cy sk ≠ []) :
    Real.sqrt
        (SQRK (meanK ((calcRefWindow lp transformed cx cy sk).map
            (fun p => a (p.1 - cy) (p.2 - cx))))
          + SQRK (meanK ((calcRefWindow lp transformed cx cy sk).map
            (fun p => b (p.1 - cy) (p.2 - cx))))) / (8192 / 25)
      ≤ calc_ref_chromarefK Real.sqrt lp a b transformed cx cy sk
    ∧ ∀ (u v : ℝ) (t : ℤ × ℤ → ℝ),
        (∀ p ∈ calcRefWindow lp transformed cx cy sk,
          0 ≤ t p ∧ a (p.1 - cy) (p.2 - cx) = t p * u
            ∧ b (p.1 - cy) (p.2 - cx) = t p * v) →
        calc_ref_chromarefK Real.sqrt lp a b transformed cx cy sk = Real.sqrt
          (SQRK (meanK ((calcRefWindow lp transformed cx cy sk).map
              (fun p => a (p.1 - cy) (p.2 - cx))))
            + SQRK (meanK ((calcRefWindow lp transformed cx cy sk).map
              (fun p => b (p.1 - cy) (p.2 - cx))))) / (8192 / 25) :=
  chroma_ge_mean_field Real.sqrt lp a b transformed cx cy sk hW
    (fun _ _ => exactSqrtAt_real _ (add_nonneg (SQRK_nonneg _) (SQRK_nonneg _)))
    (exactSqrtAt_real _ (add_nonneg (SQRK_nonneg _) (SQRK_nonneg _)))

/-- C30, witness: the window of four pixels (0,0), (0,1), (1,0), (1,1).  With
`a = 1` and `b = x` the sampled hues differ: the reference chroma is
`(1 + sqrt 2) / 2 / 327.68`, strictly above the length `sqrt (5 / 4) / 327.68` of
the mean vector (1, 1/2).  With `a = b = x + 1` every sampled pixel is a positive
multiple of (1, 1), the chromas are `sqrt 2` and `sqrt 8`, and the two sides are
equal. -/
theorem calc_ref_chroma_ge_mean_vector_witness :
    calcRefWindow (spotParams 0 50 50) (constImage 2 2 0 0 0) 0 0 1 ≠ []
    ∧ Real.sqrt (5 / 4) / (8192 / 25)
        ≤ calc_ref_chromarefK Real.sqrt (spotParams 0 50 50) (fun _ _ => (1 : ℝ))
            (fun _ x => (x : ℝ)) (constImage 2 2 0 0 0) 0 0 1
    ∧ Real.sqrt (5 / 4) / (8192 / 25) < (1 + Real.sqrt 2) / 2 / (8192 / 25)
    ∧ calc_ref_chromarefK Real.sqrt (spotParams 0 50 50) (fun _ _ => (1 : ℝ))
          (fun _ x => (x : ℝ)) (constImage 2 2 0 0 0) 0 0 1
        = (1 + Real.sqrt 2) / 2 / (8192 / 25)
    ∧ calc_ref_chromarefK Real.sqrt (spotParams 0 50 50) (fun _ x => (x : ℝ) + 1)
          (fun _ x => (x : ℝ) + 1) (constImage 2 2 0 0 0) 0 0 1
        = Real.sqrt
          (SQRK (meanK ((calcRefWindow (spotParams 0 50 50) (constImage 2 2 0 0 0) 0 0 1).map
              (fun p => (fun (_ x : ℤ) => (x : ℝ) + 1) (p.1 - 0) (p.2 - 0))))
            + SQRK (meanK ((calcRefWindow (spotParams 0 50 50) (constImage 2 2 0 0 0)
                0 0 1).map
              (fun p => (fun (_ x : ℤ) => (x : ℝ) + 1) (p.1 - 0) (p.2 - 0)))))
          / (8192 / 25) :=
  have hW : calcRefWindow (spotParams 0 50 50) (constImage 2 2 0 0 0) 0 0 1 ≠ [] := by
    rw [example_window]
    decide
  ⟨hW,
    by
      rw [← example_mean_vector]
      exact (calc_ref_chroma_ge_mean_vector (spotParams 0 50 50) (fun _ _ => (1 : ℝ))
        (fun _ x => (x : ℝ)) (constImage 2 2 0 0 0) 0 0 1 hW).1,
    by
      rw [div_lt_div_iff_of_pos_right (by norm_num)]
      exact example_chroma_strict,
    example_chroma_value,
    (calc_ref_chroma_ge_mean_vector (spotParams 0 50 50) (fun _ x => (x : ℝ) + 1)
      (fun _ x => (x : ℝ) + 1) (constImage 2 2 0 0 0) 0 0 1 hW).2 1 1
      (fun p => ((p.2 - 0 : ℤ) : ℝ) + 1)
      (by
        rw [example_window]
        intro p hp
        simp only [List.mem_cons, List.mem_singleton, List.not_mem_nil, or_false] at hp
        rcases hp with rfl | rfl | rfl | rfl <;> norm_num)⟩

/-! ### Compositor at weight 0 and hue recombination -/

theorem zone1Stores_weight_zero_L (m : Libm) (senstype : ℤ) (lp : local_params)
    (HHutili : Bool) (v : PixelVals) (pL : ℚ) (hp : previewShow senstype lp = false) :
    ((senstype = 0 ∨ senstype = 1 ∨ senstype = 2 ∨ senstype = 3 ∨ senstype = 4
        ∨ senstype = 6 ∨ senstype = 8 ∨ senstype = 9) →
      lastStore Chan.L (zone1Stores m senstype lp HHutili 0 v) pL = CLIP v.oL)
    ∧ (¬ (senstype = 0 ∨ senstype = 1 ∨ senstype = 2 ∨ senstype = 3 ∨ senstype = 4
        ∨ senstype = 6 ∨ senstype = 8 ∨ senstype = 9) →
      lastStore Chan.L (zone1Stores m senstype lp HHutili 0 v) pL = pL) := by
  constructor
  · intro hs
    rcases hs with rfl | rfl | rfl | rfl | rfl | rfl | rfl | rfl <;>
      (simp [zone1Stores, lastStore, hp]; try (split_ifs <;> simp))
  · intro hs
    have n0 : senstype ≠ 0 := fun h => hs (Or.inl h)
    have n1 : senstype ≠ 1 := fun h => hs (Or.inr (Or.inl h))
    have n2 : senstype ≠ 2 := fun h => hs (Or.inr (Or.inr (Or.inl h)))
    have n3 : senstype ≠ 3 := fun h => hs (Or.inr (Or.inr (Or.inr (Or.inl h))))
    have n4 : senstype ≠ 4 := fun h => hs (Or.inr (Or.inr (Or.inr (Or.inr (Or.inl h)))))
    have n6 : senstype ≠ 6 :=
      fun h => hs (Or.inr (Or.inr (Or.inr (Or.inr (Or.inr (Or.inl h))))))
    have n8 : senstype ≠ 8 :=
      fun h => hs (Or.inr (Or.inr (Or.inr (Or.inr (Or.inr (Or.inr (Or.inl h)))))))
    have n9 : senstype ≠ 9 :=
      fun h => hs (Or.inr (Or.inr (Or.inr (Or.inr (Or.inr (Or.inr (Or.inr h)))))))
    by_cases h7 : senstype = 7
    · subst h7
      simp [zone1Stores, lastStore]
    · simp [zone1Stores, lastStore, hp, n0, n1, n2, n3, n4, n6, n8, n9, h7]

theorem zone1Stores_weight_zero_ab (m : Libm) (senstype : ℤ) (lp : local_params)
    (HHutili : Bool) (v : PixelVals) (pa pb : ℚ)
    (hp : previewShow senstype lp = false)
    (hh : ¬ (senstype = 0 ∧ HHutili = true ∧ v.hhro ≠ 0)) :
    lastStore Chan.a (zone1Stores m senstype lp HHutili 0 v) pa = CLIPC v.oa
    ∧ lastStore Chan.b (zone1Stores m senstype lp HHutili 0 v) pb = CLIPC v.ob := by
  by_cases h7 : senstype = 7
  · subst h7
    constructor <;> simp [zone1Stores, lastStore]
  · constructor <;> simp [zone1Stores, h7, hp, hh, lastStore]

theorem zone1Stores_weight_zero_hue (m : Libm) (lp : local_params) (v : PixelVals)
    (pa pb : ℚ) (hp : previewShow 0 lp = false) (hro : v.hhro ≠ 0) :
    lastStore Chan.a (zone1Stores m 0 lp true 0 v) pa
      = CLIPC (m.sqrt (SQR v.oa + SQR v.ob) * m.cos (newhrOf m true v.hhro v.rhue 0)
          * (v.oa / (v.oa + (if v.oa = 0 then 1 / 1000 else 0))))
    ∧ lastStore Chan.b (zone1Stores m 0 lp true 0 v) pb
      = CLIPC (m.sqrt (SQR v.oa + SQR v.ob) * m.sin (newhrOf m true v.hhro v.rhue 0)
          * (v.ob / (v.ob + (if v.ob = 0 then 1 / 1000 else 0)))) := by
  constructor <;> simp [zone1Stores, hp, hro, lastStore]

theorem zone1Stores_hue_ab (m : Libm) (lp : local_params) (w : ℚ) (v : PixelVals)
    (pa pb : ℚ) (hp : previewShow 0 lp = false) (hro : v.hhro ≠ 0) :
    lastStore Chan.a (zone1Stores m 0 lp true w v) pa
      = CLIPC (m.sqrt (SQR (v.oa + (v.bufa * (fliab 0 lp v).1 - v.oa) * w) + SQR v.ob
              + (v.bufb * (fliab 0 lp v).2 - v.ob) * w)
          * m.cos (newhrOf m true v.hhro v.rhue ((1 / 100) * v.realhhdE * w))
          * ((v.oa + (v.bufa * (fliab 0 lp v).1 - v.oa) * w)
              / (v.oa + (if v.oa = 0 then 1 / 1000 else 0))))
    ∧ lastStore Chan.b (zone1Stores m 0 lp true w v) pb
      = CLIPC (m.sqrt (SQR (v.oa + (v.bufa * (fliab 0 lp v).1 - v.oa) * w) + SQR v.ob
              + (v.bufb * (fliab 0 lp v).2 - v.ob) * w)
          * m.sin (newhrOf m true v.hhro v.rhue ((1 / 100) * v.realhhdE * w))
          * ((v.ob + (v.bufb * (fliab 0 lp v).2 - v.ob) * w)
              / (v.ob + (if v.ob = 0 then 1 / 1000 else 0)))) := by
  constructor <;> simp [zone1Stores, hp, hro, lastStore]

theorem zone2Stores_hue_ab (m : Libm) (lp : local_params) (v : PixelVals)
    (pa pb : ℚ) (hp : previewShow 0 lp = false) (hro : v.hhro ≠ 0) :
    lastStore Chan.a (zone2Stores m 0 lp true v) pa
      = CLIPC (m.sqrt (SQR (v.oa + (v.bufa * (fliab 0 lp v).1 - v.oa)) + SQR v.ob
              + (v.bufb * (fliab 0 lp v).2 - v.ob))
          * m.cos (newhrOf m true v.hhro v.rhue ((1 / 100) * v.realhhdE))
          * ((v.oa + (v.bufa * (fliab 0 lp v).1 - v.oa))
              / (v.oa + (if v.oa = 0 then 1 / 1000 else 0))))
    ∧ lastStore Chan.b (zone2Stores m 0 lp true v) pb
      = CLIPC (m.sqrt (SQR (v.oa + (v.bufa * (fliab 0 lp v).1 - v.oa)) + SQR v.ob
              + (v.bufb * (fliab 0 lp v).2 - v.ob))
          * m.sin (newhrOf m true v.hhro v.rhue ((1 / 100) * v.realhhdE))
          * ((v.ob + (v.bufb * (fliab 0 lp v).2 - v.ob))
              / (v.ob + (if v.ob = 0 then 1 / 1000 else 0)))) := by
  constructor <;> simp [zone2Stores, hp, hro, lastStore]
theorem transit_shapedetect_zone1 (m : Libm) (senstype : ℤ)
    (bufexporig originalmask : LabImage)
    (buflight bufchro buf_a_cat buf_b_cat bufhh : ℤ → ℤ → ℚ) (HHutili : Bool)
    (hueref chromaref lumaref sobelref meansobel : ℚ) (blend2 : ℤ → ℤ → ℚ)
    (lp : local_params) (original transformed : LabImage) (cx cy sk : ℤ) (y x : ℤ)
    (hy : 0 ≤ y ∧ y < transformed.H) (hx : 0 ≤ x ∧ x < transformed.W)
    (hrow : isZone0 lp (cy + y) = false)
    (hrL : (origblur m senstype lp original transformed sk).L y x / (8192 / 25) > 1 / 10)
    (hz : (pixelZone m lp ((lp.trans : ℚ) / 100) (cx + x) (cy + y)).1 = 1) (c : Chan) :
    lastStore c
      (if 0 ≤ y ∧ y < transformed.H ∧ 0 ≤ x ∧ x < transformed.W then
        pixelStores m senstype bufexporig originalmask buflight bufchro buf_a_cat buf_b_cat
          bufhh HHutili hueref chromaref lumaref sobelref meansobel blend2 lp original
          transformed cx cy sk y x
      else [])
    = fun prev => lastStore c (zone1Stores m senstype lp HHutili
        (pixelZone m lp ((lp.trans : ℚ) / 100) (cx + x) (cy + y)).2
        (pixelValsAt m senstype bufexporig originalmask buflight bufchro buf_a_cat
          buf_b_cat bufhh HHutili hueref chromaref lumaref sobelref meansobel blend2 lp
          original transformed cx cy sk y x)) prev := by
  have hz0 : (pixelZone m lp ((lp.trans : ℚ) / 100) (cx + x) (cy + y)).1 ≠ 0 := by
    rw [hz]; decide
  rw [transit_shapedetect_inside m senstype bufexporig originalmask buflight bufchro
    buf_a_cat buf_b_cat bufhh HHutili hueref chromaref lumaref sobelref meansobel blend2
    lp original transformed cx cy sk y x hy hx hrow hz0 c]
  rw [hz]
  unfold switchStores
  rw [if_pos hrL]
  simp only [show (1 : ℤ) ≠ 0 by decide, if_false, if_true]

theorem transit_shapedetect_zone2 (m : Libm) (senstype : ℤ)
    (bufexporig originalmask : LabImage)
    (buflight bufchro buf_a_cat buf_b_cat bufhh : ℤ → ℤ → ℚ) (HHutili : Bool)
    (hueref chromaref lumaref sobelref meansobel : ℚ) (blend2 : ℤ → ℤ → ℚ)
    (lp : local_params) (original transformed : LabImage) (cx cy sk : ℤ) (y x : ℤ)
    (hy : 0 ≤ y ∧ y < transformed.H) (hx : 0 ≤ x ∧ x < transformed.W)
    (hrow : isZone0 lp (cy + y) = false)
    (hrL : (origblur m senstype lp original transformed sk).L y x / (8192 / 25) > 1 / 10)
    (hz : (pixelZone m lp ((lp.trans : ℚ) / 100) (cx + x) (cy + y)).1 = 2) (c : Chan) :
    lastStore c
      (if 0 ≤ y ∧ y < transformed.H ∧ 0 ≤ x ∧ x < transformed.W then
        pixelStores m senstype bufexporig originalmask buflight bufchro buf_a_cat buf_b_cat
          bufhh HHutili hueref chromaref lumaref sobelref meansobel blend2 lp original
          transformed cx cy sk y x
      else [])
    = fun prev => lastStore c (zone2Stores m senstype lp HHutili
        (pixelValsAt m senstype bufexporig originalmask buflight bufchro buf_a_cat
          buf_b_cat bufhh HHutili hueref chromaref lumaref sobelref meansobel blend2 lp
          original transformed cx cy sk y x)) prev := by
  have hz0 : (pixelZone m lp ((lp.trans : ℚ) / 100) (cx + x) (cy + y)).1 ≠ 0 := by
    rw [hz]; decide
  rw [transit_shapedetect_inside m senstype bufexporig originalmask buflight bufchro
    buf_a_cat buf_b_cat bufhh HHutili hueref chromaref lumaref sobelref meansobel blend2
    lp original transformed cx cy sk y x hy hx hrow hz0 c]
  rw [hz]
  unfold switchStores
  rw [if_pos hrL]
  simp only [show (2 : ℤ) ≠ 0 by decide, show (2 : ℤ) ≠ 1 by decide, if_false, if_true]

/-- C25 (amended): continuity at the outer boundary.  In `transit_shapedetect`
with no mask preview, at a Transition pixel the loops visit whose zone weight is
0 and whose blurred luma divided by 327.68 exceeds 0.1: unless the hue block is
entered (tool code 0, `HHutili` and a non-zero hue delta), the chroma is written
`CLIPC (a_orig)`, `CLIPC (b_orig)`; for the tool codes 0, 1, 2, 3, 4, 6, 8, 9 the
luma is written `CLIP (L_orig)`, and for the other tool codes (5 and 7, which
act on the chroma only) the luma is not written and keeps the value the output
had before the call.  When the hue block is entered the chroma is recombined as
`CLIPC (sqrt (a_orig^2 + b_orig^2) * cos (h) * fa)` and
`CLIPC (sqrt (a_orig^2 + b_orig^2) * sin (h) * fb)`, with `h` the hue of the
blurred original wrapped to one turn, `fa = a_orig / (a_orig + ea)`,
`fb = b_orig / (b_orig + eb)`, and `ea`, `eb` equal to 0.001 when the original
value is 0 and 0 otherwise. -/
theorem transit_shapedetect_outer_boundary (m : Libm) (senstype : ℤ)
    (bufexporig originalmask : LabImage)
    (buflight bufchro buf_a_cat buf_b_cat bufhh : ℤ → ℤ → ℚ) (HHutili : Bool)
    (hueref chromaref lumaref sobelref meansobel : ℚ) (blend2 : ℤ → ℤ → ℚ)
    (lp : local_params) (original transformed : LabImage) (cx cy sk : ℤ) (y x : ℤ)
    (hp : previewShow senstype lp = false)
    (hy : 0 ≤ y ∧ y < transformed.H) (hx : 0 ≤ x ∧ x < transformed.W)
    (hrow : isZone0 lp (cy + y) = false)
    (hrL : (origblur m senstype lp original transformed sk).L y x / (8192 / 25) > 1 / 10)
    (hzw : pixelZone m lp ((lp.trans : ℚ) / 100) (cx + x) (cy + y) = (1, 0)) :
    let out := transit_shapedetect m senstype bufexporig originalmask buflight bufchro
      buf_a_cat buf_b_cat bufhh HHutili hueref chromaref lumaref sobelref meansobel blend2
      lp original transformed cx cy sk
    let hhro : ℚ :=
      if HHutili then
        bufhh (cy + y - truncInt (lp.yc - lp.lyT)) (cx + x - truncInt (lp.xc - lp.lxL))
      else 0
    let rhue := m.atan2 ((origblur m senstype lp original transformed sk).b y x)
      ((origblur m senstype lp original transformed sk).a y x)
    (¬ (senstype = 0 ∧ HHutili = true ∧ hhro ≠ 0) →
        out.a y x = CLIPC (original.a y x) ∧ out.b y x = CLIPC (original.b y x))
    ∧ ((senstype = 0 ∨ senstype = 1 ∨ senstype = 2 ∨ senstype = 3 ∨ senstype = 4
          ∨ senstype = 6 ∨ senstype = 8 ∨ senstype = 9) →
        out.L y x = CLIP (original.L y x))
    ∧ (¬ (senstype = 0 ∨ senstype = 1 ∨ senstype = 2 ∨ senstype = 3 ∨ senstype = 4
          ∨ senstype = 6 ∨ senstype = 8 ∨ senstype = 9) →
        out.L y x = transformed.L y x)
    ∧ ((senstype = 0 ∧ HHutili = true ∧ hhro ≠ 0) →
        out.a y x
          = CLIPC (m.sqrt (SQR (original.a y x) + SQR (original.b y x))
              * m.cos (newhrOf m true hhro rhue 0)
              * (original.a y x
                  / (original.a y x + (if original.a y x = 0 then 1 / 1000 else 0))))
        ∧ out.b y x
          = CLIPC (m.sqrt (SQR (original.a y x) + SQR (original.b y x))
              * m.sin (newhrOf m true hhro rhue 0)
              * (original.b y x
                  / (original.b y x + (if original.b y x = 0 then 1 / 1000 else 0))))) := by
  intro out hhro rhue
  have hz1 : (pixelZone m lp ((lp.trans : ℚ) / 100) (cx + x) (cy + y)).1 = 1 := by
    rw [hzw]
  have hw : (pixelZone m lp ((lp.trans : ℚ) / 100) (cx + x) (cy + y)).2 = 0 := by
    rw [hzw]
  have key : ∀ c : Chan, ∀ prev : ℚ,
      lastStore c
        (if 0 ≤ y ∧ y < transformed.H ∧ 0 ≤ x ∧ x < transformed.W then
          pixelStores m senstype bufexporig originalmask buflight bufchro buf_a_cat
            buf_b_cat bufhh HHutili hueref chromaref lumaref sobelref meansobel blend2 lp
            original transformed cx cy sk y x
        else []) prev
      = lastStore c (zone1Stores m senstype lp HHutili 0
          (pixelValsAt m senstype bufexporig originalmask buflight bufchro buf_a_cat
            buf_b_cat bufhh HHutili hueref chromaref lumaref sobelref meansobel blend2 lp
            original transformed cx cy sk y x)) prev := by
    intro c prev
    rw [transit_shapedetect_zone1 m senstype bufexporig originalmask buflight bufchro
      buf_a_cat buf_b_cat bufhh HHutili hueref chromaref lumaref sobelref meansobel blend2
      lp original transformed cx cy sk y x hy hx hrow hrL hz1 c, hw]
  refine ⟨?_, ?_, ?_, ?_⟩
  · intro hh
    have h := zone1Stores_weight_zero_ab m senstype lp HHutili
      (pixelValsAt m senstype bufexporig originalmask buflight bufchro buf_a_cat
        buf_b_cat bufhh HHutili hueref chromaref lumaref sobelref meansobel blend2 lp
        original transformed cx cy sk y x) (transformed.a y x) (transformed.b y x) hp hh
    constructor
    · show lastStore Chan.a _ _ = _
      rw [key, h.1]
      rfl
    · show lastStore Chan.b _ _ = _
      rw [key, h.2]
      rfl
  · intro hs
    show lastStore Chan.L _ _ = _
    rw [key, (zone1Stores_weight_zero_L m senstype lp HHutili _ _ hp).1 hs]
    rfl
  · intro hs
    show lastStore Chan.L _ _ = _
    rw [key, (zone1Stores_weight_zero_L m senstype lp HHutili _ _ hp).2 hs]
  · rintro ⟨rfl, rfl, hro⟩
    have h := zone1Stores_weight_zero_hue m lp
      (pixelValsAt m 0 bufexporig originalmask buflight bufchro buf_a_cat
        buf_b_cat bufhh true hueref chromaref lumaref sobelref meansobel blend2 lp
        original transformed cx cy sk y x) (transformed.a y x) (transformed.b y x) hp hro
    constructor
    · show lastStore Chan.a _ _ = _
      rw [key, h.1]
      rfl
    · show lastStore Chan.b _ _ = _
      rw [key, h.2]
      rfl
theorem edge_pixel_zone : pixelZone libmLaw edgeParams (1 / 2) 0 0 = (1, 0) := by
  have hrad : sqrtExact (SQR (0 - -(9 / 70000)) + SQR (0 - -(3 / 17500))) = 15 / 70000 := by
    rw [show SQR ((0 : ℚ) - -(9 / 70000)) + SQR (0 - -(3 / 17500))
      = (15 / 70000) * (15 / 70000) by norm_num [SQR]]
    exact sqrtExact_sq _ (by norm_num)
  have href : sqrtExact (SQR (3 / 17500)
      * (1 + SQR ((0 - -(3 / 17500)) / (0 - -(9 / 70000) + 1 / 10000)))) = 15 / 70000 := by
    rw [show SQR ((3 : ℚ) / 17500)
      * (1 + SQR ((0 - -(3 / 17500)) / (0 - -(9 / 70000) + 1 / 10000)))
      = (15 / 70000) * (15 / 70000) by norm_num [SQR]]
    exact sqrtExact_sq _ (by norm_num)
  have hcond : ¬ |((0 : ℚ) - -(9 / 70000)) / (0 - -(3 / 17500) + 1 / 10000)|
      < |(3 / 17500 : ℚ) / 10| := by
    norm_num [abs_of_pos]
  have hw : calcLocalFactorrect libmLaw 0 0 (-(9 / 70000)) (3 / 17500) (-(3 / 17500)) 10
      (1 / 2) = 0 := by
    unfold calcLocalFactorrect
    simp only [if_neg hcond]
    show 1 / ((1 : ℚ) / 2 - 1) * (sqrtExact _ / sqrtExact _ - 1) = 0
    rw [hrad, href]
    norm_num
  have hv : calcTransitionrect libmLaw 0 0 (1 / 2) edgeParams 1
      = (1, calcLocalFactorrect libmLaw 0 0 (-(9 / 70000)) (3 / 17500) (-(3 / 17500)) 10
          (1 / 2)) := by
    norm_num [calcTransitionrect, edgeParams, spotParams]
  rw [hw] at hv
  unfold pixelZone
  rw [if_neg (by norm_num [edgeParams, spotParams]), if_pos (by norm_num [edgeParams, spotParams])]
  exact_mod_cast hv

/-- C25, witness: tone-mapping tool (code 8) on a one-pixel image whose pixel is
a transition pixel of weight 0 of the rectangle `edgeParams`; the original is
(8192, 100, 200), the processed buffer (1000, 5, 6) and the output held
(7, 2, 3) before the call.  The pixel is written with the original values. -/
theorem transit_shapedetect_outer_boundary_witness :
    (transit_shapedetect libmLaw 8 (constImage 1 1 1000 5 6) (constImage 1 1 0 0 0)
      (constPlane 7) (constPlane 7) (constPlane 0) (constPlane 0) (constPlane 0)
      false 0 0 25 0 0 (constPlane 0) edgeParams (constImage 1 1 8192 100 200)
      (constImage 1 1 7 2 3) 0 0 1).L 0 0 = CLIP 8192
    ∧ (transit_shapedetect libmLaw 8 (constImage 1 1 1000 5 6) (constImage 1 1 0 0 0)
      (constPlane 7) (constPlane 7) (constPlane 0) (constPlane 0) (constPlane 0)
      false 0 0 25 0 0 (constPlane 0) edgeParams (constImage 1 1 8192 100 200)
      (constImage 1 1 7 2 3) 0 0 1).a 0 0 = CLIPC 100
    ∧ (transit_shapedetect libmLaw 8 (constImage 1 1 1000 5 6) (constImage 1 1 0 0 0)
      (constPlane 7) (constPlane 7) (constPlane 0) (constPlane 0) (constPlane 0)
      false 0 0 25 0 0 (constPlane 0) edgeParams (constImage 1 1 8192 100 200)
      (constImage 1 1 7 2 3) 0 0 1).b 0 0 = CLIPC 200 :=
  have h := transit_shapedetect_outer_boundary libmLaw 8 (constImage 1 1 1000 5 6)
    (constImage 1 1 0 0 0) (constPlane 7) (constPlane 7) (constPlane 0) (constPlane 0)
    (constPlane 0) false 0 0 25 0 0 (constPlane 0) edgeParams (constImage 1 1 8192 100 200)
    (constImage 1 1 7 2 3) 0 0 1 0 0
    (by simp [previewShow, edgeParams, spotParams])
    (by simp [constImage]) (by simp [constImage])
    (by norm_num [isZone0, edgeParams, spotParams])
    (by norm_num [origblur, libmLaw, constImage, constPlane])
    (by
      have e : ((edgeParams.trans : ℚ) / 100) = 1 / 2 := by
        norm_num [edgeParams, spotParams]
      rw [e]
      exact edge_pixel_zone)
  ⟨h.2.1 (by decide), (h.1 (by decide)).1, (h.1 (by decide)).2⟩

/-- C25, counterexample: retinex-chroma tool (code 5) at the same transition
pixel of weight 0, blurred luma 8192 / 327.68 = 25, no preview.  The output luma
held 7 before the call and holds 7 after it, not the clamped original 8192:
tool code 5 writes no luma. -/
theorem transit_shapedetect_code5_luma_not_written :
    pixelZone libmLaw edgeParams ((edgeParams.trans : ℚ) / 100) (0 + 0) (0 + 0) = (1, 0)
    ∧ (origblur libmLaw 5 edgeParams (constImage 1 1 8192 100 200) (constImage 1 1 7 2 3)
        1).L 0 0 / (8192 / 25) > 1 / 10
    ∧ previewShow 5 edgeParams = false
    ∧ (transit_shapedetect libmLaw 5 (constImage 1 1 1000 5 6) (constImage 1 1 0 0 0)
      (constPlane 7) (constPlane 7) (constPlane 0) (constPlane 0) (constPlane 0)
      false 0 0 25 0 0 (constPlane 0) edgeParams (constImage 1 1 8192 100 200)
      (constImage 1 1 7 2 3) 0 0 1).L 0 0 = 7
    ∧ CLIP ((constImage 1 1 8192 100 200).L 0 0) = 8192 := by
  have hz : pixelZone libmLaw edgeParams ((edgeParams.trans : ℚ) / 100) (0 + 0) (0 + 0)
      = (1, 0) := by
    have e : ((edgeParams.trans : ℚ) / 100) = 1 / 2 := by
      norm_num [edgeParams, spotParams]
    rw [e]
    exact edge_pixel_zone
  have hrL : (origblur libmLaw 5 edgeParams (constImage 1 1 8192 100 200)
      (constImage 1 1 7 2 3) 1).L 0 0 / (8192 / 25) > 1 / 10 := by
    norm_num [origblur, libmLaw, constImage, constPlane]
  have hp : previewShow 5 edgeParams = false := by
    simp [previewShow, edgeParams, spotParams]
  refine ⟨hz, hrL, hp, ?_, by norm_num [CLIP, LIM, MAXVALF, constImage, constPlane]⟩
  show lastStore Chan.L _ _ = _
  rw [transit_shapedetect_zone1 libmLaw 5 (constImage 1 1 1000 5 6) (constImage 1 1 0 0 0)
    (constPlane 7) (constPlane 7) (constPlane 0) (constPlane 0) (constPlane 0)
    false 0 0 25 0 0 (constPlane 0) edgeParams (constImage 1 1 8192 100 200)
    (constImage 1 1 7 2 3) 0 0 1 0 0 (by simp [constImage]) (by simp [constImage])
    (by norm_num [isZone0, edgeParams, spotParams]) hrL (by rw [hz]) Chan.L]
  rw [hz]
  show lastStore Chan.L (zone1Stores libmLaw 5 edgeParams false 0 _) _ = 7
  rw [(zone1Stores_weight_zero_L libmLaw 5 edgeParams false _ _ hp).2 (by decide)]
  rfl
/-- C21 (amended): hue-aware recombination.  In `transit_shapedetect` for tool
code 0 with the hue curve active (`HHutili` and a non-zero hue delta at the
pixel), no mask preview, at a pixel the loops visit whose blurred luma divided by
327.68 exceeds 0.1, and where the radicand of the code,
`(a_orig + difa)^2 + b_orig^2 + difb`, equals `(a_orig + difa)^2 + (b_orig + difb)^2`
(as it does when `difb = 0`): the written chroma is
`a_out = CLIPC (C * cos (h) * fa)` and `b_out = CLIPC (C * sin (h) * fb)`, with
`C = sqrt ((a_orig + difa)^2 + (b_orig + difb)^2)` the post-delta chroma
magnitude, `h` the rotated hue angle, `fa = (a_orig + difa) / (a_orig + ea)`,
`fb = (b_orig + difb) / (b_orig + eb)`, and `ea`, `eb` equal to 0.001 when the
original value is 0 and 0 otherwise.  In zone 2 `difa = chra * flia - a_orig`; in
zone 1 this difference and the hue rotation are multiplied by the zone weight. -/
theorem transit_shapedetect_hue_recombination (m : Libm)
    (bufexporig originalmask : LabImage)
    (buflight bufchro buf_a_cat buf_b_cat bufhh : ℤ → ℤ → ℚ)
    (hueref chromaref lumaref sobelref meansobel : ℚ) (blend2 : ℤ → ℤ → ℚ)
    (lp : local_params) (original transformed : LabImage) (cx cy sk : ℤ) (y x : ℤ)
    (hp : previewShow 0 lp = false)
    (hy : 0 ≤ y ∧ y < transformed.H) (hx : 0 ≤ x ∧ x < transformed.W)
    (hrow : isZone0 lp (cy + y) = false)
    (hrL : (origblur m 0 lp original transformed sk).L y x / (8192 / 25) > 1 / 10)
    (hro : bufhh (cy + y - truncInt (lp.yc - lp.lyT)) (cx + x - truncInt (lp.xc - lp.lxL))
      ≠ 0) :
    let out := transit_shapedetect m 0 bufexporig originalmask buflight bufchro
      buf_a_cat buf_b_cat bufhh true hueref chromaref lumaref sobelref meansobel blend2
      lp original transformed cx cy sk
    let v := pixelValsAt m 0 bufexporig originalmask buflight bufchro buf_a_cat
      buf_b_cat bufhh true hueref chromaref lumaref sobelref meansobel blend2 lp
      original transformed cx cy sk y x
    let zw := pixelZone m lp ((lp.trans : ℚ) / 100) (cx + x) (cy + y)
    let ea : ℚ := if v.oa = 0 then 1 / 1000 else 0
    let eb : ℚ := if v.ob = 0 then 1 / 1000 else 0
    (zw.1 = 2 →
      SQR v.ob + (v.bufb * (fliab 0 lp v).2 - v.ob)
        = SQR (v.ob + (v.bufb * (fliab 0 lp v).2 - v.ob)) →
      out.a y x
        = CLIPC (m.sqrt (SQR (v.oa + (v.bufa * (fliab 0 lp v).1 - v.oa))
              + SQR (v.ob + (v.bufb * (fliab 0 lp v).2 - v.ob)))
            * m.cos (newhrOf m true v.hhro v.rhue ((1 / 100) * v.realhhdE))
            * ((v.oa + (v.bufa * (fliab 0 lp v).1 - v.oa)) / (v.oa + ea)))
      ∧ out.b y x
        = CLIPC (m.sqrt (SQR (v.oa + (v.bufa * (fliab 0 lp v).1 - v.oa))
              + SQR (v.ob + (v.bufb * (fliab 0 lp v).2 - v.ob)))
            * m.sin (newhrOf m true v.hhro v.rhue ((1 / 100) * v.realhhdE))
            * ((v.ob + (v.bufb * (fliab 0 lp v).2 - v.ob)) / (v.ob + eb))))
    ∧ (zw.1 = 1 →
      SQR v.ob + (v.bufb * (fliab 0 lp v).2 - v.ob) * zw.2
        = SQR (v.ob + (v.bufb * (fliab 0 lp v).2 - v.ob) * zw.2) →
      out.a y x
        = CLIPC (m.sqrt (SQR (v.oa + (v.bufa * (fliab 0 lp v).1 - v.oa) * zw.2)
              + SQR (v.ob + (v.bufb * (fliab 0 lp v).2 - v.ob) * zw.2))
            * m.cos (newhrOf m true v.hhro v.rhue ((1 / 100) * v.realhhdE * zw.2))
            * ((v.oa + (v.bufa * (fliab 0 lp v).1 - v.oa) * zw.2) / (v.oa + ea)))
      ∧ out.b y x
        = CLIPC (m.sqrt (SQR (v.oa + (v.bufa * (fliab 0 lp v).1 - v.oa) * zw.2)
              + SQR (v.ob + (v.bufb * (fliab 0 lp v).2 - v.ob) * zw.2))
            * m.sin (newhrOf m true v.hhro v.rhue ((1 / 100) * v.realhhdE * zw.2))
            * ((v.ob + (v.bufb * (fliab 0 lp v).2 - v.ob) * zw.2) / (v.ob + eb)))) := by
  intro out v zw ea eb
  have hro' : v.hhro ≠ 0 := hro
  constructor
  · intro hz hslip
    have h := zone2Stores_hue_ab m lp v (transformed.a y x) (transformed.b y x) hp hro'
    rw [add_assoc, hslip] at h
    constructor
    · show lastStore Chan.a _ _ = _
      rw [transit_shapedetect_zone2 m 0 bufexporig originalmask buflight bufchro
        buf_a_cat buf_b_cat bufhh true hueref chromaref lumaref sobelref meansobel blend2
        lp original transformed cx cy sk y x hy hx hrow hrL hz Chan.a]
      exact h.1
    · show lastStore Chan.b _ _ = _
      rw [transit_shapedetect_zone2 m 0 bufexporig originalmask buflight bufchro
        buf_a_cat buf_b_cat bufhh true hueref chromaref lumaref sobelref meansobel blend2
        lp original transformed cx cy sk y x hy hx hrow hrL hz Chan.b]
      exact h.2
  · intro hz hslip
    have h := zone1Stores_hue_ab m lp zw.2 v (transformed.a y x) (transformed.b y x) hp hro'
    rw [add_assoc, hslip] at h
    constructor
    · show lastStore Chan.a _ _ = _
      rw [transit_shapedetect_zone1 m 0 bufexporig originalmask buflight bufchro
        buf_a_cat buf_b_cat bufhh true hueref chromaref lumaref sobelref meansobel blend2
        lp original transformed cx cy sk y x hy hx hrow hrL hz Chan.a]
      exact h.1
    · show lastStore Chan.b _ _ = _
      rw [transit_shapedetect_zone1 m 0 bufexporig originalmask buflight bufchro
        buf_a_cat buf_b_cat bufhh true hueref chromaref lumaref sobelref meansobel blend2
        lp original transformed cx cy sk y x hy hx hrow hrL hz Chan.b]
      exact h.2
theorem example_hue_gate :
    pixelGate libmQ 0 (constImage 1 1 0 0 0) 25 (constPlane 0) (spotParams 0 50 50)
      (prelude libmQ (spotParams 0 50 50) 0 0 0 0)
      (origblur libmQ 0 (spotParams 0 50 50) (constImage 1 1 8192 32768 0)
        (constImage 1 1 7 2 3) 1)
      (constImage 1 1 7 2 3) 2 0 1 0 0 = 0 := by
  have hd : pixel_dE libmQ 0 (constImage 1 1 0 0 0) 25 (constPlane 0) (spotParams 0 50 50)
      (prelude libmQ (spotParams 0 50 50) 0 0 0 0)
      (origblur libmQ 0 (spotParams 0 50 50) (constImage 1 1 8192 32768 0)
        (constImage 1 1 7 2 3) 1)
      (constImage 1 1 7 2 3) 2 0 1 0 0 = 100 := by
    norm_num [pixel_dE, spotParams, useAnyMask, prelude, origblur, constImage, constPlane,
      SQR, libmQ, rat_sqrt_10000]
  unfold pixelGate
  rw [hd]
  norm_num [reducdE, gateBase, varsens, spotParams, mindE, maxdE, minscope, maxscope, libmQ]

theorem example_hue_vals :
    pixelValsAt libmQ 0 (constImage 1 1 8192 16384 0) (constImage 1 1 0 0 0)
      (constPlane 0) (constPlane 0) (constPlane 0) (constPlane 0) (constPlane 1) true
      0 0 25 0 0 (constPlane 0) (spotParams 0 50 50) (constImage 1 1 8192 32768 0)
      (constImage 1 1 7 2 3) 2 0 1 0 0
    = { rhue := 0, hhro := 1, realstrdE := 0, realstradE := 0, realstrbdE := 0,
        realstrchdE := 0, realhhdE := 0, bufL := 8192, bufa := 16384, bufb := 0,
        oL := 8192, oa := 32768, ob := 0 } := by
  unfold pixelValsAt
  simp only [example_hue_gate]
  simp only [origblur, constImage, constPlane, libmQ, zero_mul, if_true]

theorem example_hue_chroma :
    libmQ.sqrt (SQR (32768 + (16384 * 1 - 32768)) + SQR (0 + (0 * 1 - 0))) = 16384 := by
  show Rat.sqrt _ = _
  rw [show SQR ((32768 : ℚ) + (16384 * 1 - 32768)) + SQR (0 + (0 * 1 - 0)) = 16384 * 16384 by
    norm_num [SQR], Rat.sqrt_eq]
  norm_num

/-- C21, witness: colour tool on a one-pixel image at image coordinates (2, 0),
inside the ellipse; original chroma (32768, 0), processed chroma (16384, 0), hue
delta 1, gate 0 (the reference chroma is 100 away).  Then `difa = -16384`,
`difb = 0`, `C = 16384`, `h = 0`, `fa = 1/2`, `fb = 0`, and the written chroma
is (8192, 0). -/
theorem transit_shapedetect_hue_recombination_witness :
    (transit_shapedetect libmQ 0 (constImage 1 1 8192 16384 0) (constImage 1 1 0 0 0)
      (constPlane 0) (constPlane 0) (constPlane 0) (constPlane 0) (constPlane 1) true
      0 0 25 0 0 (constPlane 0) (spotParams 0 50 50) (constImage 1 1 8192 32768 0)
      (constImage 1 1 7 2 3) 2 0 1).a 0 0 = 8192
    ∧ (transit_shapedetect libmQ 0 (constImage 1 1 8192 16384 0) (constImage 1 1 0 0 0)
      (constPlane 0) (constPlane 0) (constPlane 0) (constPlane 0) (constPlane 1) true
      0 0 25 0 0 (constPlane 0) (spotParams 0 50 50) (constImage 1 1 8192 32768 0)
      (constImage 1 1 7 2 3) 2 0 1).b 0 0 = 0 := by
  have hf : fliab 0 (spotParams 0 50 50)
      { rhue := 0, hhro := 1, realstrdE := 0, realstradE := 0, realstrbdE := 0,
        realstrchdE := 0, realhhdE := 0, bufL := 8192, bufa := 16384, bufb := 0,
        oL := 8192, oa := 32768, ob := 0 } = (1, 1) :=
    fliab_gate_zero _ _ _ rfl rfl rfl
  have h := (transit_shapedetect_hue_recombination libmQ (constImage 1 1 8192 16384 0)
    (constImage 1 1 0 0 0) (constPlane 0) (constPlane 0) (constPlane 0) (constPlane 0)
    (constPlane 1) 0 0 25 0 0 (constPlane 0) (spotParams 0 50 50)
    (constImage 1 1 8192 32768 0) (constImage 1 1 7 2 3) 2 0 1 0 0
    (by simp [previewShow, spotParams])
    (by simp [constImage]) (by simp [constImage])
    (by simp [isZone0, spotParams])
    (by norm_num [origblur, libmQ, constImage, constPlane])
    (by norm_num [constPlane])).1
    (by norm_num [pixelZone, spotParams, calcTransition, calcTransitionQuadrant, SQR])
    (by rw [example_hue_vals, hf]; norm_num [SQR])
  rw [example_hue_vals, hf] at h
  simp only [example_hue_chroma] at h
  rw [h.1, h.2]
  norm_num [newhrOf, CLIPC, libmQ]

/-- C21, counterexample: the input of the witness.  The written `a` is 8192,
while the claim's `CLIPC (C * cos (h))` with the post-delta chroma magnitude
`C = sqrt ((32768 - 16384)^2 + (0 + 0)^2) = 16384` and the rotated hue `h = 0`
is 16384: the code multiplies by `fa = (a_orig + difa) / a_orig = 1/2`.  Here
`difb = 0`, so the radicand of the code equals the claim's. -/
theorem transit_shapedetect_hue_extra_factor :
    (pixelZone libmQ (spotParams 0 50 50) (1 / 2) 2 0).1 = 2
    ∧ (transit_shapedetect libmQ 0 (constImage 1 1 8192 16384 0) (constImage 1 1 0 0 0)
      (constPlane 0) (constPlane 0) (constPlane 0) (constPlane 0) (constPlane 1) true
      0 0 25 0 0 (constPlane 0) (spotParams 0 50 50) (constImage 1 1 8192 32768 0)
      (constImage 1 1 7 2 3) 2 0 1).a 0 0 = 8192
    ∧ CLIPC (libmQ.sqrt (SQR (32768 + (16384 * 1 - 32768)) + SQR (0 + (0 * 1 - 0)))
        * libmQ.cos (newhrOf libmQ true 1 0 ((1 / 100) * 0))) = 16384 := by
  have hf : fliab 0 (spotParams 0 50 50)
      { rhue := 0, hhro := 1, realstrdE := 0, realstradE := 0, realstrbdE := 0,
        realstrchdE := 0, realhhdE := 0, bufL := 8192, bufa := 16384, bufb := 0,
        oL := 8192, oa := 32768, ob := 0 } = (1, 1) :=
    fliab_gate_zero _ _ _ rfl rfl rfl
  have hc : libmQ.sqrt (SQR (32768 + (16384 * 1 - 32768)) + SQR 0 + (0 * 1 - 0)) = 16384 := by
    show Rat.sqrt _ = _
    rw [show SQR ((32768 : ℚ) + (16384 * 1 - 32768)) + SQR 0 + (0 * 1 - 0) = 16384 * 16384 by
      norm_num [SQR], Rat.sqrt_eq]
    norm_num
  have hz : (pixelZone libmQ (spotParams 0 50 50) (((spotParams 0 50 50).trans : ℚ) / 100)
      (2 + 0) (0 + 0)).1 = 2 := by
    norm_num [pixelZone, spotParams, calcTransition, calcTransitionQuadrant, SQR]
  refine ⟨by norm_num [pixelZone, spotParams, calcTransition, calcTransitionQuadrant, SQR],
    ?_, ?_⟩
  · show lastStore Chan.a _ _ = _
    rw [transit_shapedetect_zone2 libmQ 0 (constImage 1 1 8192 16384 0)
      (constImage 1 1 0 0 0) (constPlane 0) (constPlane 0) (constPlane 0) (constPlane 0)
      (constPlane 1) true 0 0 25 0 0 (constPlane 0) (spotParams 0 50 50)
      (constImage 1 1 8192 32768 0) (constImage 1 1 7 2 3) 2 0 1 0 0
      (by simp [constImage]) (by simp [constImage]) (by simp [isZone0, spotParams])
      (by norm_num [origblur, libmQ, constImage, constPlane]) hz Chan.a]
    rw [example_hue_vals]
    show lastStore Chan.a (zone2Stores libmQ 0 (spotParams 0 50 50) true _) _ = 8192
    rw [(zone2Stores_hue_ab libmQ (spotParams 0 50 50) _ _ 0
      (by simp [previewShow, spotParams]) (by norm_num)).1, hf]
    simp only [hc]
    norm_num [newhrOf, CLIPC, libmQ]
  · rw [example_hue_chroma]
    norm_num [newhrOf, CLIPC, libmQ]

end Locallab
